import Mathlib

/-!
# Antik::ZIP::CZIP — a shallow embedding of the ZIP archive engine

Source: `src/classes/CZIP.cpp`.  The class `CZIP` derives from `CZIPIO`
(`CZIP.hpp`, `CZIPIO.hpp`, `CZIPIO.cpp`), which is not part of the sources at
hand; every definition that stands for a piece of that layer carries a doc
comment starting `Modelled from the spec:`.  zlib (`crc32`, `deflate`,
`inflate`) and the host file system (`lstat64`, `localtime`) are external
collaborators and appear as parameters.

The Base64 codec of `Antik::SMTP::CSMTP` (`src/classes/CSMTP.cpp`) is embedded
in the namespace `Antik.SMTP`.

Conventions
* bytes are natural numbers, byte strings are lists (`Bytes`);
* machine integers are `Nat` with an explicit `% 2 ^ w` where an assignment
  narrows a value that need not fit (`sub64` where a subtraction can wrap);
* an operation of the class is a function `CZIP → Except ZipError α × CZIP`:
  the second component is the object as the call (or the throw) leaves it;
* loops carry a fuel that the model itself computes; `ZipError.hang` is the
  outcome of a loop that the source never leaves;
* the copy loops hand zlib their lengths as they are: the narrowing to zlib's
  32-bit `uInt` (`toUInt`) is not part of them, so that they are the loops of
  the code for I/O buffers below 2^32 bytes;
* the clock and the time zone that `contents()` reads are the parameter
  `Calendar` of `CZIP.contentsAt`; `CZIP.contents` is the listing before
  `mktime` has normalised the modification times.
-/

set_option autoImplicit false
set_option maxRecDepth 100000

namespace Antik.ZIP

/-- A byte string (`std::string`, `std::vector<std::uint8_t>`). -/
abbrev Bytes := List Nat

/-! ## Little-endian fields (`putField` / `getField` of the record codec) -/

/-- Modelled from the spec: `putField` of `CZIPIO` at width 16 ("all integers
little-endian"). -/
def putField16 (n : Nat) : Bytes := [n % 256, n / 256 % 256]

/-- Modelled from the spec: `putField` of `CZIPIO` at width 32. -/
def putField32 (n : Nat) : Bytes :=
  [n % 256, n / 256 % 256, n / 65536 % 256, n / 16777216 % 256]

/-- Modelled from the spec: `putField` of `CZIPIO` at width 64. -/
def putField64 (n : Nat) : Bytes :=
  putField32 (n % 4294967296) ++ putField32 (n / 4294967296 % 4294967296)

/-- Modelled from the spec: `getField` of `CZIPIO` at width 16, reading at
index `i` of a buffer. -/
def getField16 (b : Bytes) (i : Nat) : Nat :=
  b.getD i 0 % 256 + 256 * (b.getD (i + 1) 0 % 256)

/-- Modelled from the spec: `getField` of `CZIPIO` at width 32. -/
def getField32 (b : Bytes) (i : Nat) : Nat :=
  getField16 b i + 65536 * getField16 b (i + 2)

/-- Modelled from the spec: `getField` of `CZIPIO` at width 64. -/
def getField64 (b : Bytes) (i : Nat) : Nat :=
  getField32 b i + 4294967296 * getField32 b (i + 4)

/-! ## Constants of `CZIP.hpp` -/

/-- Modelled from the spec: `kZIPCompressionStore` of `CZIP.hpp`
("0 = store"). -/
def kZIPCompressionStore : Nat := 0

/-- Modelled from the spec: `kZIPCompressionDeflate` of `CZIP.hpp`
("8 = deflate"). -/
def kZIPCompressionDeflate : Nat := 8

/-- Modelled from the spec: `kZIPVersion10` of `CZIP.hpp` (version "1.0",
store, no ZIP64). -/
def kZIPVersion10 : Nat := 10

/-- Modelled from the spec: `kZIPVersion20` of `CZIP.hpp` (the version of a
default-initialised header: deflate, no ZIP64). -/
def kZIPVersion20 : Nat := 20

/-- Modelled from the spec: `kZIPVersion45` of `CZIP.hpp` (version "4.5",
ZIP64). -/
def kZIPVersion45 : Nat := 45

/-- Modelled from the spec: `kZIPCreatorUnix` of `CZIP.hpp` (archives are
marked as created on Unix). -/
def kZIPCreatorUnix : Nat := 3

/-- The value `static_cast<std::uint32_t>(~0)`. -/
def sentinel32 : Nat := 4294967295

/-- The value `static_cast<std::uint16_t>(~0)`. -/
def sentinel16 : Nat := 65535

/-- Modelled from the spec: `CZIPIO::fieldRequires64bits` ("the true 64-bit
value exceeds the representable range of its primary-record field"). -/
def fieldRequires64bits (field : Nat) : Bool := decide (sentinel32 < field)

/-- Modelled from the spec: `CZIPIO::fieldRequires32bits`, the 16-bit
counterpart of `fieldRequires64bits`. -/
def fieldRequires32bits (field : Nat) : Bool := decide (sentinel16 < field)

/-- Modelled from the spec: `CZIPIO::fieldOverflow` on a 32-bit field ("a
32-bit size/offset field holding the sentinel value `0xFFFFFFFF`"). -/
def fieldOverflow32 (field : Nat) : Bool := decide (field = sentinel32)

/-- Modelled from the spec: `CZIPIO::fieldOverflow` on a 16-bit field ("a
16-bit count field holding `0xFFFF`"). -/
def fieldOverflow16 (field : Nat) : Bool := decide (field = sentinel16)

/-! ## Records of `CZIP.hpp` -/

/-- Modelled from the spec: `LocalFileHeader` of `CZIP.hpp`; the fields are
the ones `CZIP.cpp` assigns, the layout is §6. -/
structure LocalFileHeader where
  creatorVersion : Nat
  bitFlag : Nat
  compression : Nat
  modificationTime : Nat
  modificationDate : Nat
  crc32 : Nat
  compressedSize : Nat
  uncompressedSize : Nat
  fileNameLength : Nat
  extraFieldLength : Nat
  fileNameStr : Bytes
  extraField : Bytes
deriving DecidableEq, Repr

/-- Modelled from the spec: `CentralDirectoryFileHeader` of `CZIP.hpp`. -/
structure CentralDirectoryFileHeader where
  creatorVersion : Nat
  extractorVersion : Nat
  bitFlag : Nat
  compression : Nat
  modificationTime : Nat
  modificationDate : Nat
  crc32 : Nat
  compressedSize : Nat
  uncompressedSize : Nat
  fileNameLength : Nat
  extraFieldLength : Nat
  fileCommentLength : Nat
  diskNoStart : Nat
  internalFileAttrib : Nat
  externalFileAttrib : Nat
  fileHeaderOffset : Nat
  fileNameStr : Bytes
  extraField : Bytes
  fileCommentStr : Bytes
deriving DecidableEq, Repr

/-- Modelled from the spec: `Zip64ExtendedInfoExtraField` of `CZIP.hpp`, the
64-bit shadow of {originalSize, compressedSize, fileHeaderOffset}. -/
structure Zip64ExtendedInfoExtraField where
  originalSize : Nat
  compressedSize : Nat
  fileHeaderOffset : Nat
deriving DecidableEq, Repr

/-- Modelled from the spec: `EOCentralDirectoryRecord` of `CZIP.hpp`. -/
structure EOCentralDirectoryRecord where
  diskNumber : Nat
  startDiskNumber : Nat
  numberOfCentralDirRecords : Nat
  totalCentralDirRecords : Nat
  sizeOfCentralDirRecords : Nat
  offsetCentralDirRecords : Nat
  commentLength : Nat
  comment : Bytes
deriving DecidableEq, Repr

/-- Modelled from the spec: `Zip64EOCentralDirectoryRecord` of `CZIP.hpp`. -/
structure Zip64EOCentralDirectoryRecord where
  totalRecordSize : Nat
  creatorVersion : Nat
  extractorVersion : Nat
  diskNumber : Nat
  startDiskNumber : Nat
  numberOfCentralDirRecords : Nat
  totalCentralDirRecords : Nat
  sizeOfCentralDirRecords : Nat
  offsetCentralDirRecords : Nat
deriving DecidableEq, Repr

/-- Modelled from the spec: `Zip64EOCentDirRecordLocator` of `CZIP.hpp`. -/
structure Zip64EOCentDirRecordLocator where
  startDiskNumber : Nat
  offset : Nat
  numberOfDisks : Nat
deriving DecidableEq, Repr

/-- Modelled from the spec: the default member initialisers of
`LocalFileHeader` in `CZIP.hpp` (a deflated, version 2.0 entry with every
size, length and checksum zero). -/
def LocalFileHeader.default : LocalFileHeader :=
  { creatorVersion := kZIPVersion20, bitFlag := 0, compression := kZIPCompressionDeflate,
    modificationTime := 0, modificationDate := 0, crc32 := 0, compressedSize := 0,
    uncompressedSize := 0, fileNameLength := 0, extraFieldLength := 0,
    fileNameStr := [], extraField := [] }

/-- Modelled from the spec: the default member initialisers of
`CentralDirectoryFileHeader` in `CZIP.hpp`. -/
def CentralDirectoryFileHeader.default : CentralDirectoryFileHeader :=
  { creatorVersion := (kZIPCreatorUnix <<< 8) ||| kZIPVersion20,
    extractorVersion := kZIPVersion20, bitFlag := 0,
    compression := kZIPCompressionDeflate, modificationTime := 0, modificationDate := 0,
    crc32 := 0, compressedSize := 0, uncompressedSize := 0, fileNameLength := 0,
    extraFieldLength := 0, fileCommentLength := 0, diskNoStart := 0,
    internalFileAttrib := 0, externalFileAttrib := 0, fileHeaderOffset := 0,
    fileNameStr := [], extraField := [], fileCommentStr := [] }

/-- Modelled from the spec: the default member initialisers of
`EOCentralDirectoryRecord` in `CZIP.hpp` ("a minimal empty
End-Of-Central-Directory record"). -/
def EOCentralDirectoryRecord.default : EOCentralDirectoryRecord :=
  { diskNumber := 0, startDiskNumber := 0, numberOfCentralDirRecords := 0,
    totalCentralDirRecords := 0, sizeOfCentralDirRecords := 0,
    offsetCentralDirRecords := 0, commentLength := 0, comment := [] }

/-- Modelled from the spec: the default member initialisers of
`Zip64EOCentralDirectoryRecord` in `CZIP.hpp`. -/
def Zip64EOCentralDirectoryRecord.default : Zip64EOCentralDirectoryRecord :=
  { totalRecordSize := 44, creatorVersion := (kZIPCreatorUnix <<< 8) ||| kZIPVersion45,
    extractorVersion := kZIPVersion45, diskNumber := 0, startDiskNumber := 0,
    numberOfCentralDirRecords := 0, totalCentralDirRecords := 0,
    sizeOfCentralDirRecords := 0, offsetCentralDirRecords := 0 }

/-- Modelled from the spec: the default member initialisers of
`Zip64EOCentDirRecordLocator` in `CZIP.hpp`. -/
def Zip64EOCentDirRecordLocator.default : Zip64EOCentDirRecordLocator :=
  { startDiskNumber := 0, offset := 0, numberOfDisks := 1 }

/-! ## The archive stream (`CZIPIO`, component ArchiveFileIO) -/

/-- Modelled from the spec: the backing file and `std::fstream` owned by
`CZIPIO` ("owns the archive's seekable byte stream; buffered sequential
read/write, absolute positioning, and I/O-error latching").  The file is a
byte at every offset below `size`; `present` says that it exists on disk.
Writes always succeed (a full disk is not modelled); a gap left by
positioning past the end before a write keeps whatever `data` holds there
(zero in a file made by `create`). -/
structure ZipFileStream where
  data : Nat → Nat
  size : Nat
  present : Bool
  pos : Nat
  fail : Bool
  gcount : Nat

/-- The `n` bytes of a file that start at offset `p`. -/
def readBytes (d : Nat → Nat) (p n : Nat) : Bytes :=
  (List.range n).map fun i => d (p + i)

/-- The file after `b` has been written over it at offset `p`. -/
def writeBytes (d : Nat → Nat) (p : Nat) (b : Bytes) : Nat → Nat :=
  fun i => if p ≤ i ∧ i < p + b.length then b.getD (i - p) 0 else d i

/-- Modelled from the spec: `CZIPIO::positionInZIPFile` ("all positioning is
absolute"). -/
def positionInZIPFile (s : ZipFileStream) (offset : Nat) : ZipFileStream :=
  { s with pos := offset }

/-- Modelled from the spec: `CZIPIO::currentPositionZIPFile`. -/
def currentPositionZIPFile (s : ZipFileStream) : Nat := s.pos

/-- Modelled from the spec: `CZIPIO::writeZIPFile`; the bytes overwrite the
file at the current position and extend it when they reach past its end
(nothing is ever cut off a file that is already longer; writing no bytes
changes nothing). -/
def writeZIPFile (s : ZipFileStream) (b : Bytes) : ZipFileStream :=
  if b = [] then s
  else { s with data := writeBytes s.data s.pos b,
                size := max s.size (s.pos + b.length),
                pos := s.pos + b.length }

/-- Modelled from the spec: `CZIPIO::readZIPFile` ("a short read or write
sets a sticky error flag inspected by callers before trusting buffer
contents").  Returns the stream and the bytes placed in the buffer. -/
def readZIPFile (s : ZipFileStream) (n : Nat) : ZipFileStream × Bytes :=
  let k := min n (s.size - s.pos)
  ({ s with pos := s.pos + k, gcount := k, fail := s.fail || decide (k < n) },
   readBytes s.data s.pos k)

/-- Modelled from the spec: `CZIPIO::readCountZIPFile`. -/
def readCountZIPFile (s : ZipFileStream) : Nat := s.gcount

/-- Modelled from the spec: `CZIPIO::errorInZIPFile` (the sticky flag). -/
def errorInZIPFile (s : ZipFileStream) : Bool := s.fail

/-- Modelled from the spec: `CZIPIO::openZIPFile` (`openForReadWrite`,
`openTruncateCreate`): with `trunc` the file is created empty, without it the
file has to exist ("fails with IOError when the underlying resource cannot be
opened"). -/
def openZIPFile (s : ZipFileStream) (trunc : Bool) : Option ZipFileStream :=
  if trunc then
    some { data := fun _ => 0, size := 0, present := true, pos := 0, fail := false, gcount := 0 }
  else if s.present then
    some { s with pos := 0, fail := false, gcount := 0 }
  else none

/-- Modelled from the spec: `CZIPIO::closeZIPFile` (releases the handle; the
file stays as it is). -/
def closeZIPFile (s : ZipFileStream) : ZipFileStream :=
  { s with pos := 0, fail := false, gcount := 0 }

/-! ## Errors -/

/-- Equality of results is decidable. -/
instance instDecidableEqExcept {ε α : Type} [DecidableEq ε] [DecidableEq α] :
    DecidableEq (Except ε α)
  | .ok a, .ok b =>
    if h : a = b then isTrue (by rw [h]) else isFalse (by intro h2; cases h2; exact h rfl)
  | .error a, .error b =>
    if h : a = b then isTrue (by rw [h]) else isFalse (by intro h2; cases h2; exact h rfl)
  | .ok _, .error _ => isFalse (by intro h; cases h)
  | .error _, .ok _ => isFalse (by intro h; cases h)

/-- The spec's error taxonomy (§7). -/
inductive ErrorKind
  | InvalidState | IOError | FormatError | CorruptData | ChecksumMismatch
  | UnsupportedCompression
deriving DecidableEq, Repr

/-- One constructor for each `throw Exception(...)` of `CZIP.cpp` that the
model can reach, two for the failures of the `CZIPIO` layer, and `hang` for a
loop that the source never leaves. -/
inductive ZipError
  /-- Thrown by `open`: "ZIP archive has already been opened." -/
  | alreadyOpened
  /-- Thrown by `create`: "ZIP archive should not be open." -/
  | shouldNotBeOpen
  /-- Thrown by `add`, `extract`, `contents`, `close`: "ZIP archive has not been opened." -/
  | notOpened
  /-- Thrown by `getFileAttributes`: "stat() error getting file attributes." -/
  | statAttributes
  /-- Thrown by `getFileSize` and by `fileExists`: "stat() error getting file size." -/
  | statFileSize
  /-- Thrown by `getFileModificationDateTime`: "stat() error getting file modified time." -/
  | statModifiedTime
  /-- Thrown by `deflateFile`: "Could not open source file for deflate." -/
  | openSourceDeflate
  /-- Thrown by `storeFile`: "Could not open source file for store." -/
  | openSourceStore
  /-- Thrown by `storeFile`: "Error reading source file to store in ZIP archive." -/
  | readSourceStore
  /-- Thrown by `deflateFile`: "deflateInit2() Error = ". -/
  | deflateInit2Error (rc : Int)
  /-- Thrown by `inflateFile`: "inflateInit2() Error = ". -/
  | inflateInit2Error (rc : Int)
  /-- Thrown by `inflateFile`: "Error reading ZIP archive file during inflate." -/
  | readArchiveInflate
  /-- Thrown by `inflateFile`: "Error inflating ZIP archive. = ". -/
  | inflateError (rc : Int)
  /-- Thrown by `deflateFile`: "Error writing deflated data to ZIP archive." -/
  | writeArchiveDeflate
  /-- Thrown by `extractFile`: "Error in reading ZIP archive file." -/
  | readArchiveExtract
  /-- Thrown by `storeFile`: "Error writing to ZIP archive." -/
  | writeArchiveStore
  /-- Thrown by `extract`: "File uses unsupported compression = ". -/
  | unsupportedCompression (compression : Nat)
  /-- Thrown by `extract`: "File ... has an invalid CRC." -/
  | invalidCRC
  /-- Raised by `CZIPIO::openZIPFile` when the archive cannot be opened. -/
  | openArchive
  /-- Raised by `CZIPIO::getZIPRecord` when a record's fixed portion cannot be read. -/
  | recordTruncated
  /-- Not an exception: the call never returns. -/
  | hang
deriving DecidableEq, Repr

/-- The place of each failure in the spec's taxonomy; `hang` has none. -/
def ZipError.kind : ZipError → Option ErrorKind
  | .alreadyOpened | .shouldNotBeOpen | .notOpened => some .InvalidState
  | .statAttributes | .statFileSize | .statModifiedTime | .openSourceDeflate
  | .openSourceStore | .readSourceStore | .readArchiveInflate | .writeArchiveDeflate
  | .readArchiveExtract | .writeArchiveStore | .openArchive => some .IOError
  | .deflateInit2Error _ | .inflateInit2Error _ | .inflateError _ => some .CorruptData
  | .unsupportedCompression _ => some .UnsupportedCompression
  | .invalidCRC => some .ChecksumMismatch
  | .recordTruncated => some .FormatError
  | .hang => none

/-! ## Record codec (`CZIPIO::putZIPRecord` / `CZIPIO::getZIPRecord`) -/

/-- Modelled from the spec: the bytes `CZIPIO::putZIPRecord(LocalFileHeader&)`
writes: the four-byte signature, then the §6 layout. -/
def LocalFileHeader.encode (h : LocalFileHeader) : Bytes :=
  putField32 0x04034b50 ++ putField16 h.creatorVersion ++ putField16 h.bitFlag ++
  putField16 h.compression ++ putField16 h.modificationTime ++
  putField16 h.modificationDate ++ putField32 h.crc32 ++ putField32 h.compressedSize ++
  putField32 h.uncompressedSize ++ putField16 h.fileNameLength ++
  putField16 h.extraFieldLength ++ h.fileNameStr ++ h.extraField

/-- Modelled from the spec: `CZIPIO::putZIPRecord(LocalFileHeader&)`. -/
def putZIPRecordLocal (s : ZipFileStream) (h : LocalFileHeader) : ZipFileStream :=
  writeZIPFile s h.encode

/-- Modelled from the spec: `CZIPIO::getZIPRecord(LocalFileHeader&)`: the
fixed portion (30 bytes with the signature, which is not checked), then the
name and the extra field by the lengths just read. -/
def getZIPRecordLocal (s : ZipFileStream) : Except ZipError LocalFileHeader × ZipFileStream :=
  let (s1, b) := readZIPFile s 30
  if b.length < 30 then (.error .recordTruncated, s1) else
  let (s2, name) := readZIPFile s1 (getField16 b 26)
  let (s3, extra) := readZIPFile s2 (getField16 b 28)
  (.ok { creatorVersion := getField16 b 4, bitFlag := getField16 b 6,
         compression := getField16 b 8, modificationTime := getField16 b 10,
         modificationDate := getField16 b 12, crc32 := getField32 b 14,
         compressedSize := getField32 b 18, uncompressedSize := getField32 b 22,
         fileNameLength := getField16 b 26, extraFieldLength := getField16 b 28,
         fileNameStr := name, extraField := extra }, s3)

/-- Modelled from the spec: the bytes
`CZIPIO::putZIPRecord(CentralDirectoryFileHeader&)` writes. -/
def CentralDirectoryFileHeader.encode (e : CentralDirectoryFileHeader) : Bytes :=
  putField32 0x02014b50 ++ putField16 e.creatorVersion ++ putField16 e.extractorVersion ++
  putField16 e.bitFlag ++ putField16 e.compression ++ putField16 e.modificationTime ++
  putField16 e.modificationDate ++ putField32 e.crc32 ++ putField32 e.compressedSize ++
  putField32 e.uncompressedSize ++ putField16 e.fileNameLength ++
  putField16 e.extraFieldLength ++ putField16 e.fileCommentLength ++
  putField16 e.diskNoStart ++ putField16 e.internalFileAttrib ++
  putField32 e.externalFileAttrib ++ putField32 e.fileHeaderOffset ++
  e.fileNameStr ++ e.extraField ++ e.fileCommentStr

/-- Modelled from the spec: `CZIPIO::putZIPRecord(CentralDirectoryFileHeader&)`. -/
def putZIPRecordCentral (s : ZipFileStream) (e : CentralDirectoryFileHeader) : ZipFileStream :=
  writeZIPFile s e.encode

/-- Modelled from the spec: `CZIPIO::getZIPRecord(CentralDirectoryFileHeader&)`:
the fixed portion (46 bytes with the signature), then name, extra field and
comment by the lengths just read. -/
def getZIPRecordCentral (s : ZipFileStream) :
    Except ZipError CentralDirectoryFileHeader × ZipFileStream :=
  let (s1, b) := readZIPFile s 46
  if b.length < 46 then (.error .recordTruncated, s1) else
  let (s2, name) := readZIPFile s1 (getField16 b 28)
  let (s3, extra) := readZIPFile s2 (getField16 b 30)
  let (s4, comment) := readZIPFile s3 (getField16 b 32)
  (.ok { creatorVersion := getField16 b 4, extractorVersion := getField16 b 6,
         bitFlag := getField16 b 8, compression := getField16 b 10,
         modificationTime := getField16 b 12, modificationDate := getField16 b 14,
         crc32 := getField32 b 16, compressedSize := getField32 b 20,
         uncompressedSize := getField32 b 24, fileNameLength := getField16 b 28,
         extraFieldLength := getField16 b 30, fileCommentLength := getField16 b 32,
         diskNoStart := getField16 b 34, internalFileAttrib := getField16 b 36,
         externalFileAttrib := getField32 b 38, fileHeaderOffset := getField32 b 42,
         fileNameStr := name, extraField := extra, fileCommentStr := comment }, s4)

/-- Modelled from the spec: the bytes
`CZIPIO::putZIPRecord(EOCentralDirectoryRecord&)` writes. -/
def EOCentralDirectoryRecord.encode (r : EOCentralDirectoryRecord) : Bytes :=
  putField32 0x06054b50 ++ putField16 r.diskNumber ++ putField16 r.startDiskNumber ++
  putField16 r.numberOfCentralDirRecords ++ putField16 r.totalCentralDirRecords ++
  putField32 r.sizeOfCentralDirRecords ++ putField32 r.offsetCentralDirRecords ++
  putField16 r.commentLength ++ r.comment

/-- Modelled from the spec: `CZIPIO::putZIPRecord(EOCentralDirectoryRecord&)`. -/
def putZIPRecordEOCD (s : ZipFileStream) (r : EOCentralDirectoryRecord) : ZipFileStream :=
  writeZIPFile s r.encode

/-- Modelled from the spec: `CZIPIO::getZIPRecord(EOCentralDirectoryRecord&)`
("reads the End-Of-Central-Directory record at EOF-relative search
(implementation may assume it is the terminal fixed-size record, as no
archive comment variability is handled)"): the record is the last 22 bytes of
the file. -/
def getZIPRecordEOCD (s : ZipFileStream) :
    Except ZipError EOCentralDirectoryRecord × ZipFileStream :=
  if s.size < 22 then (.error .recordTruncated, { s with fail := true }) else
  let (s1, b) := readZIPFile (positionInZIPFile s (s.size - 22)) 22
  (.ok { diskNumber := getField16 b 4, startDiskNumber := getField16 b 6,
         numberOfCentralDirRecords := getField16 b 8,
         totalCentralDirRecords := getField16 b 10,
         sizeOfCentralDirRecords := getField32 b 12,
         offsetCentralDirRecords := getField32 b 16,
         commentLength := getField16 b 20, comment := [] }, s1)

/-- Modelled from the spec: the bytes
`CZIPIO::putZIPRecord(Zip64EOCentralDirectoryRecord&)` writes. -/
def Zip64EOCentralDirectoryRecord.encode (r : Zip64EOCentralDirectoryRecord) : Bytes :=
  putField32 0x06064b50 ++ putField64 r.totalRecordSize ++ putField16 r.creatorVersion ++
  putField16 r.extractorVersion ++ putField32 r.diskNumber ++ putField32 r.startDiskNumber ++
  putField64 r.numberOfCentralDirRecords ++ putField64 r.totalCentralDirRecords ++
  putField64 r.sizeOfCentralDirRecords ++ putField64 r.offsetCentralDirRecords

/-- Modelled from the spec: `CZIPIO::putZIPRecord(Zip64EOCentralDirectoryRecord&)`. -/
def putZIPRecordEOCD64 (s : ZipFileStream) (r : Zip64EOCentralDirectoryRecord) :
    ZipFileStream :=
  writeZIPFile s r.encode

/-- Modelled from the spec: the bytes
`CZIPIO::putZIPRecord(Zip64EOCentDirRecordLocator&)` writes. -/
def Zip64EOCentDirRecordLocator.encode (l : Zip64EOCentDirRecordLocator) : Bytes :=
  putField32 0x07064b50 ++ putField32 l.startDiskNumber ++ putField64 l.offset ++
  putField32 l.numberOfDisks

/-- Modelled from the spec: `CZIPIO::putZIPRecord(Zip64EOCentDirRecordLocator&)`. -/
def putZIPRecordLocator (s : ZipFileStream) (l : Zip64EOCentDirRecordLocator) :
    ZipFileStream :=
  writeZIPFile s l.encode

/-- Modelled from the spec: `CZIPIO::getZIPRecord(Zip64EOCentralDirectoryRecord&)`
("also reads the ZIP64 End-Of-Central-Directory record"): the locator is the
20 bytes in front of the End-Of-Central-Directory record and gives the offset
of the 56-byte ZIP64 record. -/
def getZIPRecordEOCD64 (s : ZipFileStream) :
    Except ZipError Zip64EOCentralDirectoryRecord × ZipFileStream :=
  if s.size < 42 then (.error .recordTruncated, { s with fail := true }) else
  let (s1, l) := readZIPFile (positionInZIPFile s (s.size - 42)) 20
  let (s2, b) := readZIPFile (positionInZIPFile s1 (getField64 l 8)) 56
  if b.length < 56 then (.error .recordTruncated, s2) else
  (.ok { totalRecordSize := getField64 b 4, creatorVersion := getField16 b 12,
         extractorVersion := getField16 b 14, diskNumber := getField32 b 16,
         startDiskNumber := getField32 b 20, numberOfCentralDirRecords := getField64 b 24,
         totalCentralDirRecords := getField64 b 32,
         sizeOfCentralDirRecords := getField64 b 40,
         offsetCentralDirRecords := getField64 b 48 }, s2)

/-! ## The ZIP64 extended information extra field -/

/-- Modelled from the spec: `CZIPIO::putZip64ExtendedInfoExtraField` (tag
`0x0001`, data size, then "original-size(8, present if sentineled),
compressed-size(8, present if sentineled), header-offset(8, present if
sentineled)").  The writer is handed the 64-bit values only, so "sentineled"
is what `addFileHeaderAndContents` makes of them: it sentinels the two size
fields together, exactly when the original size needs 64 bits (lines
452–459), and the header offset exactly when the offset needs 64 bits (lines
443–448).  The length of the field therefore does not depend on the
compressed size, which is why the source can write the field a second time
(lines 536–538) without refreshing `extraFieldLength`. -/
def putZip64ExtendedInfoExtraField (info : Zip64ExtendedInfoExtraField) : Bytes :=
  let body :=
    (if fieldRequires64bits info.originalSize then
      putField64 info.originalSize ++ putField64 info.compressedSize else []) ++
    (if fieldRequires64bits info.fileHeaderOffset then putField64 info.fileHeaderOffset else [])
  putField16 1 ++ putField16 body.length ++ body

/-- The index of the data of the first block tagged `0x0001` in an extra
field made of (tag, size, data) blocks. -/
def findZip64Block (extra : Bytes) : Nat → Nat → Option Nat
  | 0, _ => none
  | fuel + 1, i =>
    if extra.length < i + 4 then none
    else if getField16 extra i = 1 then some (i + 4)
    else findZip64Block extra fuel (i + 4 + getField16 extra (i + 2))

/-- Modelled from the spec: `CZIPIO::getZip64ExtendedInfoExtraField` ("for
each entry whose 32-bit size/offset fields are sentineled, parses its ZIP64
extra field to populate true values"): `info` comes in holding the 32-bit
fields, and each one that holds the sentinel is replaced by the next 64-bit
value of the block. -/
def getZip64ExtendedInfoExtraField (info : Zip64ExtendedInfoExtraField) (extra : Bytes) :
    Zip64ExtendedInfoExtraField :=
  match findZip64Block extra (extra.length + 1) 0 with
  | none => info
  | some p0 =>
    let o := fieldOverflow32 info.originalSize
    let c := fieldOverflow32 info.compressedSize
    let h := fieldOverflow32 info.fileHeaderOffset
    let p1 := if o then p0 + 8 else p0
    let p2 := if c then p1 + 8 else p1
    { originalSize := if o then getField64 extra p0 else info.originalSize,
      compressedSize := if c then getField64 extra p1 else info.compressedSize,
      fileHeaderOffset := if h then getField64 extra p2 else info.fileHeaderOffset }

/-! ## External collaborators: zlib and the host file system -/

/-- zlib's `Z_OK`. -/
def Z_OK : Int := 0
/-- zlib's `Z_STREAM_END`. -/
def Z_STREAM_END : Int := 1
/-- zlib's `Z_NEED_DICT`. -/
def Z_NEED_DICT : Int := 2
/-- zlib's `Z_DATA_ERROR`. -/
def Z_DATA_ERROR : Int := -3
/-- zlib's `Z_MEM_ERROR`. -/
def Z_MEM_ERROR : Int := -4

/-- The external codec and checksum, consumed as a black box.

* `crc32 c b` is zlib's `crc32(c, b, len)`; `crc32 0 []` is `crc32(0L, Z_NULL, 0)`.
  Its values are 32-bit by zlib's contract, so storing one in a `std::uint32_t`
  is not written as a narrowing.
* `deflateInit2` / `inflateInit2` give the return code and the fresh stream.
* `deflate st chunk finish` stands for the calls `deflate(&strm, flush)` that
  `deflateFile` makes for one input chunk (`flush` is `Z_FINISH` when `finish`):
  the new stream, every output byte those calls hand over, and the last return
  code.
* `inflate st chunk` likewise for `inflate(&strm, Z_NO_FLUSH)`: the new
  stream, the output bytes, and the return code of the last call.

The callers' inner loops cut the output into buffer-sized pieces; a call that
fills the whole output buffer is one that did not report an error.  Buffer
lengths are natural numbers: the narrowing of `avail_in` / `avail_out` to
zlib's `uInt` is outside the model. -/
structure ZLib where
  crc32 : Nat → Bytes → Nat
  DState : Type
  deflateInit2 : Int × DState
  deflate : DState → Bytes → Bool → DState × Bytes × Int
  IState : Type
  inflateInit2 : Int × IState
  inflate : IState → Bytes → IState × Bytes × Int

/-- The fields of `std::tm` that the engine reads or writes. -/
structure Tm where
  tm_sec : Int
  tm_min : Int
  tm_hour : Int
  tm_mday : Int
  tm_mon : Int
  tm_year : Int
deriving DecidableEq, Repr

/-- What the host file system knows of a path: the `lstat64` result
(`st_mode`, `st_size`, and `st_mtime` as `std::localtime` breaks it down) and
the bytes an `std::ifstream` opened on the path delivers. -/
structure HostFile where
  st_mode : Nat
  st_size : Nat
  mtime : Tm
  content : Bytes
deriving DecidableEq, Repr

/-- The host file system: `none` is a path on which `lstat64` fails.  A path
that `lstat64` sees can be opened for reading: one that cannot (a dangling
symbolic link, a file without read permission), on which the code throws
when it opens the source, is outside the model. -/
abbrev HostFS := Bytes → Option HostFile

/-- The macro `S_ISDIR` of `<sys/stat.h>`: `(m & S_IFMT) == S_IFDIR`. -/
def S_ISDIR (m : Nat) : Bool := (m &&& 0o170000) == 0o040000

/-- The C expression `x & (2 ^ k - 1)` on an `int`. -/
def maskBits (x : Int) (k : Nat) : Nat := (x % (2 : Int) ^ k).toNat

/-- The `uint64_t` subtraction `a - b`. -/
def sub64 (a b : Nat) : Nat := (a % 2 ^ 64 + 2 ^ 64 - b % 2 ^ 64) % 2 ^ 64

/-! ## `CZIP`: private methods -/

/-- The data members of `CZIP` and of its base `CZIPIO`. -/
structure CZIP where
  bOpen : Bool
  bModified : Bool
  bZIP64 : Bool
  offsetToEndOfLocalFileHeaders : Nat
  zipCentralDirectory : List CentralDirectoryFileHeader
  zipIOBufferSize : Nat
  zipFileStream : ZipFileStream

/-- `CZIP::FileDetail` (of `CZIP.hpp`; the fields are the ones `contents`
assigns, `bZIP64` starts out false). -/
structure FileDetail where
  fileNameStr : Bytes
  fileCommentStr : Bytes
  uncompressedSize : Nat
  compressedSize : Nat
  compression : Nat
  externalFileAttrib : Nat
  creatorVersion : Nat
  extraField : Bytes
  modificationDateTime : Tm
  bZIP64 : Bool
deriving DecidableEq, Repr

/-- `CZIP::convertModificationDateTime`, lines 96–101: the six fields as
assigned, before `mktime` normalises them (the other fields of the `std::tm`
come from the clock and are not kept).  The function as a whole, with the
clock and `mktime`, is `convertModificationDateTimeAt`. -/
def convertModificationDateTime (dateWord timeWord : Nat) : Tm :=
  { tm_sec := ((timeWord &&& 0b11111) >>> 2 : Nat),
    tm_min := ((timeWord &&& 0b11111100000) >>> 5 : Nat),
    tm_hour := ((timeWord &&& 0b1111100000000000) >>> 11 : Nat),
    tm_mday := ((dateWord &&& 0b11111 : Nat) : Int),
    tm_mon := (((dateWord &&& 0b111100000) >>> 5 : Nat) : Int) - 1,
    tm_year := (((dateWord &&& 0b1111111000000000) >>> 9 : Nat) : Int) + 80 }

/-- The inner `do … while (avail_out == 0)` of `CZIP::inflateFile` for the
output `out` the codec hands over on one input chunk: every call that fills
the buffer is written out and checksummed, the last call returns `rc`.
Result: the running CRC, and the destination file as the loop leaves it. -/
def inflateInner (Z : ZLib) (bufSize : Nat) :
    Nat → Bytes → Int → Bytes → Nat → Except ZipError Nat × Bytes
  | 0, _, _, dest, _ => (.error .hang, dest)
  | fuel + 1, out, rc, dest, crc =>
    if bufSize ≤ out.length then
      inflateInner Z bufSize fuel (out.drop bufSize) rc (dest ++ out.take bufSize)
        (Z.crc32 crc (out.take bufSize))
    else if rc = Z_NEED_DICT ∨ rc = Z_DATA_ERROR ∨ rc = Z_MEM_ERROR then
      (.error (.inflateError (if rc = Z_NEED_DICT then Z_DATA_ERROR else rc)), dest)
    else (.ok (Z.crc32 crc out), dest ++ out)

/-- The outer `do … while (inflateResult != Z_STREAM_END)` of
`CZIP::inflateFile`. -/
def inflateLoop (Z : ZLib) (bufSize : Nat) :
    Nat → Z.IState → Nat → ZipFileStream → Bytes → Nat →
      Except ZipError Nat × ZipFileStream × Bytes
  | 0, _, _, s, dest, _ => (.error .hang, s, dest)
  | fuel + 1, st, fileSize, s, dest, crc =>
    let r := readZIPFile s (min fileSize bufSize)
    if errorInZIPFile r.1 then (.error .readArchiveInflate, r.1, dest)
    else if readCountZIPFile r.1 = 0 then (.ok crc, r.1, dest)
    else
      let c := Z.inflate st r.2
      match inflateInner Z bufSize (c.2.1.length + 1) c.2.1 c.2.2 dest crc with
      | (.error e, dest1) => (.error e, r.1, dest1)
      | (.ok crc1, dest1) =>
        if c.2.2 = Z_STREAM_END then (.ok crc1, r.1, dest1)
        else inflateLoop Z bufSize fuel c.1 (sub64 fileSize bufSize) r.1 dest1 crc1

/-- `CZIP::inflateFile`: inflate `fileSize` bytes of the archive, from the
current position, into a destination file that is created empty.  Result:
the CRC-32, the archive stream, the destination file. -/
def inflateFile (Z : ZLib) (bufSize : Nat) (s : ZipFileStream) (fileSize : Nat) :
    Except ZipError Nat × ZipFileStream × Bytes :=
  let crc := Z.crc32 0 []
  if fileSize = 0 then (.ok crc, s, [])
  else if Z.inflateInit2.1 ≠ Z_OK then (.error (.inflateInit2Error Z.inflateInit2.1), s, [])
  else inflateLoop Z bufSize (s.size + 2) Z.inflateInit2.2 fileSize s [] crc

/-- The inner `do … while (avail_out == 0)` of `CZIP::deflateFile` for the
output `out` the codec hands over on one input chunk: each piece is written
to the archive and counted.  Result: the compressed size so far. -/
def deflateInner (bufSize : Nat) :
    Nat → Bytes → ZipFileStream → Nat → Except ZipError Nat × ZipFileStream
  | 0, _, s, _ => (.error .hang, s)
  | fuel + 1, out, s, compressedSize =>
    let s1 := writeZIPFile s (out.take bufSize)
    if errorInZIPFile s1 then (.error .writeArchiveDeflate, s1)
    else if (out.take bufSize).length = bufSize then
      deflateInner bufSize fuel (out.drop bufSize) s1 (compressedSize + (out.take bufSize).length)
    else (.ok (compressedSize + (out.take bufSize).length), s1)

/-- The outer `do … while (flushRemainder != Z_FINISH)` of
`CZIP::deflateFile`; `src` is what is left of the source stream. -/
def deflateLoop (Z : ZLib) (bufSize : Nat) :
    Nat → Z.DState → Bytes → Nat → Nat → Nat → ZipFileStream →
      Except ZipError (Nat × Nat) × ZipFileStream
  | 0, _, _, _, _, _, s => (.error .hang, s)
  | fuel + 1, st, src, fileSize, crc, compressedSize, s =>
    let want := min fileSize bufSize
    let chunk := src.take want
    let eof := decide (src.length < want)
    let fileSize1 := fileSize - chunk.length
    let crc1 := Z.crc32 crc chunk
    let finish := eof || decide (fileSize1 = 0)
    let c := Z.deflate st chunk finish
    match deflateInner bufSize (c.2.1.length + 1) c.2.1 s compressedSize with
    | (.error e, s1) => (.error e, s1)
    | (.ok compressedSize1, s1) =>
      if finish then (.ok (crc1, compressedSize1), s1)
      else deflateLoop Z bufSize fuel c.1 (src.drop want) fileSize1 crc1 compressedSize1 s1

/-- `CZIP::deflateFile`: deflate the source file into the archive at the
current position.  Result: the pair (CRC-32, compressed size). -/
def deflateFile (Z : ZLib) (fs : HostFS) (bufSize : Nat) (s : ZipFileStream)
    (fileNameStr : Bytes) (fileSize : Nat) : Except ZipError (Nat × Nat) × ZipFileStream :=
  match fs fileNameStr with
  | none => (.error .openSourceDeflate, s)
  | some f =>
    if Z.deflateInit2.1 ≠ Z_OK then (.error (.deflateInit2Error Z.deflateInit2.1), s)
    else deflateLoop Z bufSize (fileSize + 1) Z.deflateInit2.2 f.content fileSize
      (Z.crc32 0 []) 0 s

/-- The `while (fileSize)` loop of `CZIP::extractFile`. -/
def extractLoop (Z : ZLib) (bufSize : Nat) :
    Nat → Nat → ZipFileStream → Bytes → Nat → Except ZipError Nat × ZipFileStream × Bytes
  | 0, _, s, dest, _ => (.error .hang, s, dest)
  | fuel + 1, fileSize, s, dest, crc =>
    if fileSize = 0 then (.ok crc, s, dest)
    else
      let r := readZIPFile s (min fileSize bufSize)
      if errorInZIPFile r.1 then (.error .readArchiveExtract, r.1, dest)
      else extractLoop Z bufSize fuel (fileSize - min fileSize bufSize) r.1 (dest ++ r.2)
        (Z.crc32 crc r.2)

/-- `CZIP::extractFile`: copy `fileSize` stored bytes of the archive, from
the current position, into a destination file that is created empty. -/
def extractFile (Z : ZLib) (bufSize : Nat) (s : ZipFileStream) (fileSize : Nat) :
    Except ZipError Nat × ZipFileStream × Bytes :=
  extractLoop Z bufSize (fileSize + 1) fileSize s [] (Z.crc32 0 [])

/-- The `while (fileSize)` loop of `CZIP::storeFile`; `src` is what is left
of the source stream (a short read sets its failbit). -/
def storeLoop (bufSize : Nat) :
    Nat → Bytes → Nat → ZipFileStream → Except ZipError Unit × ZipFileStream
  | 0, _, _, s => (.error .hang, s)
  | fuel + 1, src, fileSize, s =>
    if fileSize = 0 then (.ok (), s)
    else if src.length < min fileSize bufSize then (.error .readSourceStore, s)
    else
      let s1 := writeZIPFile s (src.take (min fileSize bufSize))
      if errorInZIPFile s1 then (.error .writeArchiveStore, s1)
      else storeLoop bufSize fuel (src.drop (min fileSize bufSize))
        (fileSize - min fileSize bufSize) s1

/-- `CZIP::storeFile`: copy the source file into the archive at the current
position. -/
def storeFile (fs : HostFS) (bufSize : Nat) (s : ZipFileStream) (fileNameStr : Bytes)
    (fileSize : Nat) : Except ZipError Unit × ZipFileStream :=
  match fs fileNameStr with
  | none => (.error .openSourceStore, s)
  | some f => storeLoop bufSize (fileSize + 1) f.content fileSize s

/-- `CZIP::getFileAttributes`, lines 337–338: `st_mode` shifted 16 bits left
in a `std::uint32_t`. -/
def unixAttributes (st_mode : Nat) : Nat := ((st_mode % 2 ^ 32) <<< 16) % 2 ^ 32

/-- `CZIP::getFileAttributes`. -/
def getFileAttributes (fs : HostFS) (fileNameStr : Bytes) : Except ZipError Nat :=
  match fs fileNameStr with
  | some f => .ok (unixAttributes f.st_mode)
  | none => .error .statAttributes

/-- `CZIP::getFileSize`, lines 359–363: directories have size 0. -/
def statFileSize (f : HostFile) : Nat := if S_ISDIR f.st_mode then 0 else f.st_size

/-- `CZIP::getFileSize`. -/
def getFileSize (fs : HostFS) (fileNameStr : Bytes) : Except ZipError Nat :=
  match fs fileNameStr with
  | some f => .ok (statFileSize f)
  | none => .error .statFileSize

/-- `CZIP::fileExists`: throws when `lstat64` fails, otherwise returns
`rc == 0`. -/
def fileExists (fs : HostFS) (fileNameStr : Bytes) : Except ZipError Bool :=
  match fs fileNameStr with
  | none => .error .statFileSize
  | some _ => .ok true

/-- `CZIP::getFileModificationDateTime`, lines 403–408: the pair (date word,
time word) of a broken-down time. -/
def dosDateTime (t : Tm) : Nat × Nat :=
  let modificationTime :=
    (maskBits t.tm_sec 5 ||| (maskBits t.tm_min 6 <<< 5) ||| (maskBits t.tm_hour 5 <<< 11))
      % 2 ^ 16
  let modificatioDate :=
    (maskBits t.tm_mday 5 ||| (maskBits (t.tm_mon + 1) 4 <<< 5) |||
      (maskBits (t.tm_year - 80) 7 <<< 9)) % 2 ^ 16
  (modificatioDate, modificationTime)

/-- `CZIP::getFileModificationDateTime`. -/
def getFileModificationDateTime (fs : HostFS) (fileNameStr : Bytes) :
    Except ZipError (Nat × Nat) :=
  match fs fileNameStr with
  | some f => .ok (dosDateTime f.mtime)
  | none => .error .statModifiedTime

/-- `CZIP::addFileHeaderAndContents`, lines 436–491: the directory entry as
it stands when the local file header is first written.  `offset` is
`info.fileHeaderOffset`, `originalSize` is `info.originalSize` (and
`info.compressedSize`).  (`fileNameStr.back()` on an empty name is undefined
behaviour in the source; the model lets the comparison with '/' come out as
"different".) -/
def initialDirectoryEntry (offset originalSize : Nat) (modification : Nat × Nat)
    (attributes : Nat) (zippedFileNameStr : Bytes) : CentralDirectoryFileHeader :=
  let info : Zip64ExtendedInfoExtraField :=
    { fileHeaderOffset := offset, originalSize := originalSize,
      compressedSize := originalSize }
  -- Save filename details
  let de0 : CentralDirectoryFileHeader :=
    { CentralDirectoryFileHeader.default with
      fileNameStr := zippedFileNameStr, fileNameLength := zippedFileNameStr.length % 2 ^ 16 }
  -- If current offset > 32 bits use ZIP64
  let de1 : CentralDirectoryFileHeader :=
    { de0 with
      fileHeaderOffset :=
        if fieldRequires64bits info.fileHeaderOffset then sentinel32
        else info.fileHeaderOffset % 2 ^ 32 }
  -- File size > 32 bits then use ZIP64
  let de2 : CentralDirectoryFileHeader :=
    { de1 with
      uncompressedSize :=
        if fieldRequires64bits info.originalSize then sentinel32
        else info.originalSize % 2 ^ 32,
      compressedSize :=
        if fieldRequires64bits info.originalSize then sentinel32
        else info.compressedSize % 2 ^ 32 }
  let bZIP64 : Bool :=
    fieldRequires64bits info.fileHeaderOffset || fieldRequires64bits info.originalSize
  -- Get file modified time and attributes.
  let de3 : CentralDirectoryFileHeader :=
    { de2 with modificationDate := modification.1, modificationTime := modification.2,
               externalFileAttrib := attributes }
  -- File is a directory so add trailing delimeter, set no compression and extractor version 1.0
  let isDir : Bool := S_ISDIR (de3.externalFileAttrib >>> 16)
  let addSlash : Bool := isDir && decide (de3.fileNameStr.getLast? ≠ some 47)
  let de4 : CentralDirectoryFileHeader :=
    { de3 with
      fileNameStr := if addSlash then de3.fileNameStr ++ [47] else de3.fileNameStr,
      fileNameLength :=
        if addSlash then (de3.fileNameLength + 1) % 2 ^ 16 else de3.fileNameLength,
      extractorVersion := if isDir then kZIPVersion10 else de3.extractorVersion,
      creatorVersion :=
        if isDir then (kZIPCreatorUnix <<< 8) ||| kZIPVersion10 else de3.creatorVersion,
      compression := if isDir then kZIPCompressionStore else de3.compression }
  -- > 4 GB Files so ZIP64.
  { de4 with
    extractorVersion := if bZIP64 then kZIPVersion45 else de4.extractorVersion,
    creatorVersion :=
      if bZIP64 then (kZIPCreatorUnix <<< 8) ||| kZIPVersion45 else de4.creatorVersion,
    extraField := if bZIP64 then putZip64ExtendedInfoExtraField info else de4.extraField,
    extraFieldLength :=
      if bZIP64 then (putZip64ExtendedInfoExtraField info).length % 2 ^ 16
      else de4.extraFieldLength }

/-- `CZIP::addFileHeaderAndContents`, lines 495–505: the local file header
copied from the directory entry. -/
def initialFileHeader (directoryEntry : CentralDirectoryFileHeader) : LocalFileHeader :=
  { LocalFileHeader.default with
    creatorVersion := directoryEntry.creatorVersion, bitFlag := directoryEntry.bitFlag,
    compression := directoryEntry.compression,
    modificationTime := directoryEntry.modificationTime,
    modificationDate := directoryEntry.modificationDate,
    uncompressedSize := directoryEntry.uncompressedSize,
    compressedSize := directoryEntry.compressedSize,
    fileNameLength := directoryEntry.fileNameLength,
    extraFieldLength := directoryEntry.extraFieldLength,
    fileNameStr := directoryEntry.fileNameStr, extraField := directoryEntry.extraField }

/-- The directory entry and the local file header that
`CZIP::addFileHeaderAndContents` first builds for a host file `f` added under
`zippedFileNameStr` when the end of the local file headers is at `offset`. -/
def entryFor (offset : Nat) (f : HostFile) (zippedFileNameStr : Bytes) :
    CentralDirectoryFileHeader :=
  initialDirectoryEntry offset (statFileSize f) (dosDateTime f.mtime)
    (unixAttributes f.st_mode) zippedFileNameStr

/-- `CZIP::addFileHeaderAndContents`. -/
def addFileHeaderAndContents (Z : ZLib) (fs : HostFS) (z : CZIP)
    (fileNameStr zippedFileNameStr : Bytes) : Except ZipError Unit × CZIP :=
  match getFileSize fs fileNameStr with
  | .error e => (.error e, z)
  | .ok originalSize =>
  -- Work from extended information 64 bit sizes
  let info : Zip64ExtendedInfoExtraField :=
    { fileHeaderOffset := z.offsetToEndOfLocalFileHeaders, originalSize := originalSize,
      compressedSize := originalSize }
  let bZIP64 : Bool :=
    fieldRequires64bits info.fileHeaderOffset || fieldRequires64bits info.originalSize
  match getFileModificationDateTime fs fileNameStr with
  | .error e => (.error e, z)
  | .ok modification =>
  match getFileAttributes fs fileNameStr with
  | .error e => (.error e, z)
  | .ok attributes =>
  let de5 := initialDirectoryEntry info.fileHeaderOffset info.originalSize modification
    attributes zippedFileNameStr
  let z1 : CZIP := { z with bZIP64 := if bZIP64 then true else z.bZIP64 }
  -- Copy information for file header and write to disk
  let fh0 := initialFileHeader de5
  let s1 := putZIPRecordLocal
    (positionInZIPFile z1.zipFileStream z1.offsetToEndOfLocalFileHeaders) fh0
  -- Write any file contents next
  if info.originalSize ≠ 0 then
    match deflateFile Z fs z1.zipIOBufferSize s1 fileNameStr info.originalSize with
    | (.error e, s2) => (.error e, { z1 with zipFileStream := s2 })
    | (.ok deflateValues, s2) =>
      let fh1 : LocalFileHeader := { fh0 with crc32 := deflateValues.1 }
      let de6 : CentralDirectoryFileHeader := { de5 with crc32 := deflateValues.1 }
      let info1 : Zip64ExtendedInfoExtraField := { info with compressedSize := deflateValues.2 }
      -- Save away current position next file header
      let offset1 := currentPositionZIPFile s2
      -- Back up to beginning of current local file header
      let s3 := positionInZIPFile s2 info1.fileHeaderOffset
      if decide (info1.compressedSize < info1.originalSize) || bZIP64 then
        if bZIP64 then
          let de7 : CentralDirectoryFileHeader :=
            { de6 with extraField := putZip64ExtendedInfoExtraField info1 }
          let fh2 : LocalFileHeader := { fh1 with extraField := de7.extraField }
          (.ok (), { z1 with zipFileStream := putZIPRecordLocal s3 fh2,
                             offsetToEndOfLocalFileHeaders := offset1,
                             zipCentralDirectory := z1.zipCentralDirectory ++ [de7],
                             bModified := true })
        else
          let de7 : CentralDirectoryFileHeader :=
            { de6 with compressedSize := info1.compressedSize % 2 ^ 32 }
          let fh2 : LocalFileHeader := { fh1 with compressedSize := info1.compressedSize % 2 ^ 32 }
          (.ok (), { z1 with zipFileStream := putZIPRecordLocal s3 fh2,
                             offsetToEndOfLocalFileHeaders := offset1,
                             zipCentralDirectory := z1.zipCentralDirectory ++ [de7],
                             bModified := true })
      else
        -- Store non-compressed file.
        let de7 : CentralDirectoryFileHeader :=
          { de6 with extractorVersion := kZIPVersion10, compression := kZIPCompressionStore,
                     compressedSize := info1.originalSize % 2 ^ 32 }
        let fh2 : LocalFileHeader :=
          { fh1 with creatorVersion := (kZIPCreatorUnix <<< 8) ||| kZIPVersion10,
                     compression := kZIPCompressionStore,
                     compressedSize := info1.originalSize % 2 ^ 32 }
        let s4 := putZIPRecordLocal s3 fh2
        match storeFile fs z1.zipIOBufferSize s4 fileNameStr info1.originalSize with
        | (.error e, s5) =>
          (.error e, { z1 with zipFileStream := s5, offsetToEndOfLocalFileHeaders := offset1 })
        | (.ok (), s5) =>
          (.ok (), { z1 with zipFileStream := s5,
                             offsetToEndOfLocalFileHeaders := currentPositionZIPFile s5,
                             zipCentralDirectory := z1.zipCentralDirectory ++ [de7],
                             bModified := true })
  else
    (.ok (), { z1 with zipFileStream := s1,
                       offsetToEndOfLocalFileHeaders := currentPositionZIPFile s1,
                       zipCentralDirectory := z1.zipCentralDirectory ++ [de5],
                       bModified := true })

/-- `CZIP::UpdateCentralDirectory`. -/
def UpdateCentralDirectory (z : CZIP) : CZIP :=
  if z.bModified then
    -- Position to end of local file headers
    let s0 := positionInZIPFile z.zipFileStream z.offsetToEndOfLocalFileHeaders
    -- Initialise central directory offset and size
    let r0 : Zip64EOCentralDirectoryRecord :=
      { Zip64EOCentralDirectoryRecord.default with
        numberOfCentralDirRecords := z.zipCentralDirectory.length,
        totalCentralDirRecords := z.zipCentralDirectory.length,
        offsetCentralDirRecords := currentPositionZIPFile s0 }
    -- Write Central Directory to ZIP archive
    let s1 := z.zipCentralDirectory.foldl putZIPRecordCentral s0
    -- Calculate Central Directory size in byes.
    let r : Zip64EOCentralDirectoryRecord :=
      { r0 with
        sizeOfCentralDirRecords := sub64 (currentPositionZIPFile s1) r0.offsetCentralDirRecords }
    let e : EOCentralDirectoryRecord :=
      { EOCentralDirectoryRecord.default with
        numberOfCentralDirRecords :=
          if fieldRequires32bits r.numberOfCentralDirRecords then sentinel16
          else r.numberOfCentralDirRecords % 2 ^ 16,
        totalCentralDirRecords :=
          if fieldRequires32bits r.totalCentralDirRecords then sentinel16
          else r.totalCentralDirRecords % 2 ^ 16,
        offsetCentralDirRecords :=
          if fieldRequires64bits r.offsetCentralDirRecords then sentinel32
          else r.offsetCentralDirRecords % 2 ^ 32,
        sizeOfCentralDirRecords :=
          if fieldRequires64bits r.sizeOfCentralDirRecords then sentinel32
          else r.sizeOfCentralDirRecords % 2 ^ 32,
        startDiskNumber :=
          if fieldRequires32bits r.startDiskNumber then sentinel16
          else r.startDiskNumber % 2 ^ 16,
        diskNumber :=
          if fieldRequires32bits r.diskNumber then sentinel16 else r.diskNumber % 2 ^ 16 }
    let bZIP64 : Bool :=
      fieldRequires32bits r.numberOfCentralDirRecords ||
      fieldRequires32bits r.totalCentralDirRecords ||
      fieldRequires64bits r.offsetCentralDirRecords ||
      fieldRequires64bits r.sizeOfCentralDirRecords ||
      fieldRequires32bits r.startDiskNumber || fieldRequires32bits r.diskNumber
    -- ZIP64 so write extension records
    let s2 :=
      if bZIP64 then
        let locator : Zip64EOCentDirRecordLocator :=
          { Zip64EOCentDirRecordLocator.default with offset := currentPositionZIPFile s1 }
        putZIPRecordLocator (putZIPRecordEOCD64 s1 r) locator
      else s1
    -- Write End Of Central Directory record
    { z with zipFileStream := putZIPRecordEOCD s2 e }
  else z

/-- The `for` loop of `CZIP::open` that reads the Central Directory: on each
turn the record read is pushed back and the ZIP64 flag is assigned. -/
def readCentralDirectory : Nat → CZIP → Except ZipError Unit × CZIP
  | 0, z => (.ok (), z)
  | n + 1, z =>
    match getZIPRecordCentral z.zipFileStream with
    | (.error e, s1) => (.error e, { z with zipFileStream := s1 })
    | (.ok directoryEntry, s1) =>
      readCentralDirectory n
        { z with zipFileStream := s1,
                 zipCentralDirectory := z.zipCentralDirectory ++ [directoryEntry],
                 bZIP64 := fieldOverflow32 directoryEntry.compressedSize ||
                   fieldOverflow32 directoryEntry.uncompressedSize ||
                   fieldOverflow32 directoryEntry.fileHeaderOffset }

namespace CZIP

/-! ## `CZIP`: public methods -/

/-- `CZIP::open`. -/
def «open» (z : CZIP) : Except ZipError Unit × CZIP :=
  if z.bOpen then (.error .alreadyOpened, z) else
  match openZIPFile z.zipFileStream false with
  | none => (.error .openArchive, z)
  | some s0 =>
  match getZIPRecordEOCD s0 with
  | (.error e, s1) => (.error e, { z with zipFileStream := s1 })
  | (.ok eocd, s1) =>
    -- If one of the central directory fields is to large to store so ZIP64
    if fieldOverflow16 eocd.totalCentralDirRecords ||
        fieldOverflow16 eocd.numberOfCentralDirRecords ||
        fieldOverflow32 eocd.sizeOfCentralDirRecords ||
        fieldOverflow16 eocd.totalCentralDirRecords ||
        fieldOverflow16 eocd.startDiskNumber ||
        fieldOverflow16 eocd.diskNumber ||
        fieldOverflow32 eocd.offsetCentralDirRecords then
      match getZIPRecordEOCD64 s1 with
      | (.error e, s2) => (.error e, { z with bZIP64 := true, zipFileStream := s2 })
      | (.ok eocd64, s2) =>
        match readCentralDirectory eocd64.numberOfCentralDirRecords
            { z with bZIP64 := true,
                     zipFileStream := positionInZIPFile s2 eocd64.offsetCentralDirRecords,
                     offsetToEndOfLocalFileHeaders := eocd64.offsetCentralDirRecords } with
        | (.error e, z1) => (.error e, z1)
        | (.ok (), z1) => (.ok (), { z1 with bOpen := true })
    else
      -- Normal Archive
      match readCentralDirectory eocd.numberOfCentralDirRecords
          { z with zipFileStream := positionInZIPFile s1 eocd.offsetCentralDirRecords,
                   offsetToEndOfLocalFileHeaders := eocd.offsetCentralDirRecords } with
      | (.error e, z1) => (.error e, z1)
      | (.ok (), z1) => (.ok (), { z1 with bOpen := true })

/-- The body of the `for` loop of `CZIP::contents` for one directory entry,
with the modification time as it stands before `mktime` (`CZIP.fileDetailAt`
has it as `mktime` leaves it). -/
def fileDetail (directoryEntry : CentralDirectoryFileHeader) : FileDetail :=
  let fileEntry : FileDetail :=
    { fileNameStr := directoryEntry.fileNameStr,
      fileCommentStr := directoryEntry.fileCommentStr,
      uncompressedSize := directoryEntry.uncompressedSize,
      compressedSize := directoryEntry.compressedSize,
      compression := directoryEntry.compression,
      externalFileAttrib := directoryEntry.externalFileAttrib,
      creatorVersion := directoryEntry.creatorVersion,
      extraField := directoryEntry.extraField,
      modificationDateTime :=
        convertModificationDateTime directoryEntry.modificationDate
          directoryEntry.modificationTime,
      bZIP64 := false }
  -- File size information stored in Extended information.
  if fieldOverflow32 directoryEntry.compressedSize ||
      fieldOverflow32 directoryEntry.uncompressedSize ||
      fieldOverflow32 directoryEntry.fileHeaderOffset then
    let extra := getZip64ExtendedInfoExtraField
      { compressedSize := directoryEntry.compressedSize,
        fileHeaderOffset := directoryEntry.fileHeaderOffset,
        originalSize := directoryEntry.uncompressedSize } fileEntry.extraField
    { fileEntry with uncompressedSize := extra.originalSize,
                     compressedSize := extra.compressedSize, bZIP64 := true }
  else fileEntry

/-- `CZIP::contents`, with the modification times as they stand before
`mktime` (`CZIP.contentsAt` is the call in its environment). -/
def contents (z : CZIP) : Except ZipError (List FileDetail) × CZIP :=
  if !z.bOpen then (.error .notOpened, z)
  else (.ok (z.zipCentralDirectory.map fileDetail), z)

/-- `CZIP::extract`, lines 834–846: the 64-bit sizes and offset of a
directory entry, taken from its ZIP64 extra field when one of its 32-bit
fields holds the sentinel. -/
def extendedInfoFor (directoryEntry : CentralDirectoryFileHeader) :
    Zip64ExtendedInfoExtraField :=
  -- Set up 64 bit data values if needed
  let extendedInfo : Zip64ExtendedInfoExtraField :=
    { compressedSize := directoryEntry.compressedSize,
      originalSize := directoryEntry.uncompressedSize,
      fileHeaderOffset := directoryEntry.fileHeaderOffset }
  -- If dealing with ZIP64 extract full 64 bit values from extended field
  if fieldOverflow32 directoryEntry.compressedSize ||
      fieldOverflow32 directoryEntry.uncompressedSize ||
      fieldOverflow32 directoryEntry.fileHeaderOffset then
    getZip64ExtendedInfoExtraField extendedInfo directoryEntry.extraField
  else extendedInfo

/-- `CZIP::extract`.  The third component is the destination file: `none`
when the call leaves it untouched, otherwise its contents (it is created
empty by `inflateFile` / `extractFile`). -/
def extract (Z : ZLib) (z : CZIP) (fileNameStr : Bytes) :
    Except ZipError Bool × CZIP × Option Bytes :=
  if !z.bOpen then (.error .notOpened, z, none) else
  match z.zipCentralDirectory.find? (fun directoryEntry =>
      directoryEntry.fileNameStr == fileNameStr) with
  | none => (.ok false, z, none)
  | some directoryEntry =>
    let extendedInfo := extendedInfoFor directoryEntry
    -- Move to and read file header
    match getZIPRecordLocal (positionInZIPFile z.zipFileStream extendedInfo.fileHeaderOffset) with
    | (.error e, s1) => (.error e, { z with zipFileStream := s1 }, none)
    | (.ok _, s1) =>
      -- Now positioned at file contents so extract
      if directoryEntry.compression = kZIPCompressionDeflate then
        match inflateFile Z z.zipIOBufferSize s1 extendedInfo.compressedSize with
        | (.error e, s2, dest) => (.error e, { z with zipFileStream := s2 }, some dest)
        | (.ok crc32, s2, dest) =>
          if crc32 ≠ directoryEntry.crc32 then
            (.error .invalidCRC, { z with zipFileStream := s2 }, some dest)
          else (.ok true, { z with zipFileStream := s2 }, some dest)
      else if directoryEntry.compression = kZIPCompressionStore then
        match extractFile Z z.zipIOBufferSize s1 extendedInfo.originalSize with
        | (.error e, s2, dest) => (.error e, { z with zipFileStream := s2 }, some dest)
        | (.ok crc32, s2, dest) =>
          if crc32 ≠ directoryEntry.crc32 then
            (.error .invalidCRC, { z with zipFileStream := s2 }, some dest)
          else (.ok true, { z with zipFileStream := s2 }, some dest)
      else
        (.error (.unsupportedCompression directoryEntry.compression),
          { z with zipFileStream := s1 }, none)

/-- `CZIP::create`. -/
def create (z : CZIP) : Except ZipError Unit × CZIP :=
  if z.bOpen then (.error .shouldNotBeOpen, z) else
  match openZIPFile z.zipFileStream true with
  | none => (.error .openArchive, z)
  | some s0 =>
    let s1 := putZIPRecordEOCD s0 EOCentralDirectoryRecord.default
    (.ok (), { z with zipFileStream := closeZIPFile s1 })

/-- `CZIP::close`. -/
def close (z : CZIP) : Except ZipError Unit × CZIP :=
  if !z.bOpen then (.error .notOpened, z) else
  -- Flush Central Directory to ZIP achive and clear
  let z1 := UpdateCentralDirectory z
  -- Reset end of local file header and close archive; reset object flags
  (.ok (), { z1 with zipCentralDirectory := [], offsetToEndOfLocalFileHeaders := 0,
                     zipFileStream := closeZIPFile z1.zipFileStream,
                     bOpen := false, bModified := false, bZIP64 := false })

/-- `CZIP::add`. -/
def add (Z : ZLib) (fs : HostFS) (z : CZIP) (fileNameStr zippedFileNameStr : Bytes) :
    Except ZipError Bool × CZIP :=
  if !z.bOpen then (.error .notOpened, z) else
  -- Check that an entry does not already exist
  if z.zipCentralDirectory.any (fun directoryEntry =>
      directoryEntry.fileNameStr == zippedFileNameStr) then (.ok false, z) else
  -- Add file if it exists
  match fileExists fs fileNameStr with
  | .error e => (.error e, z)
  | .ok true =>
    match addFileHeaderAndContents Z fs z fileNameStr zippedFileNameStr with
    | (.error e, z1) => (.error e, z1)
    | (.ok (), z1) => (.ok true, z1)
  | .ok false => (.ok false, z)

/-- `CZIP::isZIP64`. -/
def isZIP64 (z : CZIP) : Bool := z.bZIP64

/-- `CZIP::setZIPBufferSize`. -/
def setZIPBufferSize (z : CZIP) (newBufferSize : Nat) : CZIP :=
  { z with zipIOBufferSize := newBufferSize }

end CZIP

/-- A sequence of `add` calls on one object, each given as (source path,
archive name): the results are dropped and the object is threaded through
(after an exception the next call finds the object as the throw left it). -/
def CZIP.addAll (Z : ZLib) (fs : HostFS) : CZIP → List (Bytes × Bytes) → CZIP
  | z, [] => z
  | z, c :: rest => CZIP.addAll Z fs (CZIP.add Z fs z c.1 c.2).2 rest

/-- What the copy passes of `extract` (`inflateFile`, `extractFile`) can
raise: never the two failures that `extract` itself decides. -/
def ZipError.fromCopy (e : ZipError) : Prop :=
  e.kind ≠ some .UnsupportedCompression ∧ e.kind ≠ some .ChecksumMismatch

/-! ## Sessions, and the bytes of a flush -/

/-- The bytes of a Central Directory: the records of its entries, one after
the other. -/
def centralDirectoryBytes : List CentralDirectoryFileHeader → Bytes
  | [] => []
  | e :: rest => e.encode ++ centralDirectoryBytes rest

/-- A call that a client can make on an archive object, `close()` apart. -/
inductive SessionCall
  | add (fileNameStr zippedFileNameStr : Bytes)
  | extract (fileNameStr : Bytes)
  | contents
  | «open»
  | create
  | setZIPBufferSize (newBufferSize : Nat)

/-- The object after one call (the result, or the exception, is dropped). -/
def CZIP.call (Z : ZLib) (fs : HostFS) (z : CZIP) : SessionCall → CZIP
  | .add fileNameStr zippedFileNameStr => (CZIP.add Z fs z fileNameStr zippedFileNameStr).2
  | .extract fileNameStr => (CZIP.extract Z z fileNameStr).2.1
  | .contents => (CZIP.contents z).2
  | .open => (CZIP.open z).2
  | .create => (CZIP.create z).2
  | .setZIPBufferSize newBufferSize => CZIP.setZIPBufferSize z newBufferSize

/-- The object after a sequence of calls. -/
def CZIP.session (Z : ZLib) (fs : HostFS) : CZIP → List SessionCall → CZIP
  | z, [] => z
  | z, c :: rest => CZIP.session Z fs (CZIP.call Z fs z c) rest

/-- The ZIP64 End-Of-Central-Directory record of a directory of `count`
entries that takes `size` bytes at offset `offset` (the values that
`CZIP::UpdateCentralDirectory` gives `zip64EOCentralDirectory`). -/
def zip64EndRecordFor (count offset size : Nat) : Zip64EOCentralDirectoryRecord :=
  { Zip64EOCentralDirectoryRecord.default with
    numberOfCentralDirRecords := count, totalCentralDirRecords := count,
    sizeOfCentralDirRecords := size, offsetCentralDirRecords := offset }

/-- The End-Of-Central-Directory record of such a directory: each summary
value, or the sentinel of its field when it does not fit (the values that
`CZIP::UpdateCentralDirectory` gives `zipEOCentralDirectory`). -/
def endRecordFor (count offset size : Nat) : EOCentralDirectoryRecord :=
  { EOCentralDirectoryRecord.default with
    numberOfCentralDirRecords := if fieldRequires32bits count then sentinel16 else count,
    totalCentralDirRecords := if fieldRequires32bits count then sentinel16 else count,
    sizeOfCentralDirRecords := if fieldRequires64bits size then sentinel32 else size,
    offsetCentralDirRecords := if fieldRequires64bits offset then sentinel32 else offset }

/-- The bytes that `CZIP::UpdateCentralDirectory` writes behind the Central
Directory: the ZIP64 End-Of-Central-Directory record and its locator when one
of the summary values does not fit its field, then the End-Of-Central-Directory
record. -/
def endRecordsBytes (count offset size : Nat) : Bytes :=
  (if fieldRequires32bits count || fieldRequires64bits offset || fieldRequires64bits size then
    (zip64EndRecordFor count offset size).encode ++
      Zip64EOCentDirRecordLocator.encode
        { Zip64EOCentDirRecordLocator.default with offset := offset + size }
  else []) ++ (endRecordFor count offset size).encode

/-! ## Concrete instances -/

/-- ASCII text as a byte string. -/
def ascii (s : String) : Bytes := s.data.map Char.toNat

/-- A small stand-in for the deflate side of the codec: it keeps the input
until `Z_FINISH` and then emits `[0, n]` for `n` zero bytes and
`[1, n] ++ x ++ x` for any other input `x` of `n` bytes. -/
def toyDeflate (st chunk : Bytes) (finish : Bool) : Bytes × Bytes × Int :=
  if finish then
    ([], (if (st ++ chunk).all (fun b => b == 0) then [0, (st ++ chunk).length]
          else [1, (st ++ chunk).length] ++ (st ++ chunk) ++ (st ++ chunk)), Z_STREAM_END)
  else (st ++ chunk, [], Z_OK)

/-- The inflate side of the stand-in codec: it keeps the input until the
stream is complete, then hands over the data and reports `Z_STREAM_END`. -/
def toyInflate (st chunk : Bytes) : Bytes × Bytes × Int :=
  match st ++ chunk with
  | 0 :: n :: _ => ([], List.replicate n 0, Z_STREAM_END)
  | 1 :: n :: rest =>
    if 2 * n ≤ rest.length then ([], rest.take n, Z_STREAM_END) else (st ++ chunk, [], Z_OK)
  | _ => (st ++ chunk, [], Z_OK)

/-- A stand-in for zlib: a 32-bit running checksum and the toy codec. -/
def toyZLib : ZLib where
  crc32 := fun c b => b.foldl (fun a x => (a * 31 + x + 1) % 4294967296) c
  DState := Bytes
  deflateInit2 := (Z_OK, [])
  deflate := toyDeflate
  IState := Bytes
  inflateInit2 := (Z_OK, [])
  inflate := toyInflate

/-- A modification time: 2017-06-04 03:20:10. -/
def toyTm : Tm :=
  { tm_sec := 10, tm_min := 20, tm_hour := 3, tm_mday := 4, tm_mon := 5, tm_year := 117 }

/-- The contents of `z.bin`: 200 zero bytes (the toy codec deflates them to
two bytes). -/
def zeroBytes : Bytes := List.replicate 200 0

/-- The contents of `t.zip`: 70 bytes followed by the 22 bytes of an empty
End-Of-Central-Directory record, as at the end of an empty ZIP file (the toy
codec's deflate output for them is longer than they are). -/
def zipTailBytes : Bytes := List.replicate 70 7 ++ EOCentralDirectoryRecord.default.encode

/-- A host file system with four regular files and a directory. -/
def toyFS : HostFS := fun path =>
  if path = ascii "x.txt" then
    some { st_mode := 0o100644, st_size := 6, mtime := toyTm, content := [0, 0, 0, 0, 0, 0] }
  else if path = ascii "y.txt" then
    some { st_mode := 0o100644, st_size := 3, mtime := toyTm, content := [1, 2, 3] }
  else if path = ascii "z.bin" then
    some { st_mode := 0o100644, st_size := 200, mtime := toyTm, content := zeroBytes }
  else if path = ascii "t.zip" then
    some { st_mode := 0o100644, st_size := 92, mtime := toyTm, content := zipTailBytes }
  else if path = ascii "dir" then
    some { st_mode := 0o040755, st_size := 4096, mtime := toyTm, content := [] }
  else none

/-- A freshly constructed `CZIP` object: Closed, nothing in memory, no
backing file yet, a buffer of four bytes. -/
def freshArchive : CZIP where
  bOpen := false
  bModified := false
  bZIP64 := false
  offsetToEndOfLocalFileHeaders := 0
  zipCentralDirectory := []
  zipIOBufferSize := 4
  zipFileStream :=
    { data := fun _ => 0, size := 0, present := false, pos := 0, fail := false, gcount := 0 }

/-- The archive after `create()` and `open()`: Open and empty. -/
def emptyArchive : CZIP := (CZIP.open (CZIP.create freshArchive).2).2

/-- An Open archive whose local file headers end at offset 2^32 (what
`open()` leaves for an archive whose Central Directory starts there); the
98 bytes behind that offset stand for the old directory and end records. -/
def farArchive : CZIP where
  bOpen := true
  bModified := false
  bZIP64 := true
  offsetToEndOfLocalFileHeaders := 4294967296
  zipCentralDirectory := []
  zipIOBufferSize := 64
  zipFileStream :=
    { data := fun _ => 0, size := 4294967394, present := true, pos := 4294967296,
      fail := false, gcount := 0 }

/-- The backing file as `create()` leaves it: the 22 bytes of an empty
End-Of-Central-Directory record, handle released. -/
def createdStream : ZipFileStream :=
  { data := writeBytes (fun _ => 0) 0 EOCentralDirectoryRecord.default.encode,
    size := 22, present := true, pos := 0, fail := false, gcount := 0 }

/-- A host file system in which `big.bin` is a regular file whose size is
forced above `0xFFFFFFFF`: `lstat64` reports 2^32 + 5 bytes and the stream
ends after six zero bytes.  Every other path is as in `toyFS`. -/
def mockFS : HostFS := fun path =>
  if path = ascii "big.bin" then
    some { st_mode := 0o100644, st_size := 4294967301, mtime := toyTm,
           content := [0, 0, 0, 0, 0, 0] }
  else toyFS path

/-- The empty archive after `add("big.bin", "big")`. -/
def bigArchive : CZIP := (CZIP.add toyZLib mockFS emptyArchive (ascii "big.bin") (ascii "big")).2

/-- The archive `bigArchive` after `add("x.txt", "a.txt")`. -/
def bigSmallArchive : CZIP :=
  (CZIP.add toyZLib mockFS bigArchive (ascii "x.txt") (ascii "a.txt")).2

/-! ## Codec variants, an empty host file, the output of a deflate pass -/

/-- zlib's `Z_STREAM_ERROR`. -/
def Z_STREAM_ERROR : Int := -2

/-- zlib's `Z_BUF_ERROR`. -/
def Z_BUF_ERROR : Int := -5

/-- The codec `Z` with the return code of every `deflate` and `inflate` call
replaced by `rc`. -/
def ZLib.withResult (Z : ZLib) (rc : Int) : ZLib where
  crc32 := Z.crc32
  DState := Z.DState
  deflateInit2 := Z.deflateInit2
  deflate := fun st chunk finish =>
    ((Z.deflate st chunk finish).1, (Z.deflate st chunk finish).2.1, rc)
  IState := Z.IState
  inflateInit2 := Z.inflateInit2
  inflate := fun st chunk => ((Z.inflate st chunk).1, (Z.inflate st chunk).2.1, rc)

/-- A host file system with an empty regular file `e.txt`; every other path
is as in `toyFS`. -/
def emptyFileFS : HostFS := fun path =>
  if path = ascii "e.txt" then
    some { st_mode := 0o100644, st_size := 0, mtime := toyTm, content := [] }
  else toyFS path

/-- An archive file of ten bytes 9, open at its start (the toy codec takes no
prefix of it for a complete stream). -/
def ninesStream : ZipFileStream :=
  { data := fun _ => 9, size := 10, present := true, pos := 0, fail := false, gcount := 0 }

/-- A Central Directory entry as another tool may have written it: name "f",
compression method 99, local file header at offset 1000. -/
def foreignEntry : CentralDirectoryFileHeader :=
  { CentralDirectoryFileHeader.default with
    fileNameStr := ascii "f", fileNameLength := 1, compression := 99, fileHeaderOffset := 1000 }

/-- An archive file of 69 bytes: the Central Directory record of
`foreignEntry` (47 bytes, at offset 0) and an End-Of-Central-Directory record
that announces one entry at offset 0.  The local file header the entry points
to lies behind the end of the file. -/
def foreignStream : ZipFileStream :=
  { data := writeBytes (fun _ => 0) 0
      (foreignEntry.encode ++
        EOCentralDirectoryRecord.encode
          { EOCentralDirectoryRecord.default with
            numberOfCentralDirRecords := 1, totalCentralDirRecords := 1,
            sizeOfCentralDirRecords := 47, offsetCentralDirRecords := 0 }),
    size := 69, present := true, pos := 0, fail := false, gcount := 0 }

/-- The fresh object on the file `foreignStream`, after `open()`. -/
def foreignArchive : CZIP := (CZIP.open { freshArchive with zipFileStream := foreignStream }).2

/-- The archive that holds `x.txt` as `a.txt` (deflated) and `y.txt` as
`b.txt` (stored). -/
def twoFileArchive : CZIP :=
  CZIP.addAll toyZLib toyFS emptyArchive
    [(ascii "x.txt", ascii "a.txt"), (ascii "y.txt", ascii "b.txt")]

/-- The archive `z` with a directory in which every stored CRC-32 is one
more than it was. -/
def withWrongCRC (z : CZIP) : CZIP :=
  { z with zipCentralDirectory :=
      z.zipCentralDirectory.map fun e => { e with crc32 := e.crc32 + 1 } }

/-- The archive `z` with a directory in which every entry names the
compression method 99. -/
def withMethod99 (z : CZIP) : CZIP :=
  { z with zipCentralDirectory :=
      z.zipCentralDirectory.map fun e => { e with compression := 99 } }

/-- The output of an inflate pass over the input chunks `chunks`, after the
words of the spec ("reads the compressed bytes in buffer-sized chunks, feeds
each chunk to the external inflate codec, writes the output to the
destination"), not after the source: the codec is run over the chunks in
order and what it hands over is concatenated. -/
def inflateOutput (Z : ZLib) : Z.IState → List Bytes → Bytes
  | _, [] => []
  | st, chunk :: rest =>
    (Z.inflate st chunk).2.1 ++ inflateOutput Z (Z.inflate st chunk).1 rest

/-- A backing file as `foreignStream`, but whose End-Of-Central-Directory
record announces two entries where the Central Directory holds one. -/
def forgedStream : ZipFileStream :=
  { data := writeBytes (fun _ => 0) 0
      (foreignEntry.encode ++
        EOCentralDirectoryRecord.encode
          { EOCentralDirectoryRecord.default with
            numberOfCentralDirRecords := 2, totalCentralDirRecords := 2,
            sizeOfCentralDirRecords := 47, offsetCentralDirRecords := 0 }),
    size := 69, present := true, pos := 0, fail := false, gcount := 0 }

/-- The object after a failed `open()` on `forgedStream`: Closed, with the
one entry that was read before the failure still in memory. -/
def staleArchive : CZIP := (CZIP.open { freshArchive with zipFileStream := forgedStream }).2

/-- The toy codec on a host without memory for a deflate state:
`deflateInit2` answers `Z_MEM_ERROR`. -/
def noMemoryZLib : ZLib where
  crc32 := toyZLib.crc32
  DState := Bytes
  deflateInit2 := (Z_MEM_ERROR, [])
  deflate := toyDeflate
  IState := Bytes
  inflateInit2 := (Z_OK, [])
  inflate := toyInflate

/-- What `CZIP::convertModificationDateTime` takes from its environment
(lines 91–94 and 103): the `tm_isdst` that `std::localtime` reports for the
current time, which the structure handed to `mktime` keeps (the six fields
assigned at lines 96–101 replace the others that matter; `mktime` ignores
`tm_wday` and `tm_yday` on input), and the C library's `mktime` for the time
zone in force, as a function of that flag and of the six fields. -/
structure Calendar where
  tm_isdst : Int
  mktime : Int → Tm → Tm

/-- `CZIP::convertModificationDateTime`, lines 89–105, as a whole: the six
fields of `convertModificationDateTime`, normalised by `mktime` under the
daylight-saving flag of the current time. -/
def convertModificationDateTimeAt (c : Calendar) (dateWord timeWord : Nat) : Tm :=
  c.mktime c.tm_isdst (convertModificationDateTime dateWord timeWord)

/-- The body of the `for` loop of `CZIP::contents` for one directory entry,
in the environment `c`: `CZIP.fileDetail` with the modification time as
`mktime` leaves it. -/
def CZIP.fileDetailAt (c : Calendar) (directoryEntry : CentralDirectoryFileHeader) :
    FileDetail :=
  { CZIP.fileDetail directoryEntry with
    modificationDateTime :=
      convertModificationDateTimeAt c directoryEntry.modificationDate
        directoryEntry.modificationTime }

/-- `CZIP::contents`, called in the environment `c`. -/
def CZIP.contentsAt (c : Calendar) (z : CZIP) : Except ZipError (List FileDetail) × CZIP :=
  if !z.bOpen then (.error .notOpened, z)
  else (.ok (z.zipCentralDirectory.map (CZIP.fileDetailAt c)), z)

/-- A stand-in for the C library's `mktime`, for a time zone whose daylight
saving time runs from April to September, on a valid date and a time of day
from 01:00 to 22:59: a time given as daylight saving time outside that
period is an hour earlier in standard time, a time given as standard time
inside it is an hour later in daylight saving time. -/
def toyMktime (tm_isdst : Int) (t : Tm) : Tm :=
  if 3 ≤ t.tm_mon ∧ t.tm_mon ≤ 8 then
    if tm_isdst = 0 then { t with tm_hour := t.tm_hour + 1 } else t
  else
    if 0 < tm_isdst then { t with tm_hour := t.tm_hour - 1 } else t

/-- The environment of a call made in winter. -/
def winterCalendar : Calendar := { tm_isdst := 0, mktime := toyMktime }

/-- The environment of a call made in summer, in the same time zone. -/
def summerCalendar : Calendar := { tm_isdst := 1, mktime := toyMktime }

/-- An environment in which `mktime` leaves the six fields as they are. -/
def plainCalendar : Calendar := { tm_isdst := 0, mktime := fun _ t => t }

end Antik.ZIP

/-! # Antik::SMTP::CSMTP — Base64 (`src/classes/CSMTP.cpp`) -/

namespace Antik.SMTP

/-- `CSMTP::kCB64` (line 66): the array holds the 64 characters of the
alphabet and the terminating NUL of the string literal. -/
def kCB64 : ZIP.Bytes :=
  ZIP.ascii "ABCDEFGHIJKLMNOPQRSTUVWXYZabcdefghijklmnopqrstuvwxyz0123456789+/" ++ [0]

/-- The expression `kCB64[index]`. -/
def kCB64At (index : Nat) : Nat := kCB64.getD index 0

/-- The `do … while (kCB64[index++])` loop of `CSMTP::decodeChar`, from
`index` on (`rest` is the array from there). -/
def decodeCharLoop (ch : Nat) : ZIP.Bytes → Nat → Nat
  | [], _ => 0
  | c :: rest, index =>
    if ch = c then index
    else if c ≠ 0 then decodeCharLoop ch rest (index + 1)
    else 0

/-- `CSMTP::decodeChar`: the index of `ch` in `kCB64` (64 for NUL, which
matches the terminator), 0 when it is not there. -/
def decodeChar (ch : Nat) : Nat := decodeCharLoop ch kCB64 0

/-- The `while (numberOfBytes--)` loop of `CSMTP::encodeToBase64`, lines
529–540.  Result: `byteIndex` and `encodeding` as the loop leaves them.
(`decodeding[i]` beyond the string is undefined in the source; the model
reads 0 there.) -/
def encodeLoop (decodeding : ZIP.Bytes) : Nat → Nat → ZIP.Bytes → Nat × ZIP.Bytes
  | 0, byteIndex, encodeding => (byteIndex, encodeding)
  | numberOfBytes + 1, byteIndex, encodeding =>
    let byte1 := decodeding.getD byteIndex 0 % 256
    let byte2 := decodeding.getD (byteIndex + 1) 0 % 256
    let byte3 := decodeding.getD (byteIndex + 2) 0 % 256
    encodeLoop decodeding numberOfBytes (byteIndex + 3)
      (encodeding ++
        [kCB64At ((byte1 &&& 0xfc) >>> 2),
         kCB64At (((byte1 &&& 0x03) <<< 4) + ((byte2 &&& 0xf0) >>> 4)),
         kCB64At (((byte2 &&& 0x0f) <<< 2) + ((byte3 &&& 0xc0) >>> 6)),
         kCB64At (byte3 &&& 0x3f)])

/-- `CSMTP::encodeToBase64`: the new value of `encodeding`; `numberOfBytes`
is the value of the `uint32_t` parameter. -/
def encodeToBase64 (decodeding encodeding : ZIP.Bytes) (numberOfBytes : Nat) : ZIP.Bytes :=
  if numberOfBytes = 0 then encodeding
  else
    -- encodeding.clear()
    let trailing := numberOfBytes % 3
    let r := encodeLoop decodeding (numberOfBytes / 3) 0 []
    let byte1 := decodeding.getD r.1 0 % 256
    let byte2 := decodeding.getD (r.1 + 1) 0 % 256
    -- One trailing byte
    if trailing = 1 then
      r.2 ++ [kCB64At ((byte1 &&& 0xfc) >>> 2), kCB64At ((byte1 &&& 0x03) <<< 4), 61, 61]
    -- Two trailing bytes
    else if trailing = 2 then
      r.2 ++ [kCB64At ((byte1 &&& 0xfc) >>> 2),
              kCB64At (((byte1 &&& 0x03) <<< 4) + ((byte2 &&& 0xf0) >>> 4)),
              kCB64At ((byte2 &&& 0x0f) <<< 2), 61]
    else r.2

/-- The `while (numberOfBytes--)` loop of `CSMTP::decodeFromBase64`, lines
581–607: three bytes are appended for every group of four characters. -/
def decodeLoop (encoded : ZIP.Bytes) : Nat → Nat → ZIP.Bytes → ZIP.Bytes
  | 0, _, decoded => decoded
  | numberOfBytes + 1, byteIndex, decoded =>
    let c1 := encoded.getD byteIndex 0 % 256
    let c2 := encoded.getD (byteIndex + 1) 0 % 256
    let c3 := encoded.getD (byteIndex + 2) 0 % 256
    let c4 := encoded.getD (byteIndex + 3) 0 % 256
    let byte1 := decodeChar c1 % 256
    let byte2 := decodeChar c2 % 256
    let byte3 := if c3 = 61 then 0 else decodeChar c3 % 256
    let byte4 := if c3 = 61 then 0 else if c4 = 61 then 0 else decodeChar c4 % 256
    decodeLoop encoded numberOfBytes (byteIndex + 4)
      (decoded ++
        [((byte1 <<< 2) + ((byte2 &&& 0x30) >>> 4)) % 256,
         (((byte2 &&& 0xf) <<< 4) + ((byte3 &&& 0x3c) >>> 2)) % 256,
         (((byte3 &&& 0x3) <<< 6) + byte4) % 256])

/-- `CSMTP::decodeFromBase64`: the new value of `decoded`; `numberOfBytes`
is the value of the `uint32_t` parameter. -/
def decodeFromBase64 (encoded decoded : ZIP.Bytes) (numberOfBytes : Nat) : ZIP.Bytes :=
  if numberOfBytes = 0 ∨ numberOfBytes % 4 ≠ 0 then decoded
  else
    -- decoded.clear()
    decodeLoop encoded (numberOfBytes / 4) 0 []

/-- The Base64 alphabet of RFC 4648: `A–Z a–z 0–9 + /`. -/
def base64Alphabet : ZIP.Bytes :=
  (List.range 26).map (fun i => 65 + i) ++ (List.range 26).map (fun i => 97 + i) ++
    (List.range 10).map (fun i => 48 + i) ++ [43, 47]

/-- The character for a 6-bit value. -/
def base64Char (v : Nat) : Nat := base64Alphabet.getD v 0

/-- The standard padded Base64 encoding, after the words of RFC 4648 §4 (not
after the source): every 24-bit group of three bytes gives the four
characters of its 6-bit quarters; a final group of one byte (padded with zero
bits) gives two characters and `==`, a final group of two bytes gives three
characters and `=`. -/
def standardBase64 : ZIP.Bytes → ZIP.Bytes
  | [] => []
  | [a] =>
    [base64Char (a * 65536 / 262144 % 64), base64Char (a * 65536 / 4096 % 64), 61, 61]
  | [a, b] =>
    [base64Char ((a * 65536 + b * 256) / 262144 % 64),
     base64Char ((a * 65536 + b * 256) / 4096 % 64),
     base64Char ((a * 65536 + b * 256) / 64 % 64), 61]
  | a :: b :: c :: rest =>
    [base64Char ((a * 65536 + b * 256 + c) / 262144 % 64),
     base64Char ((a * 65536 + b * 256 + c) / 4096 % 64),
     base64Char ((a * 65536 + b * 256 + c) / 64 % 64),
     base64Char ((a * 65536 + b * 256 + c) % 64)] ++ standardBase64 rest

end Antik.SMTP

namespace Antik.ZIP

/-! # Theorems -/

/-! ## Attributes and the first directory entry -/

theorem S_ISDIR_unixAttributes (m : Nat) : S_ISDIR (unixAttributes m >>> 16) = S_ISDIR m := by
  have h1 : unixAttributes m >>> 16 = m % 2 ^ 16 := by
    unfold unixAttributes
    rw [Nat.shiftLeft_eq, Nat.shiftRight_eq_div_pow]
    omega
  have h2 : m % 2 ^ 16 &&& 0o170000 = m &&& 0o170000 := by
    rw [← Nat.and_pow_two_sub_one_eq_mod, Nat.land_assoc]
    rfl
  rw [h1, S_ISDIR, h2, S_ISDIR]

theorem entryFor_fileNameStr (offset : Nat) (f : HostFile) (name : Bytes) :
    (entryFor offset f name).fileNameStr =
      if S_ISDIR f.st_mode && decide (name.getLast? ≠ some 47) then name ++ [47] else name := by
  simp [entryFor, initialDirectoryEntry, S_ISDIR_unixAttributes]

theorem entryFor_fileNameLength (offset : Nat) (f : HostFile) (name : Bytes) :
    (entryFor offset f name).fileNameLength =
      if S_ISDIR f.st_mode && decide (name.getLast? ≠ some 47)
      then (name.length % 2 ^ 16 + 1) % 2 ^ 16 else name.length % 2 ^ 16 := by
  simp [entryFor, initialDirectoryEntry, S_ISDIR_unixAttributes]

theorem entryFor_compression (offset : Nat) (f : HostFile) (name : Bytes) :
    (entryFor offset f name).compression =
      if S_ISDIR f.st_mode then kZIPCompressionStore else kZIPCompressionDeflate := by
  simp [entryFor, initialDirectoryEntry, S_ISDIR_unixAttributes,
    CentralDirectoryFileHeader.default]

theorem entryFor_uncompressedSize (offset : Nat) (f : HostFile) (name : Bytes) :
    (entryFor offset f name).uncompressedSize =
      if fieldRequires64bits (statFileSize f) then sentinel32 else statFileSize f % 2 ^ 32 := by
  simp [entryFor, initialDirectoryEntry]

theorem entryFor_compressedSize (offset : Nat) (f : HostFile) (name : Bytes) :
    (entryFor offset f name).compressedSize =
      if fieldRequires64bits (statFileSize f) then sentinel32 else statFileSize f % 2 ^ 32 := by
  simp [entryFor, initialDirectoryEntry]

theorem entryFor_fileHeaderOffset (offset : Nat) (f : HostFile) (name : Bytes) :
    (entryFor offset f name).fileHeaderOffset =
      if fieldRequires64bits offset then sentinel32 else offset % 2 ^ 32 := by
  simp [entryFor, initialDirectoryEntry]

theorem entryFor_extractorVersion (offset : Nat) (f : HostFile) (name : Bytes) :
    (entryFor offset f name).extractorVersion =
      if fieldRequires64bits offset || fieldRequires64bits (statFileSize f) then kZIPVersion45
      else if S_ISDIR f.st_mode then kZIPVersion10 else kZIPVersion20 := by
  simp [entryFor, initialDirectoryEntry, S_ISDIR_unixAttributes,
    CentralDirectoryFileHeader.default]

theorem entryFor_extraField (offset : Nat) (f : HostFile) (name : Bytes) :
    (entryFor offset f name).extraField =
      if fieldRequires64bits offset || fieldRequires64bits (statFileSize f) then
        putZip64ExtendedInfoExtraField
          { originalSize := statFileSize f, compressedSize := statFileSize f,
            fileHeaderOffset := offset }
      else [] := by
  simp [entryFor, initialDirectoryEntry, CentralDirectoryFileHeader.default]

theorem entryFor_crc32 (offset : Nat) (f : HostFile) (name : Bytes) :
    (entryFor offset f name).crc32 = 0 := by
  simp [entryFor, initialDirectoryEntry, CentralDirectoryFileHeader.default]

/-! ## The shape of a successful `addFileHeaderAndContents` -/

theorem addFileHeaderAndContents_ok (Z : ZLib) (fs : HostFS) (z z1 : CZIP) (src name : Bytes)
    (f : HostFile) (hf : fs src = some f)
    (h : addFileHeaderAndContents Z fs z src name = (.ok (), z1)) :
    z1.bOpen = z.bOpen ∧ z1.bModified = true ∧ z1.zipIOBufferSize = z.zipIOBufferSize ∧
    z1.bZIP64 = (if fieldRequires64bits z.offsetToEndOfLocalFileHeaders ||
        fieldRequires64bits (statFileSize f) then true else z.bZIP64) ∧
    ∃ de, z1.zipCentralDirectory = z.zipCentralDirectory ++ [de] ∧
      de.fileNameStr = (entryFor z.offsetToEndOfLocalFileHeaders f name).fileNameStr ∧
      de.fileNameLength = (entryFor z.offsetToEndOfLocalFileHeaders f name).fileNameLength ∧
      de.uncompressedSize = (entryFor z.offsetToEndOfLocalFileHeaders f name).uncompressedSize ∧
      de.fileHeaderOffset = (entryFor z.offsetToEndOfLocalFileHeaders f name).fileHeaderOffset := by
  unfold addFileHeaderAndContents at h
  simp only [getFileSize, getFileModificationDateTime, getFileAttributes, hf] at h
  repeat' split at h
  all_goals first
    | (exfalso; simp at h; done)
    | skip
  all_goals simp only [Prod.mk.injEq, true_and] at h
  all_goals subst h
  all_goals refine ⟨rfl, rfl, rfl, ?_, _, rfl, rfl, rfl, rfl, rfl⟩
  all_goals simp_all

theorem addFileHeaderAndContents_empty (Z : ZLib) (fs : HostFS) (z : CZIP) (src name : Bytes)
    (f : HostFile) (hf : fs src = some f) (h0 : statFileSize f = 0) :
    addFileHeaderAndContents Z fs z src name =
      (.ok (), { z with
        bZIP64 := if fieldRequires64bits z.offsetToEndOfLocalFileHeaders then true else z.bZIP64,
        zipFileStream := putZIPRecordLocal
          (positionInZIPFile z.zipFileStream z.offsetToEndOfLocalFileHeaders)
          (initialFileHeader (entryFor z.offsetToEndOfLocalFileHeaders f name)),
        offsetToEndOfLocalFileHeaders := currentPositionZIPFile (putZIPRecordLocal
          (positionInZIPFile z.zipFileStream z.offsetToEndOfLocalFileHeaders)
          (initialFileHeader (entryFor z.offsetToEndOfLocalFileHeaders f name))),
        zipCentralDirectory :=
          z.zipCentralDirectory ++ [entryFor z.offsetToEndOfLocalFileHeaders f name],
        bModified := true }) := by
  unfold addFileHeaderAndContents
  simp [getFileSize, getFileModificationDateTime, getFileAttributes, hf, h0, entryFor,
    fieldRequires64bits, sentinel32]


/-! ## The archive stream -/

theorem writeZIPFile_pos (s : ZipFileStream) (b : Bytes) :
    (writeZIPFile s b).pos = s.pos + b.length := by
  unfold writeZIPFile
  split
  · simp [*]
  · rfl

theorem writeZIPFile_fail (s : ZipFileStream) (b : Bytes) :
    (writeZIPFile s b).fail = s.fail := by
  unfold writeZIPFile
  split <;> rfl

theorem writeBytes_append (d : Nat → Nat) (p : Nat) (a b : Bytes) :
    writeBytes (writeBytes d p a) (p + a.length) b = writeBytes d p (a ++ b) := by
  funext i
  simp only [writeBytes, List.length_append]
  by_cases h1 : p + a.length ≤ i ∧ i < p + a.length + b.length
  · have h2 : p ≤ i ∧ i < p + (a.length + b.length) := by omega
    rw [if_pos h1, if_pos h2]
    have h3 : i - p = a.length + (i - (p + a.length)) := by omega
    rw [h3, List.getD_append_right _ _ _ _ (by omega)]
    simp
  · rw [if_neg h1]
    by_cases h2 : p ≤ i ∧ i < p + a.length
    · have h3 : p ≤ i ∧ i < p + (a.length + b.length) := by omega
      rw [if_pos h2, if_pos h3, List.getD_append _ _ _ _ (by omega)]
    · have h3 : ¬ (p ≤ i ∧ i < p + (a.length + b.length)) := by omega
      rw [if_neg h2, if_neg h3]

theorem writeZIPFile_nil (s : ZipFileStream) : writeZIPFile s [] = s := by
  simp [writeZIPFile]

theorem writeZIPFile_append (s : ZipFileStream) (a b : Bytes) :
    writeZIPFile (writeZIPFile s a) b = writeZIPFile s (a ++ b) := by
  by_cases ha : a = []
  · subst ha; simp [writeZIPFile_nil]
  by_cases hb : b = []
  · subst hb; simp [writeZIPFile_nil]
  have hab : a ++ b ≠ [] := by simp [ha]
  simp only [writeZIPFile, ha, hb, hab, if_false, writeBytes_append, List.length_append]
  congr 1
  · omega
  · omega

theorem deflateInner_ok (bufSize : Nat) (hbuf : 0 < bufSize) (fuel : Nat) :
    ∀ (out : Bytes) (s : ZipFileStream) (c : Nat), s.fail = false → out.length < fuel →
      deflateInner bufSize fuel out s c = (.ok (c + out.length), writeZIPFile s out) := by
  induction fuel with
  | zero => intro out s c _ h; omega
  | succ n ih =>
    intro out s c hfail hlen
    unfold deflateInner
    simp only [errorInZIPFile, writeZIPFile_fail, hfail, Bool.false_eq_true, if_false]
    by_cases hfull : (out.take bufSize).length = bufSize
    · rw [if_pos hfull]
      have hle : bufSize ≤ out.length := by
        rw [List.length_take] at hfull; omega
      rw [ih _ _ _ (by rw [writeZIPFile_fail]; exact hfail)
        (by rw [List.length_drop]; omega), writeZIPFile_append, List.take_append_drop,
        List.length_drop, hfull]
      congr 2
      omega
    · rw [if_neg hfull]
      have hlt : out.length < bufSize := by
        rw [List.length_take] at hfull; omega
      rw [List.take_of_length_le (by omega)]

theorem deflateLoop_ok (Z : ZLib) (bufSize : Nat) (hbuf : 0 < bufSize) (fuel : Nat) :
    ∀ (st : Z.DState) (src : Bytes) (fileSize crc c : Nat) (s : ZipFileStream),
      s.fail = false → fileSize < fuel →
      ∃ crc1 out, deflateLoop Z bufSize fuel st src fileSize crc c s =
        (.ok (crc1, c + out.length), writeZIPFile s out) := by
  induction fuel with
  | zero => intro st src fileSize crc c s _ h; omega
  | succ n ih =>
    intro st src fileSize crc c s hfail hlen
    unfold deflateLoop
    simp only []
    generalize Z.deflate st (src.take (min fileSize bufSize))
      (decide (src.length < min fileSize bufSize) ||
        decide (fileSize - (src.take (min fileSize bufSize)).length = 0)) = X
    rw [deflateInner_ok bufSize hbuf _ _ _ _ hfail (Nat.lt_succ_self _)]
    simp only []
    split
    · exact ⟨_, _, rfl⟩
    · rename_i hfin
      simp only [Bool.or_eq_true, decide_eq_true_eq, not_or, not_lt] at hfin
      obtain ⟨h1, h2⟩ := hfin
      have h3 : (src.take (min fileSize bufSize)).length = min fileSize bufSize := by
        rw [List.length_take]; omega
      obtain ⟨crc1, out, h⟩ := ih X.1
        (src.drop (min fileSize bufSize)) (fileSize - (src.take (min fileSize bufSize)).length)
        (Z.crc32 crc (src.take (min fileSize bufSize))) (c + X.2.1.length)
        (writeZIPFile s X.2.1) (by rw [writeZIPFile_fail]; exact hfail) (by omega)
      rw [h, writeZIPFile_append]
      exact ⟨crc1, X.2.1 ++ out, by rw [List.length_append, Nat.add_assoc]⟩

theorem storeLoop_ok (bufSize : Nat) (hbuf : 0 < bufSize) (fuel : Nat) :
    ∀ (src : Bytes) (fileSize : Nat) (s : ZipFileStream), s.fail = false → fileSize < fuel →
      fileSize ≤ src.length →
      storeLoop bufSize fuel src fileSize s = (.ok (), writeZIPFile s (src.take fileSize)) := by
  induction fuel with
  | zero => intro src fileSize s _ h; omega
  | succ n ih =>
    intro src fileSize s hfail hlen hsrc
    unfold storeLoop
    by_cases h0 : fileSize = 0
    · subst h0; simp [writeZIPFile_nil]
    · rw [if_neg h0, if_neg (by omega)]
      simp only [errorInZIPFile, writeZIPFile_fail, hfail, Bool.false_eq_true, if_false]
      rw [ih _ _ _ (by rw [writeZIPFile_fail]; exact hfail) (by omega)
        (by rw [List.length_drop]; omega), writeZIPFile_append, ← List.take_add]
      congr 3
      omega


theorem positionInZIPFile_fail (s : ZipFileStream) (o : Nat) :
    (positionInZIPFile s o).fail = s.fail := rfl

theorem putZIPRecordLocal_fail (s : ZipFileStream) (h : LocalFileHeader) :
    (putZIPRecordLocal s h).fail = s.fail := writeZIPFile_fail s _

theorem deflateFile_ok (Z : ZLib) (fs : HostFS) (bufSize : Nat) (s : ZipFileStream)
    (src : Bytes) (fileSize : Nat) (f : HostFile) (hf : fs src = some f)
    (hbuf : 0 < bufSize) (hfail : s.fail = false) (hinit : Z.deflateInit2.1 = Z_OK) :
    ∃ crc out, deflateFile Z fs bufSize s src fileSize =
      (.ok (crc, out.length), writeZIPFile s out) := by
  unfold deflateFile
  simp only [hf, hinit, ne_eq, not_true_eq_false, if_false]
  obtain ⟨crc, out, h⟩ := deflateLoop_ok Z bufSize hbuf (fileSize + 1) Z.deflateInit2.2
    f.content fileSize (Z.crc32 0 []) 0 s hfail (Nat.lt_succ_self _)
  exact ⟨crc, out, by rw [h, Nat.zero_add]⟩

theorem storeFile_ok (fs : HostFS) (bufSize : Nat) (s : ZipFileStream) (src : Bytes)
    (fileSize : Nat) (f : HostFile) (hf : fs src = some f) (hbuf : 0 < bufSize)
    (hfail : s.fail = false) (hread : fileSize ≤ f.content.length) :
    storeFile fs bufSize s src fileSize = (.ok (), writeZIPFile s (f.content.take fileSize)) := by
  unfold storeFile
  simp only [hf]
  exact storeLoop_ok bufSize hbuf _ _ _ _ hfail (Nat.lt_succ_self _) hread

theorem addFileHeaderAndContents_returns (Z : ZLib) (fs : HostFS) (z : CZIP) (src name : Bytes)
    (f : HostFile) (hf : fs src = some f) (hbuf : 0 < z.zipIOBufferSize)
    (hfail : z.zipFileStream.fail = false) (hinit : Z.deflateInit2.1 = Z_OK)
    (hread : statFileSize f ≤ f.content.length) :
    ∃ z1, addFileHeaderAndContents Z fs z src name = (.ok (), z1) := by
  by_cases h0 : statFileSize f = 0
  · exact ⟨_, addFileHeaderAndContents_empty Z fs z src name f hf h0⟩
  · unfold addFileHeaderAndContents
    simp only [getFileSize, getFileModificationDateTime, getFileAttributes, hf, ne_eq, h0,
      not_false_eq_true, if_true]
    obtain ⟨crc, out, hd⟩ := deflateFile_ok Z fs z.zipIOBufferSize
      (putZIPRecordLocal (positionInZIPFile z.zipFileStream z.offsetToEndOfLocalFileHeaders)
        (initialFileHeader (initialDirectoryEntry z.offsetToEndOfLocalFileHeaders
          (statFileSize f) (dosDateTime f.mtime) (unixAttributes f.st_mode) name)))
      src (statFileSize f) f hf hbuf (by rw [putZIPRecordLocal_fail]; exact hfail) hinit
    rw [hd]
    simp only []
    split
    · split
      · exact ⟨_, rfl⟩
      · exact ⟨_, rfl⟩
    · rw [storeFile_ok fs z.zipIOBufferSize _ src (statFileSize f) f hf hbuf
        (by rw [putZIPRecordLocal_fail, positionInZIPFile_fail, writeZIPFile_fail,
          putZIPRecordLocal_fail]; exact hfail) hread]
      exact ⟨_, rfl⟩


theorem addFileHeaderAndContents_error (Z : ZLib) (fs : HostFS) (z z1 : CZIP)
    (src name : Bytes) (e : ZipError)
    (h : addFileHeaderAndContents Z fs z src name = (.error e, z1)) :
    z1.zipCentralDirectory = z.zipCentralDirectory ∧ z1.bOpen = z.bOpen := by
  unfold addFileHeaderAndContents at h
  cases hfs : fs src with
  | none =>
    simp only [getFileSize, hfs, Prod.mk.injEq] at h
    obtain ⟨-, h⟩ := h
    subst h
    exact ⟨rfl, rfl⟩
  | some f =>
    simp only [getFileSize, getFileModificationDateTime, getFileAttributes, hfs] at h
    repeat' split at h
    all_goals first
      | (exfalso; simp at h; done)
      | skip
    all_goals simp only [Prod.mk.injEq] at h
    all_goals obtain ⟨-, h⟩ := h
    all_goals subst h
    all_goals exact ⟨rfl, rfl⟩

theorem add_directory_step (Z : ZLib) (fs : HostFS) (z : CZIP) (src name : Bytes) :
    (CZIP.add Z fs z src name).2.zipCentralDirectory = z.zipCentralDirectory ∨
    ∃ de, (CZIP.add Z fs z src name).2.zipCentralDirectory = z.zipCentralDirectory ++ [de] := by
  unfold CZIP.add
  split
  · exact Or.inl rfl
  · split
    · exact Or.inl rfl
    · cases hfs : fs src with
      | none => simp [fileExists, hfs]
      | some f =>
        simp only [fileExists, hfs]
        generalize hr : addFileHeaderAndContents Z fs z src name = r
        obtain ⟨r1, z1⟩ := r
        cases r1 with
        | error e =>
          exact Or.inl (addFileHeaderAndContents_error Z fs z z1 src name e hr).1
        | ok u =>
          obtain ⟨-, -, -, -, de, hd, -⟩ := addFileHeaderAndContents_ok Z fs z z1 src name f hfs hr
          exact Or.inr ⟨de, hd⟩

theorem addAll_directory (Z : ZLib) (fs : HostFS) (calls : List (Bytes × Bytes)) :
    ∀ z : CZIP, ∃ t, (CZIP.addAll Z fs z calls).zipCentralDirectory = z.zipCentralDirectory ++ t := by
  induction calls with
  | nil => intro z; exact ⟨[], by simp [CZIP.addAll]⟩
  | cons c rest ih =>
    intro z
    obtain ⟨t, ht⟩ := ih (CZIP.add Z fs z c.1 c.2).2
    rcases add_directory_step Z fs z c.1 c.2 with h | ⟨de, h⟩
    · exact ⟨t, by rw [CZIP.addAll, ht, h]⟩
    · exact ⟨de :: t, by rw [CZIP.addAll, ht, h]; simp⟩

theorem readBytes_length (d : Nat → Nat) (p n : Nat) : (readBytes d p n).length = n := by
  simp [readBytes]

theorem readBytes_writeBytes_same (d : Nat → Nat) (p : Nat) (b : Bytes) :
    readBytes (writeBytes d p b) p b.length = b := by
  apply List.ext_getElem
  · simp [readBytes]
  · intro i h1 h2
    simp only [readBytes, List.getElem_map, List.getElem_range, writeBytes]
    rw [if_pos (by omega)]
    simp only [Nat.add_sub_cancel_left]
    rw [List.getD_eq_getElem _ _ h2]

theorem readBytes_writeBytes_before (d : Nat → Nat) (p q n : Nat) (b : Bytes) (h : q + n ≤ p) :
    readBytes (writeBytes d p b) q n = readBytes d q n := by
  apply List.ext_getElem
  · simp [readBytes]
  · intro i h1 h2
    simp only [readBytes, List.length_map, List.length_range] at h1
    simp only [readBytes, List.getElem_map, List.getElem_range, writeBytes]
    rw [if_neg (by omega)]

theorem writeZIPFile_data (s : ZipFileStream) (b : Bytes) :
    (writeZIPFile s b).data = writeBytes s.data s.pos b := by
  unfold writeZIPFile
  split
  · rename_i h
    subst h
    funext i
    simp only [writeBytes, List.length_nil, Nat.add_zero]
    rw [if_neg (by omega)]
  · rfl

theorem deflateFile_ok_stream (Z : ZLib) (fs : HostFS) (bufSize : Nat) (s s2 : ZipFileStream)
    (src : Bytes) (fileSize crc csize : Nat) (f : HostFile) (hf : fs src = some f)
    (hbuf : 0 < bufSize) (hfail : s.fail = false)
    (h : deflateFile Z fs bufSize s src fileSize = (.ok (crc, csize), s2)) :
    s2.fail = false ∧ s2.pos = s.pos + csize := by
  have hinit : Z.deflateInit2.1 = Z_OK := by
    by_contra hc
    simp [deflateFile, hf, hc] at h
  obtain ⟨crc1, out, h1⟩ := deflateFile_ok Z fs bufSize s src fileSize f hf hbuf hfail hinit
  rw [h1] at h
  simp only [Prod.mk.injEq, Except.ok.injEq] at h
  obtain ⟨⟨-, h2⟩, h3⟩ := h
  subst h3
  rw [writeZIPFile_fail, writeZIPFile_pos, h2]
  exact ⟨hfail, rfl⟩


/-! ## `create`, then `open` -/

theorem create_of_closed (z : CZIP) (hclosed : z.bOpen = false) :
    CZIP.create z = (.ok (), { z with zipFileStream := createdStream }) := by
  simp [CZIP.create, hclosed, openZIPFile, putZIPRecordEOCD, writeZIPFile, closeZIPFile,
    EOCentralDirectoryRecord.encode, putField32, putField16, EOCentralDirectoryRecord.default,
    createdStream]

theorem getZIPRecordEOCD_createdStream :
    getZIPRecordEOCD createdStream =
      (.ok EOCentralDirectoryRecord.default, { createdStream with pos := 22, gcount := 22 }) := by
  rfl

theorem open_of_created (z : CZIP) (hclosed : z.bOpen = false) :
    CZIP.open { z with zipFileStream := createdStream } =
      (.ok (), { z with zipFileStream := { createdStream with gcount := 22 },
                        offsetToEndOfLocalFileHeaders := 0, bOpen := true }) := by
  have h0 : openZIPFile createdStream false = some createdStream := rfl
  simp only [CZIP.open, hclosed, h0, getZIPRecordEOCD_createdStream]
  simp [fieldOverflow16, fieldOverflow32, EOCentralDirectoryRecord.default, sentinel16,
    sentinel32, readCentralDirectory, positionInZIPFile, createdStream]

/-! ## The ZIP64 extra field leaves an unsentineled size alone -/

theorem getZip64_originalSize (info : Zip64ExtendedInfoExtraField) (extra : Bytes)
    (h : fieldOverflow32 info.originalSize = false) :
    (getZip64ExtendedInfoExtraField info extra).originalSize = info.originalSize := by
  unfold getZip64ExtendedInfoExtraField
  split <;> simp [h]

theorem any_name_eq_false (dir : List CentralDirectoryFileHeader) (name : Bytes) :
    dir.any (fun e => e.fileNameStr == name) = false ↔ ∀ e ∈ dir, e.fileNameStr ≠ name := by
  simp [List.any_eq_false]

theorem add_of_duplicate (Z : ZLib) (fs : HostFS) (z : CZIP) (src name : Bytes)
    (hopen : z.bOpen = true) (hdup : ∃ e ∈ z.zipCentralDirectory, e.fileNameStr = name) :
    CZIP.add Z fs z src name = (.ok false, z) := by
  have h : z.zipCentralDirectory.any (fun e => e.fileNameStr == name) = true := by
    obtain ⟨e, he, hn⟩ := hdup
    exact List.any_eq_true.mpr ⟨e, he, by simp [hn]⟩
  simp [CZIP.add, hopen, h]

theorem add_of_new_name (Z : ZLib) (fs : HostFS) (z : CZIP) (src name : Bytes) (f : HostFile)
    (hopen : z.bOpen = true) (hnew : ∀ e ∈ z.zipCentralDirectory, e.fileNameStr ≠ name)
    (hf : fs src = some f) :
    CZIP.add Z fs z src name =
      match addFileHeaderAndContents Z fs z src name with
      | (.error e, z1) => (.error e, z1)
      | (.ok (), z1) => (.ok true, z1) := by
  have h := (any_name_eq_false z.zipCentralDirectory name).mpr hnew
  simp [CZIP.add, hopen, h, fileExists, hf]

/-! ## What the copy passes can raise -/

theorem inflateInner_error (Z : ZLib) (bufSize : Nat) (fuel : Nat) :
    ∀ (out : Bytes) (rc : Int) (dest : Bytes) (crc : Nat) (e : ZipError),
      (inflateInner Z bufSize fuel out rc dest crc).1 = .error e → e.fromCopy := by
  induction fuel with
  | zero => intro out rc dest crc e h; simp [inflateInner] at h; subst h; simp [ZipError.fromCopy, ZipError.kind]
  | succ n ih =>
    intro out rc dest crc e h
    unfold inflateInner at h
    split at h
    · exact ih _ _ _ _ _ h
    · split at h
      · simp at h; subst h; simp [ZipError.fromCopy, ZipError.kind]
      · simp at h

theorem inflateLoop_error (Z : ZLib) (bufSize : Nat) (fuel : Nat) :
    ∀ (st : Z.IState) (fileSize : Nat) (s : ZipFileStream) (dest : Bytes) (crc : Nat)
      (e : ZipError),
      (inflateLoop Z bufSize fuel st fileSize s dest crc).1 = .error e → e.fromCopy := by
  induction fuel with
  | zero => intro st fileSize s dest crc e h; simp [inflateLoop] at h; subst h; simp [ZipError.fromCopy, ZipError.kind]
  | succ n ih =>
    intro st fileSize s dest crc e h
    unfold inflateLoop at h
    simp only [] at h
    split at h
    · simp at h; subst h; simp [ZipError.fromCopy, ZipError.kind]
    · split at h
      · simp at h
      · split at h
        · rename_i e1 d1 heq
          simp at h; subst h
          exact inflateInner_error Z bufSize _ _ _ _ _ _ (by rw [heq])
        · split at h
          · simp at h
          · exact ih _ _ _ _ _ _ h

theorem inflateFile_error (Z : ZLib) (bufSize : Nat) (s : ZipFileStream) (fileSize : Nat)
    (e : ZipError) (h : (inflateFile Z bufSize s fileSize).1 = .error e) : e.fromCopy := by
  unfold inflateFile at h
  simp only [] at h
  split at h
  · simp at h
  · split at h
    · simp at h; subst h; simp [ZipError.fromCopy, ZipError.kind]
    · exact inflateLoop_error Z bufSize _ _ _ _ _ _ _ h

theorem extractLoop_error (Z : ZLib) (bufSize : Nat) (fuel : Nat) :
    ∀ (fileSize : Nat) (s : ZipFileStream) (dest : Bytes) (crc : Nat) (e : ZipError),
      (extractLoop Z bufSize fuel fileSize s dest crc).1 = .error e → e.fromCopy := by
  induction fuel with
  | zero => intro fileSize s dest crc e h; simp [extractLoop] at h; subst h; simp [ZipError.fromCopy, ZipError.kind]
  | succ n ih =>
    intro fileSize s dest crc e h
    unfold extractLoop at h
    split at h
    · simp at h
    · simp only [] at h
      split at h
      · simp at h; subst h; simp [ZipError.fromCopy, ZipError.kind]
      · exact ih _ _ _ _ _ h


/-! ## The size and offset fields of the entry that `add` appends -/

theorem addFileHeaderAndContents_fields (Z : ZLib) (fs : HostFS) (z z1 : CZIP)
    (src name : Bytes) (f : HostFile) (hf : fs src = some f)
    (h : addFileHeaderAndContents Z fs z src name = (.ok (), z1)) :
    ∃ de, z1.zipCentralDirectory = z.zipCentralDirectory ++ [de] ∧
      de.fileHeaderOffset =
        (if fieldRequires64bits z.offsetToEndOfLocalFileHeaders then sentinel32
          else z.offsetToEndOfLocalFileHeaders) ∧
      de.uncompressedSize =
        (if fieldRequires64bits (statFileSize f) then sentinel32 else statFileSize f) ∧
      ((statFileSize f = 0 ∧ de.compressedSize = 0 ∧
          z1.offsetToEndOfLocalFileHeaders =
            z.offsetToEndOfLocalFileHeaders +
              (initialFileHeader (entryFor z.offsetToEndOfLocalFileHeaders f name)).encode.length) ∨
        ∃ (crc csize : Nat) (s2 : ZipFileStream),
          deflateFile Z fs z.zipIOBufferSize
            (putZIPRecordLocal
              (positionInZIPFile z.zipFileStream z.offsetToEndOfLocalFileHeaders)
              (initialFileHeader (entryFor z.offsetToEndOfLocalFileHeaders f name)))
            src (statFileSize f) = (.ok (crc, csize), s2) ∧
          de.compressedSize =
            (if fieldRequires64bits (statFileSize f) then sentinel32
              else if fieldRequires64bits z.offsetToEndOfLocalFileHeaders then statFileSize f
              else if csize < statFileSize f then csize else statFileSize f)) := by
  have hc : ∀ n : Nat, fieldRequires64bits n = false → n % 2 ^ 32 = n := by
    intro n hn
    simp [fieldRequires64bits, sentinel32] at hn
    omega
  have hoff : (entryFor z.offsetToEndOfLocalFileHeaders f name).fileHeaderOffset =
      (if fieldRequires64bits z.offsetToEndOfLocalFileHeaders then sentinel32
        else z.offsetToEndOfLocalFileHeaders) := by
    rw [entryFor_fileHeaderOffset]
    split
    · rfl
    · rename_i hn; exact hc _ (by simpa using hn)
  have hunc : (entryFor z.offsetToEndOfLocalFileHeaders f name).uncompressedSize =
      (if fieldRequires64bits (statFileSize f) then sentinel32 else statFileSize f) := by
    rw [entryFor_uncompressedSize]
    split
    · rfl
    · rename_i hn; exact hc _ (by simpa using hn)
  have hcmp : (entryFor z.offsetToEndOfLocalFileHeaders f name).compressedSize =
      (if fieldRequires64bits (statFileSize f) then sentinel32 else statFileSize f) := by
    rw [entryFor_compressedSize]
    split
    · rfl
    · rename_i hn; exact hc _ (by simpa using hn)
  by_cases h0 : statFileSize f = 0
  · rw [addFileHeaderAndContents_empty Z fs z src name f hf h0] at h
    simp only [Prod.mk.injEq, true_and] at h
    subst h
    refine ⟨_, rfl, hoff, hunc, Or.inl ⟨h0, ?_, ?_⟩⟩
    · rw [hcmp, h0]; rfl
    · simp only [currentPositionZIPFile, putZIPRecordLocal, writeZIPFile_pos, positionInZIPFile]
  · unfold addFileHeaderAndContents at h
    simp only [getFileSize, getFileModificationDateTime, getFileAttributes, hf, ne_eq, h0,
      not_false_eq_true, if_true] at h
    have hE : initialDirectoryEntry z.offsetToEndOfLocalFileHeaders (statFileSize f)
        (dosDateTime f.mtime) (unixAttributes f.st_mode) name =
        entryFor z.offsetToEndOfLocalFileHeaders f name := rfl
    rw [hE] at h
    split at h
    · simp at h
    · rename_i dv s2 hdef
      obtain ⟨crc, csize⟩ := dv
      simp only [] at h
      split at h
      · rename_i hcond
        split at h
        · rename_i hz
          simp only [Prod.mk.injEq, true_and] at h
          subst h
          refine ⟨_, rfl, hoff, hunc, Or.inr ⟨crc, csize, s2, hdef, ?_⟩⟩
          show (entryFor z.offsetToEndOfLocalFileHeaders f name).compressedSize = _
          rw [hcmp]
          by_cases hs : fieldRequires64bits (statFileSize f) = true
          · simp only [hs, if_true]
          · simp only [hs, Bool.false_eq_true, if_false]
            simp only [Bool.not_eq_true] at hs
            simp only [hs, Bool.or_false] at hz
            simp only [hz, if_true]
        · rename_i hz
          simp only [Prod.mk.injEq, true_and] at h
          subst h
          refine ⟨_, rfl, hoff, hunc, Or.inr ⟨crc, csize, s2, hdef, ?_⟩⟩
          simp only [Bool.not_eq_true, Bool.or_eq_false_iff] at hz
          obtain ⟨hz1, hz2⟩ := hz
          simp only [hz1, hz2, Bool.or_self, Bool.or_false, decide_eq_true_eq] at hcond
          simp only [hz1, hz2, Bool.false_eq_true, if_false, hcond, if_true]
          have := hc _ hz2
          omega
      · rename_i hcond
        simp only [Bool.not_eq_true, Bool.or_eq_false_iff, decide_eq_false_iff_not] at hcond
        obtain ⟨hlt, hz1, hz2⟩ := hcond
        split at h
        · simp at h
        · simp only [Prod.mk.injEq, true_and] at h
          subst h
          refine ⟨_, rfl, hoff, hunc, Or.inr ⟨crc, csize, s2, hdef, ?_⟩⟩
          simp only [hz1, hz2, Bool.false_eq_true, if_false, hlt]
          exact hc _ hz2

/-! ## What the calls other than `close` leave of the object -/

theorem extract_state (Z : ZLib) (z : CZIP) (name : Bytes) :
    (CZIP.extract Z z name).2.1.bOpen = z.bOpen ∧
    (CZIP.extract Z z name).2.1.bZIP64 = z.bZIP64 ∧
    (CZIP.extract Z z name).2.1.bModified = z.bModified ∧
    (CZIP.extract Z z name).2.1.zipCentralDirectory = z.zipCentralDirectory ∧
    (CZIP.extract Z z name).2.1.offsetToEndOfLocalFileHeaders = z.offsetToEndOfLocalFileHeaders := by
  unfold CZIP.extract
  split
  · exact ⟨rfl, rfl, rfl, rfl, rfl⟩
  · split
    · exact ⟨rfl, rfl, rfl, rfl, rfl⟩
    · simp only []
      repeat' split
      all_goals exact ⟨rfl, rfl, rfl, rfl, rfl⟩

theorem addFileHeaderAndContents_error_flag (Z : ZLib) (fs : HostFS) (z z1 : CZIP)
    (src name : Bytes) (e : ZipError) (hz : z.bZIP64 = true)
    (h : addFileHeaderAndContents Z fs z src name = (.error e, z1)) : z1.bZIP64 = true := by
  unfold addFileHeaderAndContents at h
  cases hfs : fs src with
  | none =>
    simp only [getFileSize, hfs, Prod.mk.injEq] at h
    obtain ⟨-, h⟩ := h
    subst h
    exact hz
  | some f =>
    simp only [getFileSize, getFileModificationDateTime, getFileAttributes, hfs] at h
    repeat' split at h
    all_goals first
      | (exfalso; simp at h; done)
      | skip
    all_goals simp only [Prod.mk.injEq] at h
    all_goals obtain ⟨-, h⟩ := h
    all_goals subst h
    all_goals simp [hz]

theorem addFileHeaderAndContents_flag (Z : ZLib) (fs : HostFS) (z : CZIP) (src name : Bytes)
    (h : z.bZIP64 = true) :
    (addFileHeaderAndContents Z fs z src name).2.bZIP64 = true ∧
    (addFileHeaderAndContents Z fs z src name).2.bOpen = z.bOpen := by
  generalize hr : addFileHeaderAndContents Z fs z src name = r
  obtain ⟨r1, z1⟩ := r
  cases r1 with
  | error e =>
    exact ⟨addFileHeaderAndContents_error_flag Z fs z z1 src name e h hr,
      (addFileHeaderAndContents_error Z fs z z1 src name e hr).2⟩
  | ok u =>
    cases hfs : fs src with
    | none => simp [addFileHeaderAndContents, getFileSize, hfs] at hr
    | some f =>
      obtain ⟨h1, -, -, h2, -⟩ := addFileHeaderAndContents_ok Z fs z z1 src name f hfs hr
      refine ⟨?_, h1⟩
      simp only [h2, h]
      simp

theorem add_flag (Z : ZLib) (fs : HostFS) (z : CZIP) (src name : Bytes)
    (h : z.bZIP64 = true) :
    (CZIP.add Z fs z src name).2.bZIP64 = true ∧ (CZIP.add Z fs z src name).2.bOpen = z.bOpen := by
  unfold CZIP.add
  split
  · exact ⟨h, rfl⟩
  · split
    · exact ⟨h, rfl⟩
    · split
      · exact ⟨h, rfl⟩
      · have := addFileHeaderAndContents_flag Z fs z src name h
        split
        · rename_i heq; rw [heq] at this; exact this
        · rename_i heq; rw [heq] at this; exact this
      · exact ⟨h, rfl⟩

theorem call_flag (Z : ZLib) (fs : HostFS) (z : CZIP) (c : SessionCall)
    (hopen : z.bOpen = true) (h : z.bZIP64 = true) :
    (CZIP.call Z fs z c).bOpen = true ∧ (CZIP.call Z fs z c).bZIP64 = true := by
  cases c with
  | add src name =>
    obtain ⟨h1, h2⟩ := add_flag Z fs z src name h
    exact ⟨h2.trans hopen, h1⟩
  | extract name =>
    obtain ⟨h1, h2, -⟩ := extract_state Z z name
    exact ⟨h1.trans hopen, h2.trans h⟩
  | contents => simp [CZIP.call, CZIP.contents, hopen, h]
  | «open» => simp [CZIP.call, CZIP.open, hopen, h]
  | create => simp [CZIP.call, CZIP.create, hopen, h]
  | setZIPBufferSize n => simp [CZIP.call, CZIP.setZIPBufferSize, hopen, h]

theorem session_flag (Z : ZLib) (fs : HostFS) (calls : List SessionCall) :
    ∀ z : CZIP, z.bOpen = true → z.bZIP64 = true →
      (CZIP.session Z fs z calls).bOpen = true ∧ (CZIP.session Z fs z calls).bZIP64 = true := by
  induction calls with
  | nil => intro z h1 h2; exact ⟨h1, h2⟩
  | cons c rest ih =>
    intro z h1 h2
    obtain ⟨h3, h4⟩ := call_flag Z fs z c h1 h2
    exact ih _ h3 h4

/-! ## Flushing the Central Directory -/

theorem foldl_putZIPRecordCentral (dir : List CentralDirectoryFileHeader) :
    ∀ s : ZipFileStream,
      dir.foldl putZIPRecordCentral s = writeZIPFile s (centralDirectoryBytes dir) := by
  induction dir with
  | nil => intro s; simp [centralDirectoryBytes, writeZIPFile_nil]
  | cons e rest ih =>
    intro s
    rw [List.foldl_cons, ih, putZIPRecordCentral, writeZIPFile_append, centralDirectoryBytes]

theorem sub64_add_left (a b : Nat) (h : a + b < 2 ^ 64) : sub64 (a + b) a = b := by
  unfold sub64
  have h1 : (a + b) % 2 ^ 64 = a + b := Nat.mod_eq_of_lt h
  have h2 : a % 2 ^ 64 = a := Nat.mod_eq_of_lt (by omega)
  rw [h1, h2]
  have h3 : a + b + 2 ^ 64 - a = b + 2 ^ 64 := by omega
  rw [h3, Nat.add_mod_right]
  exact Nat.mod_eq_of_lt (by omega)

theorem UpdateCentralDirectory_modified (z : CZIP) (hmod : z.bModified = true)
    (h64 : z.offsetToEndOfLocalFileHeaders +
      (centralDirectoryBytes z.zipCentralDirectory).length < 2 ^ 64) :
    UpdateCentralDirectory z =
      { z with
        zipFileStream :=
          writeZIPFile (positionInZIPFile z.zipFileStream z.offsetToEndOfLocalFileHeaders)
            (centralDirectoryBytes z.zipCentralDirectory ++
              endRecordsBytes z.zipCentralDirectory.length z.offsetToEndOfLocalFileHeaders
                (centralDirectoryBytes z.zipCentralDirectory).length) } := by
  have hpos : (writeZIPFile (positionInZIPFile z.zipFileStream z.offsetToEndOfLocalFileHeaders)
      (centralDirectoryBytes z.zipCentralDirectory)).pos =
      z.offsetToEndOfLocalFileHeaders + (centralDirectoryBytes z.zipCentralDirectory).length := by
    rw [writeZIPFile_pos]; rfl
  have hc : ∀ n : Nat, fieldRequires32bits n = false → n % 2 ^ 16 = n := by
    intro n hn
    simp [fieldRequires32bits, sentinel16] at hn
    omega
  have hd : ∀ n : Nat, fieldRequires64bits n = false → n % 2 ^ 32 = n := by
    intro n hn
    simp [fieldRequires64bits, sentinel32] at hn
    omega
  have hp0 : (positionInZIPFile z.zipFileStream z.offsetToEndOfLocalFileHeaders).pos =
      z.offsetToEndOfLocalFileHeaders := rfl
  have h0 : fieldRequires32bits 0 = false := by decide
  unfold UpdateCentralDirectory
  simp only [hmod, if_true, foldl_putZIPRecordCentral, currentPositionZIPFile, hpos, hp0,
    sub64_add_left _ _ h64, Zip64EOCentralDirectoryRecord.default, h0, Bool.or_false,
    Bool.or_self, Bool.false_eq_true, if_false, Nat.zero_mod]
  congr 1
  have he : ({
        diskNumber := 0, startDiskNumber := 0,
        numberOfCentralDirRecords :=
          if fieldRequires32bits z.zipCentralDirectory.length = true then sentinel16
          else z.zipCentralDirectory.length % 2 ^ 16,
        totalCentralDirRecords :=
          if fieldRequires32bits z.zipCentralDirectory.length = true then sentinel16
          else z.zipCentralDirectory.length % 2 ^ 16,
        sizeOfCentralDirRecords :=
          if fieldRequires64bits (centralDirectoryBytes z.zipCentralDirectory).length = true
          then sentinel32 else (centralDirectoryBytes z.zipCentralDirectory).length % 2 ^ 32,
        offsetCentralDirRecords :=
          if fieldRequires64bits z.offsetToEndOfLocalFileHeaders = true then sentinel32
          else z.offsetToEndOfLocalFileHeaders % 2 ^ 32,
        commentLength := EOCentralDirectoryRecord.default.commentLength,
        comment := EOCentralDirectoryRecord.default.comment } : EOCentralDirectoryRecord) =
      endRecordFor z.zipCentralDirectory.length z.offsetToEndOfLocalFileHeaders
        (centralDirectoryBytes z.zipCentralDirectory).length := by
    unfold endRecordFor
    simp only [EOCentralDirectoryRecord.default]
    congr 1
    · split
      · rfl
      · rename_i h; exact hc _ (by simpa using h)
    · split
      · rfl
      · rename_i h; exact hc _ (by simpa using h)
    · split
      · rfl
      · rename_i h; exact hd _ (by simpa using h)
    · split
      · rfl
      · rename_i h; exact hd _ (by simpa using h)
  rw [he]
  unfold endRecordsBytes zip64EndRecordFor
  simp only [Zip64EOCentralDirectoryRecord.default, putZIPRecordEOCD, putZIPRecordLocator,
    putZIPRecordEOCD64]
  split
  · rw [writeZIPFile_append, writeZIPFile_append, writeZIPFile_append]
    simp only [List.append_assoc]
  · rw [writeZIPFile_append]
    simp only [List.nil_append]


theorem writeZIPFile_end_records (s : ZipFileStream) (c : Prop) [Decidable c]
    (a b d e : Bytes) :
    writeZIPFile (if c then writeZIPFile (writeZIPFile (writeZIPFile s a) b) d
      else writeZIPFile s a) e = writeZIPFile s (a ++ ((if c then b ++ d else []) ++ e)) := by
  split
  · rw [writeZIPFile_append, writeZIPFile_append, writeZIPFile_append]
    simp only [List.append_assoc]
  · rw [writeZIPFile_append]
    simp only [List.nil_append]

theorem UpdateCentralDirectory_writes (z : CZIP) (hmod : z.bModified = true) :
    ∃ (front : Bytes) (record : EOCentralDirectoryRecord),
      UpdateCentralDirectory z =
        { z with
          zipFileStream :=
            writeZIPFile (positionInZIPFile z.zipFileStream z.offsetToEndOfLocalFileHeaders)
              (centralDirectoryBytes z.zipCentralDirectory ++ (front ++ record.encode)) } := by
  unfold UpdateCentralDirectory
  simp only [hmod, if_true, foldl_putZIPRecordCentral, putZIPRecordEOCD, putZIPRecordLocator,
    putZIPRecordEOCD64, writeZIPFile_end_records]
  exact ⟨_, _, rfl⟩

theorem UpdateCentralDirectory_unmodified (z : CZIP) (hmod : z.bModified = false) :
    UpdateCentralDirectory z = z := by
  simp [UpdateCentralDirectory, hmod]

/-! ## Reading the Central Directory -/

theorem readCentralDirectory_ok : ∀ (n : Nat) (z z1 : CZIP),
    readCentralDirectory n z = (.ok (), z1) →
    ∃ t : List CentralDirectoryFileHeader,
      z1.zipCentralDirectory = z.zipCentralDirectory ++ t ∧ t.length = n ∧
      (t = [] → z1.bZIP64 = z.bZIP64) ∧
      (∀ e, t.getLast? = some e →
        z1.bZIP64 = (fieldOverflow32 e.compressedSize || fieldOverflow32 e.uncompressedSize ||
          fieldOverflow32 e.fileHeaderOffset)) := by
  intro n
  induction n with
  | zero =>
    intro z z1 h
    simp only [readCentralDirectory, Prod.mk.injEq, true_and] at h
    subst h
    exact ⟨[], by simp, rfl, fun _ => rfl, by simp⟩
  | succ n ih =>
    intro z z1 h
    unfold readCentralDirectory at h
    split at h
    · simp at h
    · rename_i de s1 heq
      obtain ⟨t, h1, h2, h3, h4⟩ := ih _ _ h
      refine ⟨de :: t, by simp [h1], by simp [h2], by simp, ?_⟩
      intro e he
      rw [List.getLast?_cons] at he
      cases ht : t.getLast? with
      | none =>
        rw [ht] at he
        simp only [Option.getD_none, Option.some.injEq] at he
        subst he
        have : t = [] := by simpa using ht
        exact h3 this
      | some e1 =>
        rw [ht] at he
        simp only [Option.getD_some, Option.some.injEq] at he
        subst he
        exact h4 _ ht

theorem open_ok (z z1 : CZIP) (h : CZIP.open z = (.ok (), z1)) :
    ∃ t : List CentralDirectoryFileHeader,
      z1.zipCentralDirectory = z.zipCentralDirectory ++ t ∧ z1.bOpen = true ∧
      (∀ e, t.getLast? = some e →
        z1.bZIP64 = (fieldOverflow32 e.compressedSize || fieldOverflow32 e.uncompressedSize ||
          fieldOverflow32 e.fileHeaderOffset)) := by
  unfold CZIP.open at h
  split at h
  · simp at h
  · split at h
    · simp at h
    · split at h
      · simp at h
      · split at h
        · split at h
          · simp at h
          · split at h
            · simp at h
            · rename_i zr heq
              simp only [Prod.mk.injEq, true_and] at h
              subst h
              obtain ⟨t, h1, -, -, h4⟩ := readCentralDirectory_ok _ _ _ heq
              exact ⟨t, h1, rfl, h4⟩
        · split at h
          · simp at h
          · rename_i zr heq
            simp only [Prod.mk.injEq, true_and] at h
            subst h
            obtain ⟨t, h1, -, -, h4⟩ := readCentralDirectory_ok _ _ _ heq
            exact ⟨t, h1, rfl, h4⟩

/-! ## Reading the ZIP64 extra field -/

theorem putField64_length (v : Nat) : (putField64 v).length = 8 := rfl

theorem findZip64Block_first (n : Nat) (body : Bytes) :
    findZip64Block (putField16 1 ++ putField16 n ++ body)
      ((putField16 1 ++ putField16 n ++ body).length + 1) 0 = some 4 := by
  unfold findZip64Block
  simp [putField16, getField16]

theorem getZip64_compressedSize (info : Zip64ExtendedInfoExtraField) (extra : Bytes)
    (h : fieldOverflow32 info.compressedSize = false) :
    (getZip64ExtendedInfoExtraField info extra).compressedSize = info.compressedSize := by
  unfold getZip64ExtendedInfoExtraField
  split <;> simp [h]

/-! ## The MSDOS date and time words -/

theorem maskBits_natCast (n k : Nat) : maskBits (n : Int) k = n % 2 ^ k := by
  unfold maskBits
  have : ((n : Int) % (2 : Int) ^ k) = ((n % 2 ^ k : Nat) : Int) := by
    push_cast; rfl
  rw [this, Int.toNat_natCast]

theorem lor_shiftLeft_of_lt (a b i : Nat) (h : a < 2 ^ i) :
    a ||| (b <<< i) = a + b * 2 ^ i := by
  rw [Nat.lor_comm, Nat.shiftLeft_eq, Nat.mul_comm b, ← Nat.mul_add_lt_is_or h, Nat.add_comm]

theorem land_mask_shiftRight (w m i k : Nat) (hm : m >>> i = 2 ^ k - 1) :
    (w &&& m) >>> i = w / 2 ^ i % 2 ^ k := by
  have h : (w &&& m) >>> i = (w >>> i) &&& (m >>> i) := by
    apply Nat.eq_of_testBit_eq
    intro j
    simp
  rw [h, hm, Nat.and_pow_two_sub_one_eq_mod, Nat.shiftRight_eq_div_pow]

/-- Three bit fields packed by `|` and `<<` add up. -/
theorem pack3 (a b c i j : Nat) (ha : a < 2 ^ i) (hab : a + b * 2 ^ i < 2 ^ j) :
    a ||| (b <<< i) ||| (c <<< j) = a + b * 2 ^ i + c * 2 ^ j := by
  rw [lor_shiftLeft_of_lt a b i ha, lor_shiftLeft_of_lt _ c j hab]

theorem dosDateTime_time (t : Tm) (s m h : Nat) (hs : t.tm_sec = s) (hm : t.tm_min = m)
    (hh : t.tm_hour = h) (hm59 : m ≤ 59) (hh23 : h ≤ 23) :
    (dosDateTime t).2 = s % 32 + m * 32 + h * 2048 := by
  simp only [dosDateTime, hs, hm, hh, maskBits_natCast]
  have h1 : m % 2 ^ 6 = m := Nat.mod_eq_of_lt (by omega)
  have h2 : h % 2 ^ 5 = h := Nat.mod_eq_of_lt (by omega)
  rw [h1, h2, pack3 (s % 2 ^ 5) m h 5 11 (Nat.mod_lt _ (by norm_num)) (by omega)]
  omega

theorem dosDateTime_date (t : Tm) (d mo y : Nat) (hd : t.tm_mday = d)
    (hmo : t.tm_mon = (mo : Int) - 1) (hy : t.tm_year = (y : Int) - 1900)
    (hd31 : d ≤ 31) (hmo12 : mo ≤ 12) (hy0 : 1980 ≤ y) (hy1 : y ≤ 2107) :
    (dosDateTime t).1 = d + mo * 32 + (y - 1980) * 512 := by
  have e1 : (mo : Int) - 1 + 1 = ((mo : Nat) : Int) := by omega
  have e2 : (y : Int) - 1900 - 80 = ((y - 1980 : Nat) : Int) := by omega
  simp only [dosDateTime, hd, hmo, hy, e1, e2, maskBits_natCast]
  have h1 : d % 2 ^ 5 = d := Nat.mod_eq_of_lt (by omega)
  have h2 : mo % 2 ^ 4 = mo := Nat.mod_eq_of_lt (by omega)
  have h3 : (y - 1980) % 2 ^ 7 = y - 1980 := Nat.mod_eq_of_lt (by omega)
  rw [h1, h2, h3, pack3 d mo (y - 1980) 5 9 (by omega) (by omega)]
  omega

theorem convertModificationDateTime_fields (dateWord timeWord : Nat) :
    convertModificationDateTime dateWord timeWord =
      { tm_sec := ((timeWord % 32 / 4 : Nat) : Int),
        tm_min := ((timeWord / 32 % 64 : Nat) : Int),
        tm_hour := ((timeWord / 2048 % 32 : Nat) : Int),
        tm_mday := ((dateWord % 32 : Nat) : Int),
        tm_mon := ((dateWord / 32 % 16 : Nat) : Int) - 1,
        tm_year := ((dateWord / 512 % 128 : Nat) : Int) + 80 } := by
  unfold convertModificationDateTime
  have a1 : timeWord &&& 0b11111 = timeWord % 32 :=
    Nat.and_pow_two_sub_one_eq_mod timeWord 5
  have a2 : (timeWord &&& 0b11111100000) >>> 5 = timeWord / 32 % 64 :=
    land_mask_shiftRight timeWord _ 5 6 (by decide)
  have a3 : (timeWord &&& 0b1111100000000000) >>> 11 = timeWord / 2048 % 32 :=
    land_mask_shiftRight timeWord _ 11 5 (by decide)
  have a4 : dateWord &&& 0b11111 = dateWord % 32 :=
    Nat.and_pow_two_sub_one_eq_mod dateWord 5
  have a5 : (dateWord &&& 0b111100000) >>> 5 = dateWord / 32 % 16 :=
    land_mask_shiftRight dateWord _ 5 4 (by decide)
  have a6 : (dateWord &&& 0b1111111000000000) >>> 9 = dateWord / 512 % 128 :=
    land_mask_shiftRight dateWord _ 9 7 (by decide)
  rw [a1, a2, a3, a4, a5, a6, Nat.shiftRight_eq_div_pow]

/-! ## Claims -/

/-- C1 (the code departs from the claim): `z.bin` (200 zero bytes, which the
codec deflates to two bytes and inflates back) is added under the name `z`
and extracted again, with a 64-byte buffer.  On the empty archive the round
trip holds: `extract` returns `true`, the destination equals the file and the
stored CRC-32 is the CRC-32 of the file's bytes.  On the archive whose local
headers end at offset 2^32 the entry is ZIP64 because of its offset alone:
`add` returns `true` having written a two-byte payload, but the entry keeps
method deflate with compressed size 200 (the original size), and `extract`
asks the archive for 64 bytes where 55 are left and throws "Error reading ZIP
archive file during inflate", leaving an empty destination file. -/
theorem add_then_extract_far_offset_fails :
    ((CZIP.extract toyZLib
        (CZIP.add toyZLib toyFS (CZIP.setZIPBufferSize emptyArchive 64) (ascii "z.bin")
          (ascii "z")).2 (ascii "z")).1 = .ok true ∧
      (CZIP.extract toyZLib
        (CZIP.add toyZLib toyFS (CZIP.setZIPBufferSize emptyArchive 64) (ascii "z.bin")
          (ascii "z")).2 (ascii "z")).2.2 = some zeroBytes ∧
      (CZIP.add toyZLib toyFS (CZIP.setZIPBufferSize emptyArchive 64) (ascii "z.bin")
        (ascii "z")).2.zipCentralDirectory.map (fun e => (e.compression, e.compressedSize, e.crc32))
        = [(kZIPCompressionDeflate, 2, toyZLib.crc32 0 zeroBytes)]) ∧
    (farArchive.bOpen = true ∧ farArchive.zipCentralDirectory = [] ∧
      farArchive.zipIOBufferSize = 64 ∧ farArchive.offsetToEndOfLocalFileHeaders = 2 ^ 32 ∧
      (CZIP.add toyZLib toyFS farArchive (ascii "z.bin") (ascii "z")).1 = .ok true ∧
      (CZIP.add toyZLib toyFS farArchive (ascii "z.bin") (ascii "z")).2.zipCentralDirectory.map
        (fun e => (e.compression, e.compressedSize, e.uncompressedSize, e.fileHeaderOffset))
        = [(kZIPCompressionDeflate, 200, 200, sentinel32)] ∧
      (CZIP.add toyZLib toyFS farArchive (ascii "z.bin")
        (ascii "z")).2.offsetToEndOfLocalFileHeaders = 2 ^ 32 + 43 + 2 ∧
      (CZIP.extract toyZLib (CZIP.add toyZLib toyFS farArchive (ascii "z.bin") (ascii "z")).2
        (ascii "z")).1 = .error .readArchiveInflate ∧
      (CZIP.extract toyZLib (CZIP.add toyZLib toyFS farArchive (ascii "z.bin") (ascii "z")).2
        (ascii "z")).2.2 = some []) := by
  decide

/-- C2 (the code departs from the claim): on the empty archive, `x.txt`
added as `a.txt` survives `close()` and `open()`: the reopened directory
equals the one flushed.  `t.zip` (92 bytes that end like an empty ZIP file,
and on which the codec's deflate output has 186 bytes) added as `t` does not:
`add` discards the deflate output and stores the 92 bytes, but the archive
file keeps its 217 bytes; `close()` writes the directory and the end record
at offset 123, which leaves 25 bytes of the discarded output behind the end
record; `open()` reads the last 22 bytes of the file, which are the tail of
`t.zip`, and rebuilds an empty directory. -/
theorem close_then_open_after_store_fallback_fails :
    ((CZIP.open (CZIP.close (CZIP.add toyZLib toyFS emptyArchive (ascii "x.txt")
        (ascii "a.txt")).2).2).2.zipCentralDirectory =
      (CZIP.add toyZLib toyFS emptyArchive (ascii "x.txt")
        (ascii "a.txt")).2.zipCentralDirectory) ∧
    (CZIP.add toyZLib toyFS emptyArchive (ascii "t.zip") (ascii "t")).1 = .ok true ∧
    (toyZLib.deflate toyZLib.deflateInit2.2 zipTailBytes true).2.1.length = 186 ∧
    (CZIP.add toyZLib toyFS emptyArchive (ascii "t.zip") (ascii "t")).2.zipCentralDirectory.map
      (fun e => (e.fileNameStr, e.compression, e.compressedSize, e.uncompressedSize))
      = [(ascii "t", kZIPCompressionStore, 92, 92)] ∧
    (CZIP.add toyZLib toyFS emptyArchive (ascii "t.zip")
      (ascii "t")).2.offsetToEndOfLocalFileHeaders = 123 ∧
    (CZIP.add toyZLib toyFS emptyArchive (ascii "t.zip") (ascii "t")).2.zipFileStream.size = 217 ∧
    (CZIP.close (CZIP.add toyZLib toyFS emptyArchive (ascii "t.zip") (ascii "t")).2).1
      = .ok () ∧
    (CZIP.close (CZIP.add toyZLib toyFS emptyArchive (ascii "t.zip")
      (ascii "t")).2).2.zipFileStream.size = 217 ∧
    (CZIP.open (CZIP.close (CZIP.add toyZLib toyFS emptyArchive (ascii "t.zip")
      (ascii "t")).2).2).1 = .ok () ∧
    (CZIP.open (CZIP.close (CZIP.add toyZLib toyFS emptyArchive (ascii "t.zip")
      (ascii "t")).2).2).2.zipCentralDirectory = [] := by
  decide

/-- C4: when the directory of an Open archive already holds an entry whose
name equals `archiveName` byte for byte, `add` returns `false` and hands back
the object unchanged (directory, end-of-local-headers offset, modified and
ZIP64 flags, stream and backing file).  So after a first `add` of a regular
file under a fresh name has returned `true`, a second `add` under the same
name returns `false` and the directory holds exactly one entry of that name,
recording the first file's size (in its 32-bit size field, which holds the
sentinel instead when the size needs 64 bits; `contents()` reports the size
itself when it is below the sentinel).  The test is exact: as long as no
entry's name is byte-for-byte equal, `add` never answers `false`. -/
theorem add_rejects_duplicate_name (Z : ZLib) (fs : HostFS) (z : CZIP)
    (first second name : Bytes) (hopen : z.bOpen = true) :
    ((∃ e ∈ z.zipCentralDirectory, e.fileNameStr = name) →
        CZIP.add Z fs z second name = (.ok false, z)) ∧
    (∀ (f : HostFile) (z1 : CZIP),
        (∀ e ∈ z.zipCentralDirectory, e.fileNameStr ≠ name) →
        fs first = some f → S_ISDIR f.st_mode = false →
        CZIP.add Z fs z first name = (.ok true, z1) →
        CZIP.add Z fs z1 second name = (.ok false, z1) ∧
        ∃ e, z1.zipCentralDirectory.filter (fun d => d.fileNameStr == name) = [e] ∧
          e.uncompressedSize =
            (if fieldRequires64bits f.st_size then sentinel32 else f.st_size) ∧
          (f.st_size < sentinel32 → (CZIP.fileDetail e).uncompressedSize = f.st_size)) ∧
    ((∀ e ∈ z.zipCentralDirectory, e.fileNameStr ≠ name) →
        (CZIP.add Z fs z second name).1 ≠ .ok false) := by
  refine ⟨add_of_duplicate Z fs z second name hopen, ?_, ?_⟩
  · intro f z1 hnew hf hdir hadd
    rw [add_of_new_name Z fs z first name f hopen hnew hf] at hadd
    have hok : addFileHeaderAndContents Z fs z first name = (.ok (), z1) := by
      revert hadd
      generalize addFileHeaderAndContents Z fs z first name = r
      rcases r with ⟨_ | _, z2⟩ <;> simp
    obtain ⟨ho, -, -, -, de, hd, hn, -, hu, -⟩ :=
      addFileHeaderAndContents_ok Z fs z z1 first name f hf hok
    rw [entryFor_fileNameStr, hdir] at hn
    simp only [Bool.false_and, Bool.false_eq_true, if_false] at hn
    have hst : statFileSize f = f.st_size := by simp [statFileSize, hdir]
    have hu2 : de.uncompressedSize =
        (if fieldRequires64bits f.st_size then sentinel32 else f.st_size) := by
      rw [hu, entryFor_uncompressedSize, hst]
      by_cases hr : fieldRequires64bits f.st_size = true
      · simp [hr]
      · have hlt : f.st_size < 2 ^ 32 := by
          simp [fieldRequires64bits, sentinel32] at hr
          omega
        simp only [hr, if_false]
        exact Nat.mod_eq_of_lt hlt
    refine ⟨add_of_duplicate Z fs z1 second name (ho.trans hopen) ⟨de, by simp [hd], hn⟩,
      de, ?_, hu2, ?_⟩
    · rw [hd, List.filter_append]
      have h1 : z.zipCentralDirectory.filter (fun d => d.fileNameStr == name) = [] := by
        rw [List.filter_eq_nil_iff]
        intro e he
        simpa using hnew e he
      simp [h1, hn]
    · intro hsize
      have hnr : fieldRequires64bits f.st_size = false := by
        unfold sentinel32 at hsize
        simp [fieldRequires64bits, sentinel32]; omega
      have hu3 : de.uncompressedSize = f.st_size := by
        rw [hu2, hnr]; simp
      have hno : fieldOverflow32 de.uncompressedSize = false := by
        rw [hu3]; unfold sentinel32 at hsize; simp [fieldOverflow32, sentinel32]; omega
      unfold CZIP.fileDetail
      split
      · simp only []
        rw [getZip64_originalSize _ _ hno, hu3]
      · exact hu3
  · intro hnew
    have h := (any_name_eq_false z.zipCentralDirectory name).mpr hnew
    simp only [CZIP.add, hopen, h]
    cases hfe : fileExists fs second with
    | error e => simp
    | ok b =>
      cases b with
      | false => simp [fileExists] at hfe; split at hfe <;> simp at hfe
      | true =>
        simp only []
        generalize addFileHeaderAndContents Z fs z second name = r
        rcases r with ⟨_ | _, z2⟩ <;> simp

/-- Witness for C4: `x.txt` and then `y.txt` are added to the empty archive
under `a.txt`; and with `A.TXT` in the directory, `a.txt` is still added. -/
theorem add_rejects_duplicate_name_witness :
    (CZIP.add toyZLib toyFS emptyArchive (ascii "x.txt") (ascii "a.txt")).2.bOpen = true ∧
    (∃ e ∈ (CZIP.add toyZLib toyFS emptyArchive (ascii "x.txt")
        (ascii "a.txt")).2.zipCentralDirectory, e.fileNameStr = ascii "a.txt") ∧
    CZIP.add toyZLib toyFS
        (CZIP.add toyZLib toyFS emptyArchive (ascii "x.txt") (ascii "a.txt")).2
        (ascii "y.txt") (ascii "a.txt") =
      (.ok false, (CZIP.add toyZLib toyFS emptyArchive (ascii "x.txt") (ascii "a.txt")).2) ∧
    (CZIP.add toyZLib toyFS
        (CZIP.add toyZLib toyFS emptyArchive (ascii "x.txt") (ascii "A.TXT")).2
        (ascii "y.txt") (ascii "a.txt")).1 = .ok true :=
  ⟨rfl, by decide,
    (add_rejects_duplicate_name toyZLib toyFS
      (CZIP.add toyZLib toyFS emptyArchive (ascii "x.txt") (ascii "a.txt")).2
      (ascii "x.txt") (ascii "y.txt") (ascii "a.txt") rfl).1 (by decide),
    by decide⟩

/-- C5 (the code departs from the claim): for a source path on which
`lstat64` fails, `fileExists` throws instead of returning `false`, so `add`
on an Open archive whose directory has no entry of that name raises the
exception "stat() error getting file size" rather than returning `false`; the
object is handed back unchanged. -/
theorem add_missing_source_throws (Z : ZLib) (fs : HostFS) (z : CZIP) (src name : Bytes)
    (hopen : z.bOpen = true) (hnew : ∀ e ∈ z.zipCentralDirectory, e.fileNameStr ≠ name)
    (hmissing : fs src = none) :
    fileExists fs src = .error .statFileSize ∧
    CZIP.add Z fs z src name = (.error .statFileSize, z) ∧
    (CZIP.add Z fs z src name).1 ≠ .ok false := by
  have h := (any_name_eq_false z.zipCentralDirectory name).mpr hnew
  simp [CZIP.add, hopen, h, fileExists, hmissing]

/-- Witness for C5: `nosuch.txt` is added to the empty archive. -/
theorem add_missing_source_throws_witness :
    emptyArchive.bOpen = true ∧ toyFS (ascii "nosuch.txt") = none ∧
    CZIP.add toyZLib toyFS emptyArchive (ascii "nosuch.txt") (ascii "a.txt") =
      (.error .statFileSize, emptyArchive) :=
  ⟨rfl, by decide,
    (add_missing_source_throws toyZLib toyFS emptyArchive (ascii "nosuch.txt") (ascii "a.txt")
      rfl (by decide) (by decide)).2.1⟩

/-- C9, as stated, fails: `y.txt` (three bytes, on which the codec's
deflate output has eight) is added to an archive whose local headers end at
offset 2^32.  The entry is ZIP64, so the deflate output is kept: the entry's
method is deflate (8) and the eight bytes behind its 47-byte local header are
the deflate output, not the file's bytes. -/
theorem add_incompressible_counterexample :
    toyFS (ascii "y.txt") =
      some { st_mode := 0o100644, st_size := 3, mtime := toyTm, content := [1, 2, 3] } ∧
    (toyZLib.deflate toyZLib.deflateInit2.2 [1, 2, 3] true).2.1.length = 8 ∧
    (CZIP.add toyZLib toyFS farArchive (ascii "y.txt") (ascii "b.txt")).1 = .ok true ∧
    (CZIP.add toyZLib toyFS farArchive (ascii "y.txt") (ascii "b.txt")).2.zipCentralDirectory.map
      (fun e => (e.fileNameStr, e.compression, e.uncompressedSize)) =
      [(ascii "b.txt", kZIPCompressionDeflate, 3)] ∧
    readBytes (CZIP.add toyZLib toyFS farArchive (ascii "y.txt")
      (ascii "b.txt")).2.zipFileStream.data (4294967296 + 47) 8 = [1, 3, 1, 2, 3, 1, 2, 3] := by
  decide

/-- C9, amended: let a non-empty regular file be added under a new name, and
let `deflateFile` return a compressed size that is not smaller than the
original size.  If the entry is not ZIP64 (header offset and size fit 32
bits), `add` returns `true`, the appended entry has compression method
store (0), compressed and uncompressed size equal to the original size and
the CRC-32 that `deflateFile` returned; the local header as finally written
(method store) is in the archive at the header offset, the bytes behind it
are the file's raw bytes, and the end-of-local-headers offset is just behind
them.  If the entry is ZIP64 (offset or size needs 64 bits), the deflate
output is kept: the method stays deflate and the end-of-local-headers offset
is the end of the deflate output.  (Environment: the archive stream is not
in its error state, the I/O buffer is not empty, the source delivers
`st_size` bytes.) -/
theorem add_incompressible_is_stored (Z : ZLib) (fs : HostFS) (z : CZIP) (src name : Bytes)
    (f : HostFile) (crc csize : Nat) (s2 : ZipFileStream) (hopen : z.bOpen = true)
    (hnew : ∀ e ∈ z.zipCentralDirectory, e.fileNameStr ≠ name) (hf : fs src = some f)
    (hreg : S_ISDIR f.st_mode = false) (hne : f.st_size ≠ 0)
    (hread : f.st_size = f.content.length)
    (hbuf : 0 < z.zipIOBufferSize) (hfail : z.zipFileStream.fail = false)
    (hdef : deflateFile Z fs z.zipIOBufferSize
      (putZIPRecordLocal (positionInZIPFile z.zipFileStream z.offsetToEndOfLocalFileHeaders)
        (initialFileHeader (entryFor z.offsetToEndOfLocalFileHeaders f name)))
      src f.st_size = (.ok (crc, csize), s2))
    (hge : f.st_size ≤ csize) :
    (fieldRequires64bits z.offsetToEndOfLocalFileHeaders = false →
      fieldRequires64bits f.st_size = false →
      ∃ (de : CentralDirectoryFileHeader) (hdr : LocalFileHeader),
        (CZIP.add Z fs z src name).1 = .ok true ∧
        (CZIP.add Z fs z src name).2.zipCentralDirectory = z.zipCentralDirectory ++ [de] ∧
        de.compression = kZIPCompressionStore ∧ kZIPCompressionStore = 0 ∧
        de.compressedSize = f.st_size ∧ de.uncompressedSize = f.st_size ∧ de.crc32 = crc ∧
        de.fileNameStr = name ∧
        hdr.compression = kZIPCompressionStore ∧ hdr.compressedSize = f.st_size ∧
        hdr.fileNameStr = name ∧
        readBytes (CZIP.add Z fs z src name).2.zipFileStream.data
          z.offsetToEndOfLocalFileHeaders hdr.encode.length = hdr.encode ∧
        readBytes (CZIP.add Z fs z src name).2.zipFileStream.data
          (z.offsetToEndOfLocalFileHeaders + hdr.encode.length) f.st_size = f.content ∧
        (CZIP.add Z fs z src name).2.offsetToEndOfLocalFileHeaders =
          z.offsetToEndOfLocalFileHeaders + hdr.encode.length + f.st_size) ∧
    ((fieldRequires64bits z.offsetToEndOfLocalFileHeaders ||
        fieldRequires64bits f.st_size) = true →
      ∃ de : CentralDirectoryFileHeader,
        (CZIP.add Z fs z src name).1 = .ok true ∧
        (CZIP.add Z fs z src name).2.zipCentralDirectory = z.zipCentralDirectory ++ [de] ∧
        de.compression = kZIPCompressionDeflate ∧
        (CZIP.add Z fs z src name).2.offsetToEndOfLocalFileHeaders = s2.pos) := by
  have hst : statFileSize f = f.st_size := by simp [statFileSize, hreg]
  have hs1 : (putZIPRecordLocal
      (positionInZIPFile z.zipFileStream z.offsetToEndOfLocalFileHeaders)
      (initialFileHeader (entryFor z.offsetToEndOfLocalFileHeaders f name))).fail = false := by
    rw [putZIPRecordLocal_fail]; exact hfail
  obtain ⟨hs2, hp2⟩ := deflateFile_ok_stream Z fs _ _ _ _ _ _ _ f hf hbuf hs1 hdef
  unfold entryFor at hdef hs1
  rw [hst] at hdef
  generalize hres : CZIP.add Z fs z src name = res
  rw [add_of_new_name Z fs z src name f hopen hnew hf] at hres
  unfold addFileHeaderAndContents at hres
  simp only [getFileSize, getFileModificationDateTime, getFileAttributes, hf, hst, ne_eq, hne,
    not_false_eq_true, if_true, hdef] at hres
  constructor
  · intro ho hs
    have hlt : ¬ csize < f.st_size := by omega
    have hs4 : (putZIPRecordLocal (positionInZIPFile s2 z.offsetToEndOfLocalFileHeaders)
        { initialFileHeader (initialDirectoryEntry z.offsetToEndOfLocalFileHeaders f.st_size
            (dosDateTime f.mtime) (unixAttributes f.st_mode) name) with
          crc32 := crc, creatorVersion := (kZIPCreatorUnix <<< 8) ||| kZIPVersion10,
          compression := kZIPCompressionStore, compressedSize := f.st_size % 2 ^ 32 }).fail
        = false := by
      rw [putZIPRecordLocal_fail, positionInZIPFile_fail]; exact hs2
    simp only [ho, hs, Bool.or_self, hlt, decide_False, Bool.false_eq_true, if_false] at hres
    rw [storeFile_ok fs z.zipIOBufferSize _ src f.st_size f hf hbuf hs4 (by omega)] at hres
    simp only [] at hres
    subst hres
    have hE : initialDirectoryEntry z.offsetToEndOfLocalFileHeaders f.st_size
        (dosDateTime f.mtime) (unixAttributes f.st_mode) name =
        entryFor z.offsetToEndOfLocalFileHeaders f name := by
      unfold entryFor; rw [hst]
    have hmod : f.st_size % 2 ^ 32 = f.st_size := by
      simp [fieldRequires64bits, sentinel32] at hs
      omega
    have htake : List.take f.st_size f.content = f.content := by
      rw [hread, List.take_length]
    rw [hE] at hs4 ⊢
    refine ⟨_, { initialFileHeader (entryFor z.offsetToEndOfLocalFileHeaders f name) with
        crc32 := crc, creatorVersion := (kZIPCreatorUnix <<< 8) ||| kZIPVersion10,
        compression := kZIPCompressionStore, compressedSize := f.st_size % 2 ^ 32 },
      rfl, rfl, rfl, rfl, hmod, ?_, rfl, ?_, rfl, hmod, ?_, ?_, ?_, ?_⟩
    · simp only [entryFor_uncompressedSize, hst, hs, Bool.false_eq_true, if_false, hmod]
    · simp only [entryFor_fileNameStr, hreg, Bool.false_and, Bool.false_eq_true, if_false]
    · simp only [initialFileHeader, entryFor_fileNameStr, hreg, Bool.false_and,
        Bool.false_eq_true, if_false]
    · simp only [writeZIPFile_data]
      rw [readBytes_writeBytes_before _ _ _ _ _ (by
        simp only [putZIPRecordLocal, writeZIPFile_pos, positionInZIPFile]; omega)]
      simp only [putZIPRecordLocal, writeZIPFile_data, positionInZIPFile]
      exact readBytes_writeBytes_same _ _ _
    · simp only [writeZIPFile_data, putZIPRecordLocal, writeZIPFile_pos, positionInZIPFile,
        htake]
      have := readBytes_writeBytes_same
        (writeBytes s2.data z.offsetToEndOfLocalFileHeaders
          (LocalFileHeader.encode
            { initialFileHeader (entryFor z.offsetToEndOfLocalFileHeaders f name) with
              crc32 := crc, creatorVersion := (kZIPCreatorUnix <<< 8) ||| kZIPVersion10,
              compression := kZIPCompressionStore, compressedSize := f.st_size % 2 ^ 32 }))
        (z.offsetToEndOfLocalFileHeaders + (LocalFileHeader.encode
            { initialFileHeader (entryFor z.offsetToEndOfLocalFileHeaders f name) with
              crc32 := crc, creatorVersion := (kZIPCreatorUnix <<< 8) ||| kZIPVersion10,
              compression := kZIPCompressionStore, compressedSize := f.st_size % 2 ^ 32 }).length)
        f.content
      rw [← hread] at this
      exact this
    · simp only [currentPositionZIPFile, writeZIPFile_pos, putZIPRecordLocal, positionInZIPFile,
        htake]
      rw [← hread]
  · intro hz
    simp only [hz, Bool.or_true, if_true] at hres
    subst hres
    refine ⟨_, rfl, rfl, ?_, rfl⟩
    have := entryFor_compression z.offsetToEndOfLocalFileHeaders f name
    rw [hreg] at this
    unfold entryFor at this
    rw [hst] at this
    simpa using this


/-- Witness for C9 (amended): `y.txt` is added to the empty archive. -/
theorem add_incompressible_is_stored_witness :
    ∃ de : CentralDirectoryFileHeader,
      (CZIP.add toyZLib toyFS emptyArchive (ascii "y.txt") (ascii "b.txt")).1 = .ok true ∧
      (CZIP.add toyZLib toyFS emptyArchive (ascii "y.txt") (ascii "b.txt")).2.zipCentralDirectory
        = emptyArchive.zipCentralDirectory ++ [de] ∧
      de.compression = 0 ∧ de.compressedSize = 3 := by
  obtain ⟨de, hdr, h1, h2, h3, h4, h5, -⟩ :=
    (add_incompressible_is_stored toyZLib toyFS emptyArchive (ascii "y.txt") (ascii "b.txt")
      { st_mode := 0o100644, st_size := 3, mtime := toyTm, content := [1, 2, 3] } _ _ _
      rfl (by decide) (by decide) (by decide) (by decide) rfl (by decide) rfl rfl
      (by decide)).1 (by decide) (by decide)
  exact ⟨de, h1, h2, h3.trans h4, h5⟩

theorem add_directory_name_wraps (name : Bytes) (hl : name.length = 65535)
    (hg : name.getLast? = some 97) :
    (CZIP.add toyZLib toyFS emptyArchive (ascii "dir") name).2.zipCentralDirectory.map
      (fun e => (e.fileNameLength, e.fileNameStr.length)) = [(0, 65536)] := by
  have hf : toyFS (ascii "dir") = some
      { st_mode := 0o040755, st_size := 4096, mtime := toyTm, content := [] } := by decide
  have hdir : S_ISDIR 0o040755 = true := by decide
  have ho : emptyArchive.bOpen = true := rfl
  have hd : emptyArchive.zipCentralDirectory = [] := rfl
  rw [add_of_new_name _ _ _ _ _ _ ho (by rw [hd]; intro e he; cases he) hf,
    addFileHeaderAndContents_empty _ _ _ _ _ _ hf (by decide)]
  simp only [hd, List.nil_append, List.map_cons, List.map_nil, entryFor_fileNameLength,
    entryFor_fileNameStr, hg, hl]
  simp [hdir, hl]

/-- C10, as stated, fails twice.  A directory added to an archive whose
local headers end at offset 2^32 gets extractor version 4.5, not 1.0; and a
directory added under a 65535-byte name gets the 65536-byte name with '/'
appended while its 16-bit name-length field wraps to 0. -/
theorem add_directory_counterexample :
    ((CZIP.add toyZLib toyFS farArchive (ascii "dir") (ascii "d")).1 = .ok true ∧
      (CZIP.add toyZLib toyFS farArchive (ascii "dir") (ascii "d")).2.zipCentralDirectory.map
        (fun e => (e.fileNameStr, e.compression, e.extractorVersion)) =
        [(ascii "d/", kZIPCompressionStore, kZIPVersion45)]) ∧
    (CZIP.add toyZLib toyFS emptyArchive (ascii "dir")
        (List.replicate 65535 97)).2.zipCentralDirectory.map
      (fun e => (e.fileNameLength, e.fileNameStr.length)) = [(0, 65536)] :=
  ⟨by decide,
    add_directory_name_wraps _ (List.length_replicate ..)
      (by rw [List.getLast?_replicate]; simp)⟩

/-- C10, amended: for a source that is a directory and a non-empty
`archiveName` that is new to the directory and whose final form (with one '/'
appended unless it already ends in '/') is shorter than 65536 bytes, `add` on
an Open archive returns `true` and appends one entry with compression method
store (0), uncompressed and compressed size 0, the final name, a name-length
field equal to the final name's byte length, and extractor version 1.0 when
the header offset fits 32 bits and 4.5 when it does not (the entry is then
ZIP64).  The archive stream is left as the write of the local file header
leaves it, and the end-of-local-headers offset is the header's offset plus
the header's length: no payload follows the header. -/
theorem add_directory_entry (Z : ZLib) (fs : HostFS) (z : CZIP) (src name : Bytes)
    (f : HostFile) (hopen : z.bOpen = true)
    (hnew : ∀ e ∈ z.zipCentralDirectory, e.fileNameStr ≠ name)
    (hf : fs src = some f) (hdir : S_ISDIR f.st_mode = true) (_hne : name ≠ [])
    (hlen : (if name.getLast? = some 47 then name else name ++ [47]).length < 65536) :
    ∃ de : CentralDirectoryFileHeader,
      (CZIP.add Z fs z src name).1 = .ok true ∧
      (CZIP.add Z fs z src name).2.zipCentralDirectory = z.zipCentralDirectory ++ [de] ∧
      de.compression = kZIPCompressionStore ∧ kZIPCompressionStore = 0 ∧
      de.uncompressedSize = 0 ∧ de.compressedSize = 0 ∧
      de.fileNameStr = (if name.getLast? = some 47 then name else name ++ [47]) ∧
      de.fileNameLength = de.fileNameStr.length ∧
      de.extractorVersion =
        (if fieldRequires64bits z.offsetToEndOfLocalFileHeaders then kZIPVersion45
         else kZIPVersion10) ∧
      (CZIP.add Z fs z src name).2.zipFileStream =
        putZIPRecordLocal (positionInZIPFile z.zipFileStream z.offsetToEndOfLocalFileHeaders)
          (initialFileHeader de) ∧
      (CZIP.add Z fs z src name).2.offsetToEndOfLocalFileHeaders =
        z.offsetToEndOfLocalFileHeaders + (initialFileHeader de).encode.length := by
  have h0 : statFileSize f = 0 := by simp [statFileSize, hdir]
  rw [add_of_new_name Z fs z src name f hopen hnew hf,
    addFileHeaderAndContents_empty Z fs z src name f hf h0]
  refine ⟨entryFor z.offsetToEndOfLocalFileHeaders f name, rfl, rfl, ?_, rfl, ?_, ?_, ?_, ?_,
    ?_, rfl, ?_⟩
  · simp [entryFor_compression, hdir]
  · simp [entryFor_uncompressedSize, h0, fieldRequires64bits, sentinel32]
  · simp [entryFor_compressedSize, h0, fieldRequires64bits, sentinel32]
  · rw [entryFor_fileNameStr, hdir]
    by_cases hs : name.getLast? = some 47 <;> simp [hs]
  · rw [entryFor_fileNameLength, entryFor_fileNameStr, hdir]
    by_cases hs : name.getLast? = some 47
    · simp only [hs, if_true] at hlen
      simp [hs]; omega
    · simp only [hs, if_false, List.length_append, List.length_singleton] at hlen
      simp [hs]; omega
  · simp [entryFor_extractorVersion, h0, hdir, fieldRequires64bits, sentinel32]
  · simp only [currentPositionZIPFile, putZIPRecordLocal, writeZIPFile_pos, positionInZIPFile]

/-- Witness for C10 (amended): the directory `dir` is added to the empty
archive under the name `d`. -/
theorem add_directory_entry_witness :
    ∃ de : CentralDirectoryFileHeader,
      (CZIP.add toyZLib toyFS emptyArchive (ascii "dir") (ascii "d")).1 = .ok true ∧
      (CZIP.add toyZLib toyFS emptyArchive (ascii "dir") (ascii "d")).2.zipCentralDirectory
        = emptyArchive.zipCentralDirectory ++ [de] ∧
      de.fileNameStr = ascii "d/" ∧ de.fileNameLength = 2 ∧ de.extractorVersion = 10 := by
  obtain ⟨de, h1, h2, -, -, -, -, h3, h4, h5, -, -⟩ :=
    add_directory_entry toyZLib toyFS emptyArchive (ascii "dir") (ascii "d")
      { st_mode := 0o040755, st_size := 4096, mtime := toyTm, content := [] }
      rfl (by decide) (by decide) (by decide) (by decide) (by decide)
  refine ⟨de, h1, h2, ?_, ?_, ?_⟩
  · rw [h3]; decide
  · rw [h4, h3]; decide
  · rw [h5]; decide

/-- C8: an operation invoked in the wrong state fails with an InvalidState
error and changes nothing.  `add`, `extract`, `contents` and `close` on an
archive that is not Open, and `open` and `create` on one that is, throw
before touching anything: the object returned (directory, flags, offset,
stream and backing file) is the one passed in, and `extract` leaves the
destination file alone. -/
theorem wrong_state_is_invalid_state (Z : ZLib) (fs : HostFS) (z : CZIP)
    (fileNameStr zippedFileNameStr : Bytes) :
    (z.bOpen = false →
      CZIP.add Z fs z fileNameStr zippedFileNameStr = (.error .notOpened, z) ∧
      CZIP.extract Z z fileNameStr = (.error .notOpened, z, none) ∧
      CZIP.contents z = (.error .notOpened, z) ∧
      CZIP.close z = (.error .notOpened, z)) ∧
    (z.bOpen = true →
      CZIP.open z = (.error .alreadyOpened, z) ∧
      CZIP.create z = (.error .shouldNotBeOpen, z)) ∧
    ZipError.notOpened.kind = some .InvalidState ∧
    ZipError.alreadyOpened.kind = some .InvalidState ∧
    ZipError.shouldNotBeOpen.kind = some .InvalidState := by
  refine ⟨fun h => ?_, fun h => ?_, rfl, rfl, rfl⟩
  · simp [CZIP.add, CZIP.extract, CZIP.contents, CZIP.close, h]
  · simp [CZIP.open, CZIP.create, h]

/-- Witness for C8: the fresh (Closed) object and the Open empty archive. -/
theorem wrong_state_is_invalid_state_witness :
    (freshArchive.bOpen = false ∧
      CZIP.add toyZLib toyFS freshArchive (ascii "x.txt") (ascii "a.txt")
        = (.error .notOpened, freshArchive)) ∧
    (emptyArchive.bOpen = true ∧ CZIP.create emptyArchive = (.error .shouldNotBeOpen, emptyArchive)) :=
  ⟨⟨rfl, ((wrong_state_is_invalid_state toyZLib toyFS freshArchive (ascii "x.txt")
      (ascii "a.txt")).1 rfl).1⟩,
   ⟨rfl, ((wrong_state_is_invalid_state toyZLib toyFS emptyArchive (ascii "x.txt")
      (ascii "a.txt")).2.1 rfl).2⟩⟩

/-- C11, as stated, fails: `big.bin` (original size 2^32 + 5, which the
codec deflates to two bytes) is added to the empty archive.  The payload
behind the 53-byte local header has two bytes, so the true compressed size
fits its field, yet the compressed-size field of the appended entry holds the
sentinel, because the original size overflowed; the two bytes are recorded in
the ZIP64 extra field, from which `contents()` reports them. -/
theorem add_sentinels_counterexample :
    emptyArchive.bOpen = true ∧ emptyArchive.zipCentralDirectory = [] ∧
    emptyArchive.offsetToEndOfLocalFileHeaders = 0 ∧
    (CZIP.add toyZLib mockFS emptyArchive (ascii "big.bin") (ascii "big")).1 = .ok true ∧
    (CZIP.add toyZLib mockFS emptyArchive (ascii "big.bin")
      (ascii "big")).2.zipCentralDirectory.map
      (fun e => (e.fileHeaderOffset, e.uncompressedSize, e.compressedSize, e.extraFieldLength))
      = [(0, sentinel32, sentinel32, 20)] ∧
    (CZIP.add toyZLib mockFS emptyArchive (ascii "big.bin")
      (ascii "big")).2.offsetToEndOfLocalFileHeaders = 30 + 3 + 20 + 2 ∧
    (CZIP.add toyZLib mockFS emptyArchive (ascii "big.bin")
      (ascii "big")).2.zipCentralDirectory.map
      (fun e => ((CZIP.fileDetail e).uncompressedSize, (CZIP.fileDetail e).compressedSize))
      = [(4294967301, 2)] := by
  decide

/-- C11, amended: let `add` append an entry for a source of original size
`n` (0 for a directory) at header offset `o`.  The header-offset field holds
`0xFFFFFFFF` when `o` exceeds `0xFFFFFFFF` and `o` otherwise; the
uncompressed-size field holds `0xFFFFFFFF` when `n` exceeds `0xFFFFFFFF` and
`n` otherwise; neither depends on the other.  The compressed-size field is 0
for an empty source; for a non-empty one, with `c` the compressed size that
`deflateFile` returned, it holds `0xFFFFFFFF` when the original size `n`
exceeds `0xFFFFFFFF` (whatever `c` is), and otherwise `n` when `o` exceeds
`0xFFFFFFFF`, and otherwise the size of the payload kept: `c` when `c < n`,
else `n`. -/
theorem add_sentinel_fields (Z : ZLib) (fs : HostFS) (z : CZIP) (src name : Bytes)
    (f : HostFile) (hf : fs src = some f) (hadd : (CZIP.add Z fs z src name).1 = .ok true) :
    ∃ de, (CZIP.add Z fs z src name).2.zipCentralDirectory = z.zipCentralDirectory ++ [de] ∧
      de.fileHeaderOffset =
        (if 0xFFFFFFFF < z.offsetToEndOfLocalFileHeaders then 0xFFFFFFFF
          else z.offsetToEndOfLocalFileHeaders) ∧
      de.uncompressedSize =
        (if 0xFFFFFFFF < statFileSize f then 0xFFFFFFFF else statFileSize f) ∧
      ((statFileSize f = 0 ∧ de.compressedSize = 0) ∨
        ∃ (crc c : Nat) (s2 : ZipFileStream),
          deflateFile Z fs z.zipIOBufferSize
            (putZIPRecordLocal
              (positionInZIPFile z.zipFileStream z.offsetToEndOfLocalFileHeaders)
              (initialFileHeader (entryFor z.offsetToEndOfLocalFileHeaders f name)))
            src (statFileSize f) = (.ok (crc, c), s2) ∧
          de.compressedSize =
            (if 0xFFFFFFFF < statFileSize f then 0xFFFFFFFF
              else if 0xFFFFFFFF < z.offsetToEndOfLocalFileHeaders then statFileSize f
              else if c < statFileSize f then c else statFileSize f)) := by
  have hr : ∀ n : Nat, (fieldRequires64bits n = true) = (0xFFFFFFFF < n) := by
    intro n
    simp [fieldRequires64bits, sentinel32]
  unfold CZIP.add at hadd ⊢
  split at hadd
  · simp at hadd
  · rename_i hopen
    simp only [hopen, Bool.false_eq_true, if_false]
    split at hadd
    · simp at hadd
    · rename_i hany
      simp only [hany, Bool.false_eq_true, if_false, fileExists, hf] at hadd ⊢
      generalize hres : addFileHeaderAndContents Z fs z src name = r at hadd ⊢
      obtain ⟨r1, z1⟩ := r
      cases r1 with
      | error e => simp at hadd
      | ok u =>
        obtain ⟨de, h1, h2, h3, h4⟩ :=
          addFileHeaderAndContents_fields Z fs z z1 src name f hf hres
        simp only [hr] at h2 h3 h4
        refine ⟨de, h1, h2, h3, ?_⟩
        rcases h4 with ⟨h5, h6, -⟩ | ⟨crc, c, s2, h5, h6⟩
        · exact Or.inl ⟨h5, h6⟩
        · exact Or.inr ⟨crc, c, s2, h5, h6⟩

/-- Witness for C11 (amended): `big.bin` is added to the empty archive: the
entry's header-offset field holds the offset 0, its size fields both hold the
sentinel. -/
theorem add_sentinel_fields_witness :
    mockFS (ascii "big.bin") =
      some { st_mode := 0o100644, st_size := 4294967301, mtime := toyTm,
             content := [0, 0, 0, 0, 0, 0] } ∧
    (CZIP.add toyZLib mockFS emptyArchive (ascii "big.bin") (ascii "big")).1 = .ok true ∧
    ∃ de,
      (CZIP.add toyZLib mockFS emptyArchive (ascii "big.bin")
        (ascii "big")).2.zipCentralDirectory = emptyArchive.zipCentralDirectory ++ [de] ∧
      de.fileHeaderOffset = 0 ∧ de.uncompressedSize = 0xFFFFFFFF ∧
      de.compressedSize = 0xFFFFFFFF := by
  obtain ⟨de, h1, h2, h3, h4⟩ := add_sentinel_fields toyZLib mockFS emptyArchive
    (ascii "big.bin") (ascii "big")
    { st_mode := 0o100644, st_size := 4294967301, mtime := toyTm,
      content := [0, 0, 0, 0, 0, 0] } (by decide) (by decide)
  refine ⟨by decide, by decide, de, h1, h2.trans (by decide), h3.trans (by decide), ?_⟩
  rcases h4 with ⟨h5, -⟩ | ⟨crc, c, s2, -, h6⟩
  · exact absurd h5 (by decide)
  · exact h6.trans (if_pos (by decide))

/-- C12: on an Open archive, an `add` that returns `true` for a source whose
header offset or original size needs 64 bits leaves `isZIP64()` true; once
`isZIP64()` is true it stays true, and the archive stays Open, across every
sequence of `add`, `extract`, `contents`, `open`, `create` and
`setZIPBufferSize` calls, whatever each of them returns or throws; `close()`
succeeds and leaves it false. -/
theorem zip64_flag_is_monotonic (Z : ZLib) (fs : HostFS) (z : CZIP) (hopen : z.bOpen = true) :
    (∀ (src name : Bytes) (f : HostFile), fs src = some f →
      (CZIP.add Z fs z src name).1 = .ok true →
      (fieldRequires64bits z.offsetToEndOfLocalFileHeaders ||
        fieldRequires64bits (statFileSize f)) = true →
      CZIP.isZIP64 (CZIP.add Z fs z src name).2 = true) ∧
    (∀ calls : List SessionCall, CZIP.isZIP64 z = true →
      CZIP.isZIP64 (CZIP.session Z fs z calls) = true ∧
      (CZIP.session Z fs z calls).bOpen = true) ∧
    (CZIP.close z).1 = .ok () ∧ CZIP.isZIP64 (CZIP.close z).2 = false := by
  refine ⟨?_, ?_, ?_, ?_⟩
  · intro src name f hf hadd hreq
    unfold CZIP.add at hadd ⊢
    simp only [hopen, Bool.not_true, Bool.false_eq_true, if_false] at hadd ⊢
    split at hadd
    · simp at hadd
    · rename_i hany
      simp only [hany, Bool.false_eq_true, if_false, fileExists, hf] at hadd ⊢
      generalize hr : addFileHeaderAndContents Z fs z src name = r at hadd ⊢
      obtain ⟨r1, z1⟩ := r
      cases r1 with
      | error e => simp at hadd
      | ok u =>
        obtain ⟨-, -, -, hz, -⟩ := addFileHeaderAndContents_ok Z fs z z1 src name f hf hr
        simp only [CZIP.isZIP64]
        rw [hz, hreq]
        rfl
  · intro calls h
    obtain ⟨h1, h2⟩ := session_flag Z fs calls z hopen h
    exact ⟨h2, h1⟩
  · simp [CZIP.close, hopen]
  · simp [CZIP.close, hopen, CZIP.isZIP64]


/-- Witness for C12: `big.bin` (original size 2^32 + 5) is added to the empty
archive, then `x.txt` is added, `big` is extracted and the contents are
listed; the flag stays true until `close()`. -/
theorem zip64_flag_is_monotonic_witness :
    emptyArchive.bOpen = true ∧ CZIP.isZIP64 emptyArchive = false ∧
    CZIP.isZIP64 (CZIP.add toyZLib mockFS emptyArchive (ascii "big.bin") (ascii "big")).2 = true ∧
    CZIP.isZIP64 (CZIP.session toyZLib mockFS bigArchive
      [.add (ascii "x.txt") (ascii "a.txt"), .extract (ascii "big"), .contents]) = true ∧
    CZIP.isZIP64 (CZIP.close bigArchive).2 = false :=
  ⟨by decide, by decide,
    (zip64_flag_is_monotonic toyZLib mockFS emptyArchive (by decide)).1 (ascii "big.bin")
      (ascii "big")
      { st_mode := 0o100644, st_size := 4294967301, mtime := toyTm,
        content := [0, 0, 0, 0, 0, 0] } (by decide) (by decide) (by decide),
    ((zip64_flag_is_monotonic toyZLib mockFS bigArchive (by decide)).2.1 _ (by decide)).1,
    (zip64_flag_is_monotonic toyZLib mockFS bigArchive (by decide)).2.2.2⟩

/-- C13 (the code departs from the claim): `open()` assigns the ZIP64 flag
anew for every Central Directory entry it reads (lines 753–755), so after a
successful `open()` of a Closed archive (nothing in memory) that holds at
least one entry, `isZIP64()` is the sentinel test of the entry read last:
true exactly when the last entry has a sentineled compressed-size,
uncompressed-size or header-offset field, whatever the End-Of-Central-Directory
record and the entries before it held. -/
theorem open_flag_follows_last_entry (z : CZIP) (e : CentralDirectoryFileHeader)
    (hok : (CZIP.open z).1 = .ok ()) (hdir : z.zipCentralDirectory = [])
    (hlast : (CZIP.open z).2.zipCentralDirectory.getLast? = some e) :
    CZIP.isZIP64 (CZIP.open z).2 =
      (fieldOverflow32 e.compressedSize || fieldOverflow32 e.uncompressedSize ||
        fieldOverflow32 e.fileHeaderOffset) := by
  obtain ⟨t, h1, -, h2⟩ := open_ok z (CZIP.open z).2 (Prod.ext hok rfl)
  rw [hdir, List.nil_append] at h1
  rw [h1] at hlast
  exact h2 e hlast

/-- The failing input of C13: `big.bin` (original size 2^32 + 5) and then
`x.txt` (six bytes) are added to the empty archive, which is closed and
opened again.  `open()` succeeds and reads both entries back; the first has
sentineled size fields, the last has none, and `isZIP64()` is false. -/
theorem open_flag_follows_last_entry_witness :
    (CZIP.open (CZIP.close bigSmallArchive).2).1 = .ok () ∧
    (CZIP.close bigSmallArchive).2.zipCentralDirectory = [] ∧
    (CZIP.open (CZIP.close bigSmallArchive).2).2.zipCentralDirectory.map
      (fun e => (e.fileNameStr, e.uncompressedSize, e.compressedSize, e.fileHeaderOffset)) =
      [(ascii "big", sentinel32, sentinel32, 0), (ascii "a.txt", 6, 2, 55)] ∧
    CZIP.isZIP64 (CZIP.open (CZIP.close bigSmallArchive).2).2 = false :=
  ⟨by decide, by decide, by decide,
    (open_flag_follows_last_entry (CZIP.close bigSmallArchive).2
      (bigSmallArchive.zipCentralDirectory.getLast?.getD CentralDirectoryFileHeader.default)
      (by decide) (by decide) (by decide)).trans (by decide)⟩

/-- C15, as stated, fails: `big.bin` (original size 2^32 + 5) is added to the
empty archive; the entry's size fields hold the sentinel and `isZIP64()` is
true.  `close()` writes the 69 bytes of the directory at offset 55 and,
directly behind them, the 22 bytes of the End-Of-Central-Directory record:
the file ends at 55 + 69 + 22 and holds no ZIP64 End-Of-Central-Directory
record and no locator. -/
theorem close_zip64_flag_counterexample :
    bigArchive.bOpen = true ∧ bigArchive.bModified = true ∧ CZIP.isZIP64 bigArchive = true ∧
    bigArchive.zipCentralDirectory.map (fun e => (e.uncompressedSize, e.compressedSize)) =
      [(sentinel32, sentinel32)] ∧
    bigArchive.offsetToEndOfLocalFileHeaders = 55 ∧
    bigArchive.zipFileStream.size = 55 ∧
    (centralDirectoryBytes bigArchive.zipCentralDirectory).length = 69 ∧
    (CZIP.close bigArchive).1 = .ok () ∧
    (CZIP.close bigArchive).2.zipFileStream.size = 55 + 69 + 22 ∧
    readBytes (CZIP.close bigArchive).2.zipFileStream.data 55 69 =
      centralDirectoryBytes bigArchive.zipCentralDirectory ∧
    readBytes (CZIP.close bigArchive).2.zipFileStream.data (55 + 69) 22 =
      EOCentralDirectoryRecord.encode
        { EOCentralDirectoryRecord.default with
          numberOfCentralDirRecords := 1, totalCentralDirRecords := 1,
          sizeOfCentralDirRecords := 69, offsetCentralDirRecords := 55 } := by
  decide

/-- C15, amended: `close()` on an Open, modified archive writes, at the
end-of-local-headers offset, the records of the directory entries, then the
end records.  The ZIP64 End-Of-Central-Directory record (56 bytes) and its
locator (20 bytes, pointing at that record) come immediately before the
End-Of-Central-Directory record exactly when the entry count exceeds `0xFFFF`
or the directory offset or the directory size exceeds `0xFFFFFFFF`; otherwise
the End-Of-Central-Directory record (22 bytes) follows the directory directly.
The archive's ZIP64 flag plays no part.  (Environment: the directory ends
below offset 2^64.) -/
theorem close_writes_zip64_end_records (z : CZIP) (hopen : z.bOpen = true)
    (hmod : z.bModified = true)
    (h64 : z.offsetToEndOfLocalFileHeaders +
      (centralDirectoryBytes z.zipCentralDirectory).length < 2 ^ 64) :
    (CZIP.close z).2.zipFileStream =
      closeZIPFile
        (writeZIPFile (positionInZIPFile z.zipFileStream z.offsetToEndOfLocalFileHeaders)
          (centralDirectoryBytes z.zipCentralDirectory ++
            endRecordsBytes z.zipCentralDirectory.length z.offsetToEndOfLocalFileHeaders
              (centralDirectoryBytes z.zipCentralDirectory).length)) ∧
    (∀ count offset size : Nat,
      (0xFFFF < count ∨ 0xFFFFFFFF < offset ∨ 0xFFFFFFFF < size →
        endRecordsBytes count offset size =
          (zip64EndRecordFor count offset size).encode ++
            Zip64EOCentDirRecordLocator.encode
              { Zip64EOCentDirRecordLocator.default with offset := offset + size } ++
            (endRecordFor count offset size).encode) ∧
      (¬ (0xFFFF < count ∨ 0xFFFFFFFF < offset ∨ 0xFFFFFFFF < size) →
        endRecordsBytes count offset size = (endRecordFor count offset size).encode) ∧
      (zip64EndRecordFor count offset size).encode.length = 56 ∧
      (Zip64EOCentDirRecordLocator.encode
        { Zip64EOCentDirRecordLocator.default with offset := offset + size }).length = 20 ∧
      (endRecordFor count offset size).encode.length = 22) := by
  refine ⟨?_, ?_⟩
  · simp [CZIP.close, hopen, UpdateCentralDirectory_modified z hmod h64]
  · intro count offset size
    refine ⟨?_, ?_, ?_, ?_, ?_⟩
    · intro h
      have : (fieldRequires32bits count || fieldRequires64bits offset ||
          fieldRequires64bits size) = true := by
        simp only [fieldRequires32bits, fieldRequires64bits, sentinel16, sentinel32,
          Bool.or_eq_true, decide_eq_true_eq]
        omega
      simp only [endRecordsBytes, this, if_true]
    · intro h
      have : (fieldRequires32bits count || fieldRequires64bits offset ||
          fieldRequires64bits size) = false := by
        simp only [fieldRequires32bits, fieldRequires64bits, sentinel16, sentinel32,
          Bool.or_eq_false_iff, decide_eq_false_iff_not]
        omega
      simp only [endRecordsBytes, this, Bool.false_eq_true, if_false, List.nil_append]
    · simp [Zip64EOCentralDirectoryRecord.encode, putField64, putField32, putField16]
    · simp [Zip64EOCentDirRecordLocator.encode, putField64, putField32]
    · simp [EOCentralDirectoryRecord.encode, endRecordFor, EOCentralDirectoryRecord.default,
        putField32, putField16]

/-- Witness for C15 (amended): closing the archive that holds `big`. -/
theorem close_writes_zip64_end_records_witness :
    bigArchive.bOpen = true ∧ bigArchive.bModified = true ∧
    (CZIP.close bigArchive).2.zipFileStream =
      closeZIPFile
        (writeZIPFile (positionInZIPFile bigArchive.zipFileStream 55)
          (centralDirectoryBytes bigArchive.zipCentralDirectory ++
            endRecordsBytes 1 55 69)) ∧
    endRecordsBytes 1 55 69 = (endRecordFor 1 55 69).encode :=
  ⟨by decide, by decide,
    (close_writes_zip64_end_records bigArchive (by decide) (by decide) (by decide)).1,
    ((close_writes_zip64_end_records bigArchive (by decide) (by decide) (by decide)).2
      1 55 69).2.1 (by decide)⟩

/-- C17: on an Open archive, `extract` of a name that no directory entry
carries returns `false`: no exception, the destination file is not touched
(neither created nor truncated), and the object is left exactly as it was. -/
theorem extract_unknown_name (Z : ZLib) (z : CZIP) (name : Bytes) (hopen : z.bOpen = true)
    (hnew : ∀ e ∈ z.zipCentralDirectory, e.fileNameStr ≠ name) :
    CZIP.extract Z z name = (.ok false, z, none) := by
  have h : z.zipCentralDirectory.find? (fun d => d.fileNameStr == name) = none := by
    rw [List.find?_eq_none]
    intro e he
    simpa using hnew e he
  simp [CZIP.extract, hopen, h]

/-- Witness for C17: the archive holds `big` and `a.txt`; `A.TXT` is asked for. -/
theorem extract_unknown_name_witness :
    bigSmallArchive.bOpen = true ∧
    (∀ e ∈ bigSmallArchive.zipCentralDirectory, e.fileNameStr ≠ ascii "A.TXT") ∧
    CZIP.extract toyZLib bigSmallArchive (ascii "A.TXT") = (.ok false, bigSmallArchive, none) :=
  ⟨by decide, by decide,
    extract_unknown_name toyZLib bigSmallArchive (ascii "A.TXT") (by decide) (by decide)⟩

/-- C18: `close()` on an Open archive succeeds and leaves the archive Closed
with an empty in-memory directory, the ZIP64 flag and the modified flag false
and the end-of-local-headers offset 0 (the buffer size is kept).  If the
archive was not modified, nothing is written: the archive file has the bytes
and the size it had.  If it was modified, the records of all directory
entries, in order, followed by the end records (the last of them an
End-Of-Central-Directory record) are written at the end-of-local-headers
offset. -/
theorem close_resets_archive (z : CZIP) (hopen : z.bOpen = true) :
    (CZIP.close z).1 = .ok () ∧ (CZIP.close z).2.bOpen = false ∧
    (CZIP.close z).2.zipCentralDirectory = [] ∧ CZIP.isZIP64 (CZIP.close z).2 = false ∧
    (CZIP.close z).2.bModified = false ∧ (CZIP.close z).2.offsetToEndOfLocalFileHeaders = 0 ∧
    (CZIP.close z).2.zipIOBufferSize = z.zipIOBufferSize ∧
    (z.bModified = false →
      (CZIP.close z).2.zipFileStream = closeZIPFile z.zipFileStream ∧
      (CZIP.close z).2.zipFileStream.data = z.zipFileStream.data ∧
      (CZIP.close z).2.zipFileStream.size = z.zipFileStream.size) ∧
    (z.bModified = true →
      ∃ (front : Bytes) (record : EOCentralDirectoryRecord),
        (CZIP.close z).2.zipFileStream =
          closeZIPFile
            (writeZIPFile (positionInZIPFile z.zipFileStream z.offsetToEndOfLocalFileHeaders)
              (centralDirectoryBytes z.zipCentralDirectory ++ (front ++ record.encode)))) := by
  have hb : (UpdateCentralDirectory z).zipIOBufferSize = z.zipIOBufferSize := by
    unfold UpdateCentralDirectory
    split <;> rfl
  refine ⟨?_, ?_, ?_, ?_, ?_, ?_, ?_, ?_, ?_⟩
  · simp [CZIP.close, hopen]
  · simp [CZIP.close, hopen]
  · simp [CZIP.close, hopen]
  · simp [CZIP.close, hopen, CZIP.isZIP64]
  · simp [CZIP.close, hopen]
  · simp [CZIP.close, hopen]
  · simp [CZIP.close, hopen, hb]
  · intro hmod
    simp [CZIP.close, hopen, UpdateCentralDirectory_unmodified z hmod, closeZIPFile]
  · intro hmod
    obtain ⟨front, record, h⟩ := UpdateCentralDirectory_writes z hmod
    exact ⟨front, record, by simp [CZIP.close, hopen, h]⟩

/-- Witness for C18: the archive that holds `big` and `a.txt` is closed; an
archive that was only opened is closed. -/
theorem close_resets_archive_witness :
    bigSmallArchive.bOpen = true ∧ bigSmallArchive.bModified = true ∧
    CZIP.isZIP64 bigSmallArchive = true ∧
    (CZIP.close bigSmallArchive).2.bOpen = false ∧
    (CZIP.close bigSmallArchive).2.zipCentralDirectory = [] ∧
    CZIP.isZIP64 (CZIP.close bigSmallArchive).2 = false ∧
    emptyArchive.bOpen = true ∧ emptyArchive.bModified = false ∧
    (CZIP.close emptyArchive).2.zipFileStream.size = emptyArchive.zipFileStream.size :=
  ⟨by decide, by decide, by decide,
    (close_resets_archive bigSmallArchive (by decide)).2.1,
    (close_resets_archive bigSmallArchive (by decide)).2.2.1,
    (close_resets_archive bigSmallArchive (by decide)).2.2.2.1,
    by decide, by decide,
    ((close_resets_archive emptyArchive (by decide)).2.2.2.2.2.2.2.1 (by decide)).2.2⟩

/-- C19 (the code departs from the claim): for a modification time with
second `s` in 0..59, minute `m` in 0..59 and hour `h` in 0..23,
`getFileModificationDateTime` writes the time word
`(s & 31) | (m << 5) | (h << 11)`: minutes and hours are where the claim puts
them, but bits 0–4 hold `s mod 32`, not `s / 2`, so the word differs from
`(s / 2) | (m << 5) | (h << 11)` for every `s ≥ 1`.
`convertModificationDateTime` decodes any time word to minute = bits 5–10,
hour = bits 11–15 and second = (bits 0–4) / 4, which is not 2 × (bits 0–4)
unless those bits are zero.  Decoding an encoded time gives back `h` and `m`,
and `(s mod 32) / 4` for the second, which is not `s` rounded down to an even
second for any `s ≥ 2`. -/
theorem dos_time_word_seconds (t : Tm) (s m h : Nat) (hs : t.tm_sec = s) (hm : t.tm_min = m)
    (hh : t.tm_hour = h) (hs59 : s ≤ 59) (hm59 : m ≤ 59) (hh23 : h ≤ 23) :
    (dosDateTime t).2 = (s % 32) ||| (m <<< 5) ||| (h <<< 11) ∧
    (1 ≤ s → (dosDateTime t).2 ≠ (s / 2) ||| (m <<< 5) ||| (h <<< 11)) ∧
    (∀ dateWord timeWord : Nat,
      (convertModificationDateTime dateWord timeWord).tm_min = ((timeWord / 32 % 64 : Nat) : Int) ∧
      (convertModificationDateTime dateWord timeWord).tm_hour =
        ((timeWord / 2048 % 32 : Nat) : Int) ∧
      (convertModificationDateTime dateWord timeWord).tm_sec =
        ((timeWord % 32 / 4 : Nat) : Int) ∧
      (timeWord % 32 ≠ 0 →
        (convertModificationDateTime dateWord timeWord).tm_sec ≠
          ((2 * (timeWord % 32) : Nat) : Int))) ∧
    (∀ dateWord : Nat,
      (convertModificationDateTime dateWord (dosDateTime t).2).tm_hour = h ∧
      (convertModificationDateTime dateWord (dosDateTime t).2).tm_min = m ∧
      (convertModificationDateTime dateWord (dosDateTime t).2).tm_sec =
        ((s % 32 / 4 : Nat) : Int) ∧
      (2 ≤ s →
        (convertModificationDateTime dateWord (dosDateTime t).2).tm_sec ≠
          ((2 * (s / 2) : Nat) : Int))) := by
  have hw := dosDateTime_time t s m h hs hm hh hm59 hh23
  have hp : ∀ a : Nat, a < 32 → a ||| (m <<< 5) ||| (h <<< 11) = a + m * 32 + h * 2048 := by
    intro a ha
    rw [pack3 a m h 5 11 (by omega) (by omega)]
    omega
  refine ⟨?_, ?_, ?_, ?_⟩
  · rw [hw, hp _ (Nat.mod_lt _ (by norm_num))]
  · intro h1
    rw [hw, hp _ (by omega)]
    omega
  · intro dateWord timeWord
    rw [convertModificationDateTime_fields]
    refine ⟨rfl, rfl, rfl, ?_⟩
    intro h0
    simp only [ne_eq, Nat.cast_inj]
    omega
  · intro dateWord
    rw [convertModificationDateTime_fields, hw]
    refine ⟨?_, ?_, ?_, ?_⟩
    · simp only [Nat.cast_inj]; omega
    · simp only [Nat.cast_inj]; omega
    · simp only [Nat.cast_inj]; omega
    · intro h2
      simp only [ne_eq, Nat.cast_inj]
      omega

/-- The failing input of C19: 03:20:10 is written as the word 6794 (the
claim's layout gives 6789), and decoding 6794 yields second 2, not 10. -/
theorem dos_time_word_seconds_witness :
    toyTm.tm_sec = 10 ∧ toyTm.tm_min = 20 ∧ toyTm.tm_hour = 3 ∧
    (dosDateTime toyTm).2 = 6794 ∧ (10 / 2) ||| (20 <<< 5) ||| (3 <<< 11) = 6789 ∧
    (dosDateTime toyTm).2 ≠ (10 / 2) ||| (20 <<< 5) ||| (3 <<< 11) ∧
    (convertModificationDateTime 0 (dosDateTime toyTm).2).tm_sec = 2 ∧
    (convertModificationDateTime 0 (dosDateTime toyTm).2).tm_sec ≠ ((2 * (10 / 2) : Nat) : Int) :=
  ⟨rfl, rfl, rfl, by decide, by decide,
    (dos_time_word_seconds toyTm 10 20 3 rfl rfl rfl (by decide) (by decide) (by decide)).2.1
      (by decide),
    by decide,
    ((dos_time_word_seconds toyTm 10 20 3 rfl rfl rfl (by decide) (by decide)
      (by decide)).2.2.2 0).2.2.2 (by decide)⟩

/-- C20: for a date with day `d` in 1..31, month `mo` in 1..12 and year `y`
in 1980..2107 (`tm_mday = d`, `tm_mon = mo − 1`, `tm_year = y − 1900`),
`getFileModificationDateTime` writes the date word
`d | (mo << 5) | ((y − 1980) << 9)`, that is day in bits 0–4, month in bits
5–8 and year-since-1980 in bits 9–15, and `convertModificationDateTime`
decodes that word to `tm_mday = d`, `tm_mon = mo − 1`, `tm_year = y − 1900`
(the fields as assigned, before `mktime`).  Decoding any date word yields
day = bits 0–4, month = bits 5–8 and year = 1980 + bits 9–15. -/
theorem dos_date_word_layout (t : Tm) (d mo y : Nat) (hd : t.tm_mday = d)
    (hmo : t.tm_mon = (mo : Int) - 1) (hy : t.tm_year = (y : Int) - 1900)
    (hd1 : 1 ≤ d) (hd31 : d ≤ 31) (hmo1 : 1 ≤ mo) (hmo12 : mo ≤ 12)
    (hy0 : 1980 ≤ y) (hy1 : y ≤ 2107) :
    (dosDateTime t).1 = d ||| (mo <<< 5) ||| ((y - 1980) <<< 9) ∧
    (dosDateTime t).1 = d + 32 * mo + 512 * (y - 1980) ∧
    (∀ timeWord : Nat,
      (convertModificationDateTime (dosDateTime t).1 timeWord).tm_mday = d ∧
      (convertModificationDateTime (dosDateTime t).1 timeWord).tm_mon = (mo : Int) - 1 ∧
      (convertModificationDateTime (dosDateTime t).1 timeWord).tm_year = (y : Int) - 1900) ∧
    (∀ dateWord timeWord : Nat,
      (convertModificationDateTime dateWord timeWord).tm_mday = ((dateWord % 32 : Nat) : Int) ∧
      (convertModificationDateTime dateWord timeWord).tm_mon + 1 =
        ((dateWord / 32 % 16 : Nat) : Int) ∧
      (convertModificationDateTime dateWord timeWord).tm_year + 1900 =
        ((1980 + dateWord / 512 % 128 : Nat) : Int)) := by
  have hw := dosDateTime_date t d mo y hd hmo hy hd31 hmo12 hy0 hy1
  refine ⟨?_, ?_, ?_, ?_⟩
  · rw [hw, pack3 d mo (y - 1980) 5 9 (by omega) (by omega)]
    omega
  · rw [hw]; omega
  · intro timeWord
    rw [convertModificationDateTime_fields, hw]
    refine ⟨?_, ?_, ?_⟩
    · simp only [Nat.cast_inj]; omega
    · simp only []; omega
    · simp only []; omega
  · intro dateWord timeWord
    rw [convertModificationDateTime_fields]
    refine ⟨rfl, ?_, ?_⟩
    · simp only []; omega
    · simp only []; omega

/-- Witness for C20: 2017-06-04 is written as the word 19140 and read back. -/
theorem dos_date_word_layout_witness :
    (dosDateTime toyTm).1 = 4 ||| (6 <<< 5) ||| ((2017 - 1980) <<< 9) ∧
    (dosDateTime toyTm).1 = 19140 ∧
    (convertModificationDateTime (dosDateTime toyTm).1 0).tm_mday = 4 ∧
    (convertModificationDateTime (dosDateTime toyTm).1 0).tm_mon = 5 ∧
    (convertModificationDateTime (dosDateTime toyTm).1 0).tm_year = 117 :=
  ⟨(dos_date_word_layout toyTm 4 6 2017 rfl rfl rfl (by decide) (by decide) (by decide)
      (by decide) (by decide) (by decide)).1,
    by decide, by decide, by decide, by decide⟩

/-! ## The store copy loops -/

theorem ceil_step (b n : Nat) (hb : 0 < b) (hn : n ≠ 0) :
    (n + b - 1) / b = (n - min n b + b - 1) / b + 1 := by
  by_cases h : n ≤ b
  · rw [Nat.min_eq_left h, Nat.sub_self, Nat.zero_add]
    have h1 : (b - 1) / b = 0 := Nat.div_eq_of_lt (by omega)
    have h2 : (n + b - 1) / b = 1 := by
      apply Nat.div_eq_of_lt_le <;> omega
    omega
  · have h3 : min n b = b := Nat.min_eq_right (by omega)
    rw [h3]
    have h4 : n + b - 1 = (n - b + b - 1) + b := by omega
    rw [h4, Nat.add_div_right _ hb]

theorem readZIPFile_available (s : ZipFileStream) (k : Nat) (hfail : s.fail = false)
    (havail : s.pos + k ≤ s.size) :
    (readZIPFile s k).1.pos = s.pos + k ∧ (readZIPFile s k).1.fail = false ∧
    (readZIPFile s k).1.size = s.size ∧ (readZIPFile s k).1.data = s.data ∧
    (readZIPFile s k).1.gcount = k ∧ (readZIPFile s k).2 = readBytes s.data s.pos k := by
  have h : min k (s.size - s.pos) = k := Nat.min_eq_left (by omega)
  simp [readZIPFile, h, hfail]

theorem readBytes_add (d : Nat → Nat) (p a b : Nat) :
    readBytes d p a ++ readBytes d (p + a) b = readBytes d p (a + b) := by
  apply List.ext_getElem
  · simp [readBytes]
  · intro i h1 h2
    simp only [readBytes, List.length_map, List.length_range] at h2
    by_cases hi : i < a
    · rw [List.getElem_append_left (by simpa [readBytes] using hi)]
      simp [readBytes]
    · rw [List.getElem_append_right (by simp [readBytes]; omega)]
      simp only [readBytes, List.getElem_map, List.getElem_range, List.length_map,
        List.length_range]
      congr 1
      omega

theorem extractLoop_returns (Z : ZLib) (b : Nat) (hb : 0 < b) (fuel : Nat) :
    ∀ (n : Nat) (s : ZipFileStream) (dest : Bytes) (crc : Nat),
      (n + b - 1) / b < fuel → s.fail = false → s.pos + n ≤ s.size →
      (∃ crc1, (extractLoop Z b fuel n s dest crc).1 = .ok crc1) ∧
      (extractLoop Z b fuel n s dest crc).2.1.pos = s.pos + n ∧
      (extractLoop Z b fuel n s dest crc).2.1.fail = false ∧
      (extractLoop Z b fuel n s dest crc).2.2 = dest ++ readBytes s.data s.pos n := by
  induction fuel with
  | zero => intro n s dest crc h; exact absurd h (Nat.not_lt_zero _)
  | succ k ih =>
    intro n s dest crc hfuel hfail havail
    unfold extractLoop
    by_cases h0 : n = 0
    · subst h0
      simp [hfail, readBytes]
    · rw [if_neg h0]
      have hmin : min n b ≤ n := Nat.min_le_left _ _
      obtain ⟨r1, r2, r3, r4, r5, r6⟩ :=
        readZIPFile_available s (min n b) hfail (by omega)
      simp only [errorInZIPFile, r2, Bool.false_eq_true, if_false]
      have hc := ceil_step b n hb h0
      obtain ⟨i1, i2, i3, i4⟩ := ih (n - min n b) (readZIPFile s (min n b)).1
        (dest ++ (readZIPFile s (min n b)).2) (Z.crc32 crc (readZIPFile s (min n b)).2)
        (by omega) r2 (by rw [r1, r3]; omega)
      refine ⟨i1, ?_, i3, ?_⟩
      · rw [i2, r1]; omega
      · rw [i4, r6, r4, r1, List.append_assoc, readBytes_add]
        congr 2
        omega

theorem extractLoop_hangs (Z : ZLib) (b : Nat) (hb : 0 < b) (fuel : Nat) :
    ∀ (n : Nat) (s : ZipFileStream) (dest : Bytes) (crc : Nat),
      fuel ≤ (n + b - 1) / b → s.fail = false → s.pos + n ≤ s.size →
      (extractLoop Z b fuel n s dest crc).1 = .error .hang := by
  induction fuel with
  | zero => intro n s dest crc _ _ _; rfl
  | succ k ih =>
    intro n s dest crc hfuel hfail havail
    unfold extractLoop
    by_cases h0 : n = 0
    · subst h0
      have h1 : (0 + b - 1) / b = 0 := Nat.div_eq_of_lt (by omega)
      omega
    · rw [if_neg h0]
      have hmin : min n b ≤ n := Nat.min_le_left _ _
      obtain ⟨r1, r2, r3, r4, r5, r6⟩ :=
        readZIPFile_available s (min n b) hfail (by omega)
      simp only [errorInZIPFile, r2, Bool.false_eq_true, if_false]
      have hc := ceil_step b n hb h0
      exact ih _ _ _ _ (by omega) r2 (by rw [r1, r3]; omega)

theorem storeLoop_returns (b : Nat) (hb : 0 < b) (fuel : Nat) :
    ∀ (src : Bytes) (n : Nat) (s : ZipFileStream), (n + b - 1) / b < fuel →
      s.fail = false → n ≤ src.length →
      storeLoop b fuel src n s = (.ok (), writeZIPFile s (src.take n)) := by
  induction fuel with
  | zero => intro src n s h; exact absurd h (Nat.not_lt_zero _)
  | succ k ih =>
    intro src n s hfuel hfail hsrc
    unfold storeLoop
    by_cases h0 : n = 0
    · subst h0; simp [writeZIPFile_nil]
    · have hmin : min n b ≤ n := Nat.min_le_left _ _
      rw [if_neg h0, if_neg (by omega)]
      simp only [errorInZIPFile, writeZIPFile_fail, hfail, Bool.false_eq_true, if_false]
      have hc := ceil_step b n hb h0
      rw [ih _ _ _ (by omega) (by rw [writeZIPFile_fail]; exact hfail)
        (by rw [List.length_drop]; omega), writeZIPFile_append, ← List.take_add]
      congr 3
      omega

theorem storeLoop_hangs (b : Nat) (hb : 0 < b) (fuel : Nat) :
    ∀ (src : Bytes) (n : Nat) (s : ZipFileStream), fuel ≤ (n + b - 1) / b →
      s.fail = false → n ≤ src.length →
      (storeLoop b fuel src n s).1 = .error .hang := by
  induction fuel with
  | zero => intro src n s _ _ _; rfl
  | succ k ih =>
    intro src n s hfuel hfail hsrc
    unfold storeLoop
    by_cases h0 : n = 0
    · subst h0
      have h1 : (0 + b - 1) / b = 0 := Nat.div_eq_of_lt (by omega)
      omega
    · have hmin : min n b ≤ n := Nat.min_le_left _ _
      rw [if_neg h0, if_neg (by omega)]
      simp only [errorInZIPFile, writeZIPFile_fail, hfail, Bool.false_eq_true, if_false]
      have hc := ceil_step b n hb h0
      exact ih _ _ _ (by omega) (by rw [writeZIPFile_fail]; exact hfail)
        (by rw [List.length_drop]; omega)

theorem ceil_le (b n : Nat) (hb : 0 < b) : (n + b - 1) / b ≤ n := by
  rw [Nat.div_le_iff_le_mul_add_pred hb]
  have h : n ≤ n * b := Nat.le_mul_of_pos_right n hb
  have h2 : b * n = n * b := Nat.mul_comm _ _
  omega

/-! ## The inflate pass -/

theorem inflateInner_continues (Z : ZLib) (b : Nat) (hb : 0 < b) (rc : Int)
    (hrc : ¬ (rc = Z_NEED_DICT ∨ rc = Z_DATA_ERROR ∨ rc = Z_MEM_ERROR)) (fuel : Nat) :
    ∀ (out dest : Bytes) (crc : Nat), out.length < fuel →
      ∃ crc1, inflateInner Z b fuel out rc dest crc = (.ok crc1, dest ++ out) := by
  induction fuel with
  | zero => intro out dest crc h; omega
  | succ k ih =>
    intro out dest crc hlen
    unfold inflateInner
    by_cases hfull : b ≤ out.length
    · rw [if_pos hfull]
      obtain ⟨crc1, h⟩ := ih (out.drop b) (dest ++ out.take b) (Z.crc32 crc (out.take b))
        (by rw [List.length_drop]; omega)
      exact ⟨crc1, by rw [h, List.append_assoc, List.take_append_drop]⟩
    · rw [if_neg hfull, if_neg hrc]
      exact ⟨_, rfl⟩

theorem readZIPFile_pos_le (s : ZipFileStream) (k : Nat) : s.pos ≤ (readZIPFile s k).1.pos := by
  simp [readZIPFile]

theorem inflateLoop_pos_le (Z : ZLib) (b : Nat) (fuel : Nat) :
    ∀ (st : Z.IState) (fileSize : Nat) (s : ZipFileStream) (dest : Bytes) (crc : Nat),
      s.pos ≤ (inflateLoop Z b fuel st fileSize s dest crc).2.1.pos := by
  induction fuel with
  | zero => intro st fileSize s dest crc; exact Nat.le_refl _
  | succ k ih =>
    intro st fileSize s dest crc
    have hr := readZIPFile_pos_le s (min fileSize b)
    unfold inflateLoop
    simp only []
    split
    · exact hr
    · split
      · exact hr
      · split
        · exact hr
        · split
          · exact hr
          · exact Nat.le_trans hr (ih _ _ _ _ _)

theorem inflateLoop_reads (Z : ZLib) (b : Nat) (fuel : Nat) (st : Z.IState) (fileSize : Nat)
    (s : ZipFileStream) (dest : Bytes) (crc : Nat) :
    (readZIPFile s (min fileSize b)).1.pos ≤
      (inflateLoop Z b (fuel + 1) st fileSize s dest crc).2.1.pos := by
  unfold inflateLoop
  simp only []
  split
  · exact Nat.le_refl _
  · split
    · exact Nat.le_refl _
    · split
      · exact Nat.le_refl _
      · split
        · exact Nat.le_refl _
        · exact inflateLoop_pos_le Z b _ _ _ _ _ _

theorem sub64_wraps (n b : Nat) (hnb : n < b) (hb : b < 2 ^ 64) :
    sub64 n b = 2 ^ 64 - (b - n) := by
  unfold sub64
  rw [Nat.mod_eq_of_lt (by omega : n < 2 ^ 64), Nat.mod_eq_of_lt hb]
  have h : n + 2 ^ 64 - b = 2 ^ 64 - (b - n) := by omega
  rw [h]
  exact Nat.mod_eq_of_lt (by omega)

theorem inflateLoop_first (Z : ZLib) (b : Nat) (hb : 0 < b) (fuel : Nat) (st : Z.IState)
    (n : Nat) (hn : 0 < n) (s : ZipFileStream) (dest : Bytes) (crc : Nat)
    (hfail : s.fail = false) (havail : s.pos + min n b ≤ s.size)
    (hrc : ¬ ((Z.inflate st (readBytes s.data s.pos (min n b))).2.2 = Z_NEED_DICT ∨
      (Z.inflate st (readBytes s.data s.pos (min n b))).2.2 = Z_DATA_ERROR ∨
      (Z.inflate st (readBytes s.data s.pos (min n b))).2.2 = Z_MEM_ERROR))
    (hend : (Z.inflate st (readBytes s.data s.pos (min n b))).2.2 ≠ Z_STREAM_END) :
    ∃ crc1, inflateLoop Z b (fuel + 1) st n s dest crc =
      inflateLoop Z b fuel (Z.inflate st (readBytes s.data s.pos (min n b))).1 (sub64 n b)
        (readZIPFile s (min n b)).1
        (dest ++ (Z.inflate st (readBytes s.data s.pos (min n b))).2.1) crc1 := by
  obtain ⟨r1, r2, r3, r4, r5, r6⟩ := readZIPFile_available s (min n b) hfail havail
  have hpos : 1 ≤ min n b := Nat.le_min.mpr ⟨hn, hb⟩
  obtain ⟨crc1, hin⟩ := inflateInner_continues Z b hb _ hrc
    ((Z.inflate st (readBytes s.data s.pos (min n b))).2.1.length + 1)
    (Z.inflate st (readBytes s.data s.pos (min n b))).2.1 dest crc (Nat.lt_succ_self _)
  refine ⟨crc1, ?_⟩
  rw [inflateLoop]
  simp only [errorInZIPFile, r2, Bool.false_eq_true, if_false, readCountZIPFile, r5, r6]
  rw [if_neg (by omega), hin]
  simp only [hend, if_false]

/-! ## The return codes of the codec -/

theorem deflateFile_zero (Z : ZLib) (fs : HostFS) (b : Nat) (s : ZipFileStream) (name : Bytes)
    (f : HostFile) (hf : fs name = some f) (hinit : Z.deflateInit2.1 = Z_OK) (hb : 0 < b)
    (hfail : s.fail = false) :
    deflateFile Z fs b s name 0 =
      (.ok (Z.crc32 (Z.crc32 0 []) [], (Z.deflate Z.deflateInit2.2 [] true).2.1.length),
        writeZIPFile s (Z.deflate Z.deflateInit2.2 [] true).2.1) := by
  unfold deflateFile
  simp only [hf, hinit, ne_eq, not_true_eq_false, if_false]
  rw [deflateLoop]
  simp only [Nat.zero_min, List.take_zero, List.length_nil, Nat.sub_self, Nat.not_lt_zero,
    decide_False, decide_True, Bool.or_true, Bool.false_or]
  rw [deflateInner_ok b hb _ _ _ _ hfail (Nat.lt_succ_self _)]
  simp

theorem deflateFile_init_fails (Z : ZLib) (fs : HostFS) (b : Nat) (s : ZipFileStream)
    (name : Bytes) (fileSize : Nat) (f : HostFile) (hf : fs name = some f)
    (hinit : Z.deflateInit2.1 ≠ Z_OK) :
    deflateFile Z fs b s name fileSize = (.error (.deflateInit2Error Z.deflateInit2.1), s) := by
  unfold deflateFile
  simp only [hf]
  rw [if_pos hinit]

/-! ## What a deflate pass returns -/

theorem foldl_crc32_flatten (Z : ZLib)
    (hcrc : ∀ (c : Nat) (x y : Bytes), Z.crc32 (Z.crc32 c x) y = Z.crc32 c (x ++ y)) :
    ∀ (chunks : List Bytes) (chunk : Bytes) (crc : Nat),
      chunks.foldl Z.crc32 (Z.crc32 crc chunk) = Z.crc32 crc (chunk ++ chunks.flatten) := by
  intro chunks
  induction chunks with
  | nil => intro chunk crc; simp
  | cons c rest ih =>
    intro chunk crc
    rw [List.foldl_cons, hcrc, ih, List.flatten_cons, List.append_assoc]

theorem deflateInner_of_ok (b : Nat) (fuel : Nat) :
    ∀ (out : Bytes) (s s1 : ZipFileStream) (c c1 : Nat),
      deflateInner b fuel out s c = (.ok c1, s1) →
      c1 = c + out.length ∧ s1 = writeZIPFile s out := by
  induction fuel with
  | zero => intro out s s1 c c1 h; simp [deflateInner] at h
  | succ k ih =>
    intro out s s1 c c1 h
    unfold deflateInner at h
    simp only [] at h
    split at h
    · simp at h
    · split at h
      · rename_i hfull
        obtain ⟨h1, h2⟩ := ih _ _ _ _ _ h
        have hle : b ≤ out.length := by
          rw [List.length_take] at hfull; omega
        refine ⟨?_, ?_⟩
        · rw [h1, List.length_drop, hfull]; omega
        · rw [h2, writeZIPFile_append, List.take_append_drop]
      · rename_i hfull
        have hlt : out.length < b := by
          rw [List.length_take] at hfull; omega
        rw [List.take_of_length_le (by omega)] at h
        simp only [Prod.mk.injEq, Except.ok.injEq] at h
        exact ⟨h.1.symm, h.2.symm⟩

theorem deflateLoop_of_ok (Z : ZLib) (b : Nat) (fuel : Nat) :
    ∀ (st : Z.DState) (src : Bytes) (fileSize crc c : Nat) (s s1 : ZipFileStream)
      (crc1 c1 : Nat),
      deflateLoop Z b fuel st src fileSize crc c s = (.ok (crc1, c1), s1) →
      ∃ out : Bytes, c1 = c + out.length ∧ s1 = writeZIPFile s out := by
  induction fuel with
  | zero => intro st src fileSize crc c s s1 crc1 c1 h; simp [deflateLoop] at h
  | succ k ih =>
    intro st src fileSize crc c s s1 crc1 c1 h
    unfold deflateLoop at h
    simp only [] at h
    split at h
    · simp at h
    · rename_i c2 s2 hin
      obtain ⟨h1, h2⟩ := deflateInner_of_ok b _ _ _ _ _ _ hin
      split at h
      · simp only [Prod.mk.injEq, Except.ok.injEq] at h
        exact ⟨_, by rw [← h.1.2, h1], by rw [← h.2, h2]⟩
      · obtain ⟨out, h3, h4⟩ := ih _ _ _ _ _ _ _ _ _ h
        exact ⟨_ ++ out, by rw [h3, h1, List.length_append, Nat.add_assoc],
          by rw [h4, h2, writeZIPFile_append]⟩

theorem deflateFile_of_ok (Z : ZLib) (fs : HostFS) (b : Nat) (s s1 : ZipFileStream)
    (name : Bytes) (fileSize crc csize : Nat)
    (h : deflateFile Z fs b s name fileSize = (.ok (crc, csize), s1)) :
    ∃ out : Bytes, csize = out.length ∧ s1 = writeZIPFile s out := by
  unfold deflateFile at h
  split at h
  · simp at h
  · split at h
    · simp at h
    · obtain ⟨out, h1, h2⟩ := deflateLoop_of_ok Z b _ _ _ _ _ _ _ _ _ _ h
      exact ⟨out, by rw [h1, Nat.zero_add], h2⟩

theorem storeLoop_of_ok (b : Nat) (fuel : Nat) :
    ∀ (src : Bytes) (n : Nat) (s s1 : ZipFileStream),
      storeLoop b fuel src n s = (.ok (), s1) →
      n ≤ src.length ∧ s1 = writeZIPFile s (src.take n) := by
  induction fuel with
  | zero => intro src n s s1 h; simp [storeLoop] at h
  | succ k ih =>
    intro src n s s1 h
    unfold storeLoop at h
    split at h
    · rename_i h0
      subst h0
      simp only [Prod.mk.injEq, true_and] at h
      exact ⟨Nat.zero_le _, by rw [← h, List.take_zero, writeZIPFile_nil]⟩
    · split at h
      · simp at h
      · rename_i h0 hlen
        simp only [] at h
        split at h
        · simp at h
        · obtain ⟨h1, h2⟩ := ih _ _ _ _ h
          have hmin : min n b ≤ n := Nat.min_le_left _ _
          rw [List.length_drop] at h1
          refine ⟨by omega, ?_⟩
          rw [h2, writeZIPFile_append, ← List.take_add]
          congr 2
          omega

theorem storeFile_of_ok (fs : HostFS) (b : Nat) (s s1 : ZipFileStream) (name : Bytes)
    (n : Nat) (f : HostFile) (hf : fs name = some f)
    (h : storeFile fs b s name n = (.ok (), s1)) :
    n ≤ f.content.length ∧ s1 = writeZIPFile s (f.content.take n) := by
  unfold storeFile at h
  simp only [hf] at h
  exact storeLoop_of_ok b _ _ _ _ _ h

theorem LocalFileHeader.encode_length (h : LocalFileHeader) :
    h.encode.length = 30 + h.fileNameStr.length + h.extraField.length := by
  simp only [LocalFileHeader.encode, putField32, putField16, List.length_append,
    List.length_cons, List.length_nil]

theorem putZip64ExtendedInfoExtraField_length (info : Zip64ExtendedInfoExtraField) (c : Nat) :
    (putZip64ExtendedInfoExtraField { info with compressedSize := c }).length =
      (putZip64ExtendedInfoExtraField info).length := by
  simp only [putZip64ExtendedInfoExtraField, putField16, List.length_append, List.length_cons,
    List.length_nil]
  split <;> split <;> simp [putField64_length]

theorem add_ok_inv (Z : ZLib) (fs : HostFS) (z z1 : CZIP) (src name : Bytes)
    (h : CZIP.add Z fs z src name = (.ok true, z1)) :
    z.bOpen = true ∧ (∀ e ∈ z.zipCentralDirectory, e.fileNameStr ≠ name) ∧
    ∃ f, fs src = some f ∧ addFileHeaderAndContents Z fs z src name = (.ok (), z1) := by
  unfold CZIP.add at h
  split at h
  · simp at h
  · rename_i hopen
    split at h
    · simp at h
    · rename_i hany
      refine ⟨by simpa using hopen, (any_name_eq_false _ _).mp (by simpa using hany), ?_⟩
      cases hfs : fs src with
      | none => simp [fileExists, hfs] at h
      | some f =>
        refine ⟨f, rfl, ?_⟩
        simp only [fileExists, hfs] at h
        split at h
        · simp at h
        · rename_i z2 hadd
          simp only [Prod.mk.injEq, true_and] at h
          rw [hadd, h]

theorem addFileHeaderAndContents_layout (Z : ZLib) (fs : HostFS) (z z1 : CZIP)
    (src name : Bytes) (f : HostFile) (hf : fs src = some f)
    (h : addFileHeaderAndContents Z fs z src name = (.ok (), z1)) :
    ∃ (de : CentralDirectoryFileHeader) (hdr : LocalFileHeader),
      z1.zipCentralDirectory = z.zipCentralDirectory ++ [de] ∧
      hdr.fileNameStr = de.fileNameStr ∧ hdr.extraField = de.extraField ∧
      hdr.compression = de.compression ∧ hdr.compressedSize = de.compressedSize ∧
      readBytes z1.zipFileStream.data z.offsetToEndOfLocalFileHeaders hdr.encode.length =
        hdr.encode ∧
      ((statFileSize f = 0 ∧
          z1.offsetToEndOfLocalFileHeaders =
            z.offsetToEndOfLocalFileHeaders + hdr.encode.length) ∨
        (statFileSize f ≠ 0 ∧
          ∃ (crc csize : Nat) (s2 : ZipFileStream),
            deflateFile Z fs z.zipIOBufferSize
              (putZIPRecordLocal
                (positionInZIPFile z.zipFileStream z.offsetToEndOfLocalFileHeaders)
                (initialFileHeader (entryFor z.offsetToEndOfLocalFileHeaders f name)))
              src (statFileSize f) = (.ok (crc, csize), s2) ∧
            ((de.compression = kZIPCompressionDeflate ∧
                (csize < statFileSize f ∨
                  (fieldRequires64bits z.offsetToEndOfLocalFileHeaders ||
                    fieldRequires64bits (statFileSize f)) = true) ∧
                z1.offsetToEndOfLocalFileHeaders =
                  z.offsetToEndOfLocalFileHeaders + hdr.encode.length + csize) ∨
              (de.compression = kZIPCompressionStore ∧
                (statFileSize f ≤ csize ∧
                  (fieldRequires64bits z.offsetToEndOfLocalFileHeaders ||
                    fieldRequires64bits (statFileSize f)) = false) ∧
                z1.offsetToEndOfLocalFileHeaders =
                  z.offsetToEndOfLocalFileHeaders + hdr.encode.length + statFileSize f)))) := by
  by_cases h0 : statFileSize f = 0
  · rw [addFileHeaderAndContents_empty Z fs z src name f hf h0] at h
    simp only [Prod.mk.injEq, true_and] at h
    subst h
    refine ⟨_, initialFileHeader (entryFor z.offsetToEndOfLocalFileHeaders f name), rfl, rfl,
      rfl, rfl, rfl, ?_, Or.inl ⟨h0, ?_⟩⟩
    · simp only [putZIPRecordLocal, writeZIPFile_data, positionInZIPFile]
      exact readBytes_writeBytes_same _ _ _
    · simp only [currentPositionZIPFile, putZIPRecordLocal, writeZIPFile_pos, positionInZIPFile]
  · have hreg : S_ISDIR f.st_mode = false := by
      cases hd : S_ISDIR f.st_mode
      · rfl
      · simp [statFileSize, hd] at h0
    have hcomp : (entryFor z.offsetToEndOfLocalFileHeaders f name).compression =
        kZIPCompressionDeflate := by
      rw [entryFor_compression, hreg]; rfl
    unfold addFileHeaderAndContents at h
    simp only [getFileSize, getFileModificationDateTime, getFileAttributes, hf, ne_eq, h0,
      not_false_eq_true, if_true] at h
    have hE : initialDirectoryEntry z.offsetToEndOfLocalFileHeaders (statFileSize f)
        (dosDateTime f.mtime) (unixAttributes f.st_mode) name =
        entryFor z.offsetToEndOfLocalFileHeaders f name := rfl
    rw [hE] at h
    split at h
    · simp at h
    · rename_i dv s2 hdef
      obtain ⟨crc, csize⟩ := dv
      obtain ⟨out, hout, hs2⟩ := deflateFile_of_ok Z fs _ _ _ _ _ _ _ hdef
      have hpos2 : s2.pos = z.offsetToEndOfLocalFileHeaders +
          (initialFileHeader (entryFor z.offsetToEndOfLocalFileHeaders f name)).encode.length +
          csize := by
        rw [hs2, writeZIPFile_pos, hout]
        simp only [putZIPRecordLocal, writeZIPFile_pos, positionInZIPFile]
      simp only [] at h
      split at h
      · rename_i hcond
        have hcond1 : csize < statFileSize f ∨
            (fieldRequires64bits z.offsetToEndOfLocalFileHeaders ||
              fieldRequires64bits (statFileSize f)) = true := by
          simpa using hcond
        split at h
        · simp only [Prod.mk.injEq, true_and] at h
          subst h
          refine ⟨_, { initialFileHeader (entryFor z.offsetToEndOfLocalFileHeaders f name) with
              crc32 := crc,
              extraField := putZip64ExtendedInfoExtraField
                { fileHeaderOffset := z.offsetToEndOfLocalFileHeaders,
                  originalSize := statFileSize f, compressedSize := csize } },
            rfl, rfl, rfl, rfl, rfl, ?_, Or.inr ⟨h0, crc, csize, s2, hdef, Or.inl ⟨hcomp, hcond1, ?_⟩⟩⟩
          · simp only [putZIPRecordLocal, writeZIPFile_data, positionInZIPFile]
            exact readBytes_writeBytes_same _ _ _
          · show s2.pos = _
            rw [hpos2, LocalFileHeader.encode_length, LocalFileHeader.encode_length]
            have hl := putZip64ExtendedInfoExtraField_length
              { fileHeaderOffset := z.offsetToEndOfLocalFileHeaders,
                originalSize := statFileSize f, compressedSize := statFileSize f } csize
            have hx : (initialFileHeader
                (entryFor z.offsetToEndOfLocalFileHeaders f name)).extraField =
                putZip64ExtendedInfoExtraField
                  { fileHeaderOffset := z.offsetToEndOfLocalFileHeaders,
                    originalSize := statFileSize f, compressedSize := statFileSize f } := by
              show (entryFor z.offsetToEndOfLocalFileHeaders f name).extraField = _
              rw [entryFor_extraField]
              rename_i hz
              simp only [hz, if_true]
            rw [hx]
            simp only [] at hl ⊢
            rw [hl]
        · simp only [Prod.mk.injEq, true_and] at h
          subst h
          refine ⟨_, { initialFileHeader (entryFor z.offsetToEndOfLocalFileHeaders f name) with
              crc32 := crc, compressedSize := csize % 2 ^ 32 },
            rfl, rfl, rfl, rfl, rfl, ?_, Or.inr ⟨h0, crc, csize, s2, hdef, Or.inl ⟨hcomp, hcond1, ?_⟩⟩⟩
          · simp only [putZIPRecordLocal, writeZIPFile_data, positionInZIPFile]
            exact readBytes_writeBytes_same _ _ _
          · show s2.pos = _
            rw [hpos2, LocalFileHeader.encode_length, LocalFileHeader.encode_length]
      · rename_i hcond
        have hcond1 : statFileSize f ≤ csize ∧
            (fieldRequires64bits z.offsetToEndOfLocalFileHeaders ||
              fieldRequires64bits (statFileSize f)) = false := by
          simpa using hcond
        split at h
        · simp at h
        · rename_i s5 hstore
          simp only [Prod.mk.injEq, true_and] at h
          subst h
          obtain ⟨hlen, hs5⟩ := storeFile_of_ok fs _ _ _ _ _ f hf hstore
          refine ⟨_, { initialFileHeader (entryFor z.offsetToEndOfLocalFileHeaders f name) with
              crc32 := crc, creatorVersion := (kZIPCreatorUnix <<< 8) ||| kZIPVersion10,
              compression := kZIPCompressionStore,
              compressedSize := statFileSize f % 2 ^ 32 },
            rfl, rfl, rfl, rfl, rfl, ?_, Or.inr ⟨h0, crc, csize, s2, hdef, Or.inr ⟨rfl, hcond1, ?_⟩⟩⟩
          · show readBytes s5.data _ _ = _
            rw [hs5, writeZIPFile_data]
            rw [readBytes_writeBytes_before _ _ _ _ _ (by
              simp only [putZIPRecordLocal, writeZIPFile_pos, positionInZIPFile]; omega)]
            simp only [putZIPRecordLocal, writeZIPFile_data, positionInZIPFile]
            exact readBytes_writeBytes_same _ _ _
          · show s5.pos = _
            rw [hs5, writeZIPFile_pos, List.length_take, Nat.min_eq_left hlen]
            simp only [putZIPRecordLocal, writeZIPFile_pos, positionInZIPFile]

/-! ## A directory added twice -/

theorem add_of_directory (Z : ZLib) (fs : HostFS) (z : CZIP) (src name : Bytes) (f : HostFile)
    (hopen : z.bOpen = true) (hf : fs src = some f) (hdir : S_ISDIR f.st_mode = true)
    (hslash : name.getLast? ≠ some 47)
    (hnew : ∀ e ∈ z.zipCentralDirectory, e.fileNameStr ≠ name) :
    (CZIP.add Z fs z src name).1 = .ok true ∧
    (CZIP.add Z fs z src name).2.bOpen = true ∧
    ∃ de, (CZIP.add Z fs z src name).2.zipCentralDirectory = z.zipCentralDirectory ++ [de] ∧
      de.fileNameStr = name ++ [47] := by
  have h0 : statFileSize f = 0 := by simp [statFileSize, hdir]
  rw [add_of_new_name Z fs z src name f hopen hnew hf,
    addFileHeaderAndContents_empty Z fs z src name f hf h0]
  refine ⟨rfl, hopen, _, rfl, ?_⟩
  rw [entryFor_fileNameStr]
  simp [hdir, hslash]

/-! ## The payload size an entry records -/

theorem extendedInfoFor_compressedSize (de : CentralDirectoryFileHeader)
    (h : fieldOverflow32 de.compressedSize = false) :
    (CZIP.extendedInfoFor de).compressedSize = de.compressedSize := by
  unfold CZIP.extendedInfoFor
  simp only []
  split
  · exact getZip64_compressedSize _ _ h
  · rfl

theorem extendedInfoFor_originalSize (de : CentralDirectoryFileHeader)
    (h : fieldOverflow32 de.uncompressedSize = false) :
    (CZIP.extendedInfoFor de).originalSize = de.uncompressedSize := by
  unfold CZIP.extendedInfoFor
  simp only []
  split
  · exact getZip64_originalSize _ _ h
  · rfl

/-! ## Claims on the copy passes and on `add` -/

/-- C23 (the code departs from the claim): let the compressed byte count `n`
be smaller than the buffer size `b`, let more than `n` bytes follow the
position in the archive, and let the codec answer the first chunk (the `n`
bytes) with neither an error that `inflateFile` catches nor `Z_STREAM_END`.
Then `fileSize -= zipIOBufferSize` wraps the remaining count to
`2^64 - (b - n)`, the next request `min(remaining, b)` is for at least one
more byte, and when `inflateFile` is done the archive stream has been read
beyond the `n` bytes of the entry. -/
theorem inflate_reads_past_count (Z : ZLib) (b n : Nat) (s : ZipFileStream)
    (hinit : Z.inflateInit2.1 = Z_OK) (hn : 0 < n) (hnb : n < b) (hb : b < 2 ^ 64)
    (hfail : s.fail = false) (havail : s.pos + n < s.size)
    (hrc : ¬ ((Z.inflate Z.inflateInit2.2 (readBytes s.data s.pos n)).2.2 = Z_NEED_DICT ∨
      (Z.inflate Z.inflateInit2.2 (readBytes s.data s.pos n)).2.2 = Z_DATA_ERROR ∨
      (Z.inflate Z.inflateInit2.2 (readBytes s.data s.pos n)).2.2 = Z_MEM_ERROR))
    (hend : (Z.inflate Z.inflateInit2.2 (readBytes s.data s.pos n)).2.2 ≠ Z_STREAM_END) :
    sub64 n b = 2 ^ 64 - (b - n) ∧ 1 ≤ min (sub64 n b) b ∧
    s.pos + n < (inflateFile Z b s n).2.1.pos := by
  have hw := sub64_wraps n b hnb hb
  have hreq : 1 ≤ min (sub64 n b) b := by
    rw [hw]
    exact Nat.le_min.mpr ⟨by omega, by omega⟩
  refine ⟨hw, hreq, ?_⟩
  have hmin : min n b = n := Nat.min_eq_left (by omega)
  obtain ⟨r1, r2, r3, r4, r5, r6⟩ := readZIPFile_available s n hfail (by omega)
  obtain ⟨crc1, h1⟩ := inflateLoop_first Z b (by omega) (s.size + 1) Z.inflateInit2.2 n hn s []
    (Z.crc32 0 []) hfail (by rw [hmin]; omega) (by rw [hmin]; exact hrc)
    (by rw [hmin]; exact hend)
  rw [hmin] at h1
  have h2 : inflateFile Z b s n =
      inflateLoop Z b (s.size + 1 + 1) Z.inflateInit2.2 n s [] (Z.crc32 0 []) := by
    unfold inflateFile
    simp only [hinit, ne_eq, not_true_eq_false, if_false]
    rw [if_neg (by omega)]
  rw [h2, h1]
  have h3 := inflateLoop_reads Z b s.size
    (Z.inflate Z.inflateInit2.2 (readBytes s.data s.pos n)).1 (sub64 n b) (readZIPFile s n).1
    ([] ++ (Z.inflate Z.inflateInit2.2 (readBytes s.data s.pos n)).2.1) crc1
  have h4 : (readZIPFile (readZIPFile s n).1 (min (sub64 n b) b)).1.pos =
      (readZIPFile s n).1.pos + min (min (sub64 n b) b)
        ((readZIPFile s n).1.size - (readZIPFile s n).1.pos) := rfl
  rw [h4, r1, r3] at h3
  have h5 : 1 ≤ min (min (sub64 n b) b) (s.size - (s.pos + n)) :=
    Nat.le_min.mpr ⟨hreq, by omega⟩
  omega

/-- The failing input of C23: compressed byte count 3, buffer size 4, the
archive `ninesStream`.  The requests are for 3, 4 and 4 bytes; all ten bytes
of the archive are read before the call fails on the short read. -/
theorem inflate_reads_past_count_witness :
    (inflateFile toyZLib 4 ninesStream 3).1 = .error .readArchiveInflate ∧
    (inflateFile toyZLib 4 ninesStream 3).2.1.pos = 10 ∧
    ninesStream.pos + 3 < (inflateFile toyZLib 4 ninesStream 3).2.1.pos :=
  ⟨by decide, by decide,
    (inflate_reads_past_count toyZLib 4 3 ninesStream rfl (by decide) (by decide) (by decide)
      rfl (by decide) (by decide) (by decide)).2.2⟩

/-- C25, counterexample: `deflateFile` called for the empty file `e.txt`
with size 0 runs the codec (the toy codec hands over two bytes on
`Z_FINISH`), writes those two bytes to the archive and returns the compressed
size 2. -/
theorem deflate_of_empty_source_counterexample :
    (deflateFile toyZLib emptyFileFS 4 emptyArchive.zipFileStream (ascii "e.txt") 0).1 =
      .ok (0, 2) ∧
    (deflateFile toyZLib emptyFileFS 4 emptyArchive.zipFileStream (ascii "e.txt") 0).2.pos =
      emptyArchive.zipFileStream.pos + 2 ∧
    readBytes (deflateFile toyZLib emptyFileFS 4 emptyArchive.zipFileStream
      (ascii "e.txt") 0).2.data emptyArchive.zipFileStream.pos 2 = [0, 0] ∧
    readBytes emptyArchive.zipFileStream.data emptyArchive.zipFileStream.pos 2 = [80, 75] := by
  decide

/-- C25, amended: `inflateFile` called with a compressed byte count of 0
returns the CRC-32 of the empty buffer without a call to the codec and
without touching the archive stream, and leaves the destination empty.  On
the deflate side the short circuit is in `addFileHeaderAndContents`: for a
source of size 0 (an empty file or a directory) it does not call
`deflateFile` at all, so its result is the same for every codec; it writes the
local file header and nothing else, and the entry keeps the CRC-32 0.
`deflateFile` itself has no short circuit: called with size 0 it fails when
`deflateInit2` fails, and otherwise calls the codec once, in finish mode on an
empty chunk, and writes and counts what the codec hands over. -/
theorem zero_length_short_circuits (Z : ZLib) (fs : HostFS) (z : CZIP) (src name : Bytes)
    (f : HostFile) (hf : fs src = some f) (h0 : statFileSize f = 0) (b : Nat)
    (s : ZipFileStream) :
    inflateFile Z b s 0 = (.ok (Z.crc32 0 []), s, []) ∧
    (∀ Z1 : ZLib,
      addFileHeaderAndContents Z1 fs z src name = addFileHeaderAndContents Z fs z src name) ∧
    (∃ z1 de, addFileHeaderAndContents Z fs z src name = (.ok (), z1) ∧
      z1.zipCentralDirectory = z.zipCentralDirectory ++ [de] ∧ de.crc32 = 0 ∧
      z1.zipFileStream = writeZIPFile
        (positionInZIPFile z.zipFileStream z.offsetToEndOfLocalFileHeaders)
        (initialFileHeader de).encode ∧
      z1.offsetToEndOfLocalFileHeaders =
        z.offsetToEndOfLocalFileHeaders + (initialFileHeader de).encode.length) ∧
    (Z.deflateInit2.1 ≠ Z_OK →
      deflateFile Z fs b s src 0 = (.error (.deflateInit2Error Z.deflateInit2.1), s)) ∧
    (Z.deflateInit2.1 = Z_OK → 0 < b → s.fail = false →
      deflateFile Z fs b s src 0 =
        (.ok (Z.crc32 (Z.crc32 0 []) [], (Z.deflate Z.deflateInit2.2 [] true).2.1.length),
          writeZIPFile s (Z.deflate Z.deflateInit2.2 [] true).2.1)) := by
  refine ⟨by simp [inflateFile], ?_, ?_, ?_, ?_⟩
  · intro Z1
    rw [addFileHeaderAndContents_empty Z1 fs z src name f hf h0,
      addFileHeaderAndContents_empty Z fs z src name f hf h0]
  · refine ⟨_, _, addFileHeaderAndContents_empty Z fs z src name f hf h0, rfl,
      entryFor_crc32 _ _ _, rfl, ?_⟩
    simp only [currentPositionZIPFile, putZIPRecordLocal, writeZIPFile_pos, positionInZIPFile]
  · exact fun hinit => deflateFile_init_fails Z fs b s src 0 f hf hinit
  · exact fun hinit hb hfail => deflateFile_zero Z fs b s src f hf hinit hb hfail

/-- Witness for C25: the empty file `e.txt` is added to the empty archive
with the toy codec and with a codec that answers `Z_STREAM_ERROR` to the same
effect: the archive grows by the 31 bytes of the local file header. -/
theorem zero_length_short_circuits_witness :
    addFileHeaderAndContents (toyZLib.withResult Z_STREAM_ERROR) emptyFileFS emptyArchive
        (ascii "e.txt") (ascii "e") =
      addFileHeaderAndContents toyZLib emptyFileFS emptyArchive (ascii "e.txt") (ascii "e") ∧
    (addFileHeaderAndContents toyZLib emptyFileFS emptyArchive (ascii "e.txt")
      (ascii "e")).2.offsetToEndOfLocalFileHeaders = 31 ∧
    inflateFile toyZLib 4 emptyArchive.zipFileStream 0 =
      (.ok 0, emptyArchive.zipFileStream, []) :=
  have h := zero_length_short_circuits toyZLib emptyFileFS emptyArchive (ascii "e.txt")
    (ascii "e") _ rfl rfl 4 emptyArchive.zipFileStream
  ⟨h.2.1 _, by decide, h.1⟩

/-- C27: after every `add` that returns true the end-of-local-headers offset
is the offset at which the new entry's local file header was written (the
offset before the call) plus the length of the local file header as it
finally stands in the archive (30 bytes, the name, the extra field) plus the
length of the payload kept: nothing for a directory or an empty file, the
size `deflateFile` returned for an entry left as deflate (the deflate output
is smaller than the file, or the entry is ZIP64), the original size for an
entry rewritten as store (otherwise).  The offset therefore never decreases, and
the next local file header starts behind this entry's header and payload. -/
theorem add_advances_offset (Z : ZLib) (fs : HostFS) (z z1 : CZIP) (src name : Bytes)
    (h : CZIP.add Z fs z src name = (.ok true, z1)) :
    ∃ (f : HostFile) (de : CentralDirectoryFileHeader) (hdr : LocalFileHeader),
      fs src = some f ∧ z1.zipCentralDirectory = z.zipCentralDirectory ++ [de] ∧
      hdr.fileNameStr = de.fileNameStr ∧ hdr.extraField = de.extraField ∧
      hdr.compression = de.compression ∧ hdr.compressedSize = de.compressedSize ∧
      hdr.encode.length = 30 + de.fileNameStr.length + de.extraField.length ∧
      readBytes z1.zipFileStream.data z.offsetToEndOfLocalFileHeaders hdr.encode.length =
        hdr.encode ∧
      ((statFileSize f = 0 ∧
          z1.offsetToEndOfLocalFileHeaders =
            z.offsetToEndOfLocalFileHeaders + hdr.encode.length) ∨
        (statFileSize f ≠ 0 ∧
          ∃ (crc csize : Nat) (s2 : ZipFileStream),
            deflateFile Z fs z.zipIOBufferSize
              (putZIPRecordLocal
                (positionInZIPFile z.zipFileStream z.offsetToEndOfLocalFileHeaders)
                (initialFileHeader (entryFor z.offsetToEndOfLocalFileHeaders f name)))
              src (statFileSize f) = (.ok (crc, csize), s2) ∧
            ((de.compression = kZIPCompressionDeflate ∧
                (csize < statFileSize f ∨
                  (fieldRequires64bits z.offsetToEndOfLocalFileHeaders ||
                    fieldRequires64bits (statFileSize f)) = true) ∧
                z1.offsetToEndOfLocalFileHeaders =
                  z.offsetToEndOfLocalFileHeaders + hdr.encode.length + csize) ∨
              (de.compression = kZIPCompressionStore ∧
                (statFileSize f ≤ csize ∧
                  (fieldRequires64bits z.offsetToEndOfLocalFileHeaders ||
                    fieldRequires64bits (statFileSize f)) = false) ∧
                z1.offsetToEndOfLocalFileHeaders =
                  z.offsetToEndOfLocalFileHeaders + hdr.encode.length + statFileSize f)))) ∧
      z.offsetToEndOfLocalFileHeaders + hdr.encode.length ≤ z1.offsetToEndOfLocalFileHeaders := by
  obtain ⟨-, -, f, hf, hadd⟩ := add_ok_inv Z fs z z1 src name h
  obtain ⟨de, hdr, h1, h2, h3, h4, h5, h6, h7⟩ :=
    addFileHeaderAndContents_layout Z fs z z1 src name f hf hadd
  refine ⟨f, de, hdr, hf, h1, h2, h3, h4, h5, ?_, h6, h7, ?_⟩
  · rw [LocalFileHeader.encode_length, h2, h3]
  · rcases h7 with ⟨-, h8⟩ | ⟨-, crc, csize, s2, -, ⟨-, -, h8⟩ | ⟨-, -, h8⟩⟩ <;> omega

/-- Witness for C27: `z.bin` (200 zero bytes, two bytes of deflate output)
added to the empty archive as "z" leaves the offset at 0 + 31 + 2, and
`y.txt` (three bytes, kept as store) added as "b.txt" at 0 + 35 + 3. -/
theorem add_advances_offset_witness :
    (∃ (de : CentralDirectoryFileHeader) (hdr : LocalFileHeader),
      (CZIP.add toyZLib toyFS emptyArchive (ascii "z.bin") (ascii "z")).2.zipCentralDirectory =
        emptyArchive.zipCentralDirectory ++ [de] ∧
      hdr.encode.length = 30 + de.fileNameStr.length + de.extraField.length ∧
      emptyArchive.offsetToEndOfLocalFileHeaders + hdr.encode.length ≤
        (CZIP.add toyZLib toyFS emptyArchive (ascii "z.bin")
          (ascii "z")).2.offsetToEndOfLocalFileHeaders) ∧
    (CZIP.add toyZLib toyFS emptyArchive (ascii "z.bin")
      (ascii "z")).2.offsetToEndOfLocalFileHeaders = 33 ∧
    (CZIP.add toyZLib toyFS emptyArchive (ascii "y.txt")
      (ascii "b.txt")).2.offsetToEndOfLocalFileHeaders = 38 :=
  ⟨(add_advances_offset toyZLib toyFS emptyArchive _ (ascii "z.bin") (ascii "z")
      (Prod.ext (by decide) rfl)).elim
    fun _ hf => hf.elim fun de hde => hde.elim fun hdr hh =>
      ⟨de, hdr, hh.2.1, hh.2.2.2.2.2.2.1, hh.2.2.2.2.2.2.2.2.2⟩,
    by decide, by decide⟩

/-- C28 (the code departs from the claim): `add` compares the archive name
as passed in with the names of the directory, and `addFileHeaderAndContents`
appends '/' to the name of a directory afterwards.  So when a host directory
is added twice under a name that does not end in '/' (and is not yet a name
of the directory), both calls return true and the directory ends with two
entries of the same name, the name with '/' appended. -/
theorem add_directory_twice (Z : ZLib) (fs : HostFS) (z : CZIP) (src name : Bytes)
    (f : HostFile) (hopen : z.bOpen = true) (hf : fs src = some f)
    (hdir : S_ISDIR f.st_mode = true) (hslash : name.getLast? ≠ some 47)
    (hnew : ∀ e ∈ z.zipCentralDirectory, e.fileNameStr ≠ name) :
    (CZIP.add Z fs z src name).1 = .ok true ∧
    (CZIP.add Z fs (CZIP.add Z fs z src name).2 src name).1 = .ok true ∧
    ∃ de1 de2 : CentralDirectoryFileHeader,
      (CZIP.add Z fs (CZIP.add Z fs z src name).2 src name).2.zipCentralDirectory =
        z.zipCentralDirectory ++ [de1, de2] ∧
      de1.fileNameStr = name ++ [47] ∧ de2.fileNameStr = name ++ [47] := by
  obtain ⟨a1, a2, de1, a3, a4⟩ := add_of_directory Z fs z src name f hopen hf hdir hslash hnew
  have hnew1 : ∀ e ∈ (CZIP.add Z fs z src name).2.zipCentralDirectory, e.fileNameStr ≠ name := by
    intro e he
    rw [a3] at he
    rcases List.mem_append.mp he with h | h
    · exact hnew e h
    · rw [List.mem_singleton] at h
      rw [h, a4]
      intro hc
      have := congrArg List.length hc
      simp at this
  obtain ⟨b1, -, de2, b3, b4⟩ := add_of_directory Z fs (CZIP.add Z fs z src name).2 src name f
    a2 hf hdir hslash hnew1
  exact ⟨a1, b1, de1, de2, by rw [b3, a3, List.append_assoc]; rfl, a4, b4⟩

/-- The failing input of C28: the host directory `dir` added twice to the
empty archive as "d" gives the directory "d/", "d/". -/
theorem add_directory_twice_witness :
    (CZIP.addAll toyZLib toyFS emptyArchive
      [(ascii "dir", ascii "d"), (ascii "dir", ascii "d")]).zipCentralDirectory.map
        (fun e => e.fileNameStr) = [ascii "d/", ascii "d/"] ∧
    (CZIP.add toyZLib toyFS (CZIP.add toyZLib toyFS emptyArchive (ascii "dir") (ascii "d")).2
      (ascii "dir") (ascii "d")).1 = .ok true :=
  ⟨by decide,
    (add_directory_twice toyZLib toyFS emptyArchive (ascii "dir") (ascii "d") _ rfl rfl
      (by decide) (by decide) (by decide)).2.1⟩

/-- C29 (the code departs from the claim): a non-empty regular file of fewer
than 2^32 - 1 bytes is added and `deflateFile` returns the compressed size
`csize`.  When the header offset fits 32 bits the claim holds: an entry left
as deflate (`csize` below the original size) records `csize`, an entry
rewritten as store records the original size, and in both cases that many
payload bytes lie between the local file header and the new end of the local
file headers.  When the header offset needs 64 bits the entry is ZIP64, the
deflate output is kept whatever its size and the method is deflate, but the
compressed size that `extract` takes from the entry is the original size
while `csize` payload bytes lie behind the header. -/
theorem recorded_payload_size (Z : ZLib) (fs : HostFS) (z z1 : CZIP) (src name : Bytes)
    (f : HostFile) (hf : fs src = some f) (hne : statFileSize f ≠ 0)
    (hsize : statFileSize f < sentinel32)
    (h : addFileHeaderAndContents Z fs z src name = (.ok (), z1)) :
    ∃ (de : CentralDirectoryFileHeader) (crc csize : Nat) (s2 : ZipFileStream),
      z1.zipCentralDirectory = z.zipCentralDirectory ++ [de] ∧
      deflateFile Z fs z.zipIOBufferSize
        (putZIPRecordLocal
          (positionInZIPFile z.zipFileStream z.offsetToEndOfLocalFileHeaders)
          (initialFileHeader (entryFor z.offsetToEndOfLocalFileHeaders f name)))
        src (statFileSize f) = (.ok (crc, csize), s2) ∧
      (fieldRequires64bits z.offsetToEndOfLocalFileHeaders = false →
        (csize < statFileSize f →
          de.compression = kZIPCompressionDeflate ∧
          (CZIP.extendedInfoFor de).compressedSize = csize ∧
          z1.offsetToEndOfLocalFileHeaders = z.offsetToEndOfLocalFileHeaders +
            (30 + de.fileNameStr.length + de.extraField.length) + csize) ∧
        (statFileSize f ≤ csize →
          de.compression = kZIPCompressionStore ∧
          (CZIP.extendedInfoFor de).originalSize = statFileSize f ∧
          z1.offsetToEndOfLocalFileHeaders = z.offsetToEndOfLocalFileHeaders +
            (30 + de.fileNameStr.length + de.extraField.length) + statFileSize f)) ∧
      (fieldRequires64bits z.offsetToEndOfLocalFileHeaders = true →
        de.compression = kZIPCompressionDeflate ∧ de.compressedSize = statFileSize f ∧
        (CZIP.extendedInfoFor de).compressedSize = statFileSize f ∧
        z1.offsetToEndOfLocalFileHeaders = z.offsetToEndOfLocalFileHeaders +
          (30 + de.fileNameStr.length + de.extraField.length) + csize) := by
  have hs32 : sentinel32 = 4294967295 := rfl
  have hfit : fieldRequires64bits (statFileSize f) = false := by
    simp [fieldRequires64bits]; omega
  have hmod : statFileSize f % 2 ^ 32 = statFileSize f := Nat.mod_eq_of_lt (by omega)
  obtain ⟨de, hdr, l1, l2, l3, l4, l5, -, l7⟩ :=
    addFileHeaderAndContents_layout Z fs z z1 src name f hf h
  obtain ⟨de1, g1, -, g3, g4⟩ := addFileHeaderAndContents_fields Z fs z z1 src name f hf h
  have hde : de1 = de := by
    rw [l1] at g1
    have := List.append_cancel_left g1
    simp only [List.cons.injEq, and_true] at this
    exact this.symm
  subst hde
  rcases l7 with ⟨l0, -⟩ | ⟨-, crc, csize, s2, hdef, l8⟩
  · exact absurd l0 hne
  rcases g4 with ⟨g0, -⟩ | ⟨crc1, csize1, s3, hdef1, g5⟩
  · exact absurd g0 hne
  rw [hdef] at hdef1
  simp only [Prod.mk.injEq, Except.ok.injEq] at hdef1
  obtain ⟨⟨-, hc⟩, -⟩ := hdef1
  subst hc
  simp only [hfit, Bool.false_eq_true, if_false] at g5
  have hlen : hdr.encode.length = 30 + de1.fileNameStr.length + de1.extraField.length := by
    rw [LocalFileHeader.encode_length, l2, l3]
  rw [hlen] at l8
  have hstore : kZIPCompressionStore ≠ kZIPCompressionDeflate := by decide
  refine ⟨de1, crc, csize, s2, l1, hdef, ?_, ?_⟩
  · intro hoff
    simp only [hoff, Bool.false_eq_true, if_false] at g5
    simp only [hoff, hfit, Bool.or_self, Bool.false_eq_true, or_false, and_true] at l8
    constructor
    · intro hlt
      rcases l8 with ⟨a, -, c⟩ | ⟨-, b, -⟩
      · refine ⟨a, ?_, c⟩
        rw [extendedInfoFor_compressedSize de1 (by
          simp only [g5, hlt, if_true, fieldOverflow32, decide_eq_false_iff_not]; omega), g5]
        simp only [hlt, if_true]
      · omega
    · intro hge
      rcases l8 with ⟨-, b, -⟩ | ⟨a, -, c⟩
      · omega
      · refine ⟨a, ?_, c⟩
        rw [extendedInfoFor_originalSize de1 (by
          simp only [g3, hfit, Bool.false_eq_true, if_false, fieldOverflow32,
            decide_eq_false_iff_not]; omega), g3]
        simp only [hfit, Bool.false_eq_true, if_false]
  · intro hoff
    simp only [hoff, if_true] at g5
    simp only [hoff, hfit, Bool.or_false, Bool.true_eq_false, and_false, false_and, or_false,
      or_true, true_and] at l8
    refine ⟨l8.1, g5, ?_, l8.2⟩
    rw [extendedInfoFor_compressedSize de1 (by
      simp only [g5, fieldOverflow32, decide_eq_false_iff_not]; omega), g5]

/-- The failing input of C29: `z.bin` (200 zero bytes, two bytes of deflate
output) added as "z" to the archive whose local file headers end at offset
2^32.  The entry says deflate with compressed size 200, and `extract` takes
200 from it, while the end of the local file headers has moved by the 43
bytes of the header and 2 bytes of payload. -/
theorem recorded_payload_size_witness :
    (∃ de : CentralDirectoryFileHeader,
      (addFileHeaderAndContents toyZLib toyFS farArchive (ascii "z.bin")
        (ascii "z")).2.zipCentralDirectory = farArchive.zipCentralDirectory ++ [de] ∧
      de.compression = kZIPCompressionDeflate ∧
      (CZIP.extendedInfoFor de).compressedSize = 200) ∧
    (addFileHeaderAndContents toyZLib toyFS farArchive (ascii "z.bin")
      (ascii "z")).2.offsetToEndOfLocalFileHeaders = 4294967296 + 43 + 2 ∧
    (deflateFile toyZLib toyFS 64 farArchive.zipFileStream (ascii "z.bin") 200).1 =
      .ok (toyZLib.crc32 0 zeroBytes, 2) :=
  ⟨(recorded_payload_size toyZLib toyFS farArchive _ (ascii "z.bin") (ascii "z") _ rfl
      (by decide) (by decide) (Prod.ext (by decide) rfl)).elim
    fun de hde => hde.elim fun _ h1 => h1.elim fun _ h2 => h2.elim fun _ h3 =>
      ⟨de, h3.1, (h3.2.2.2 (by decide)).1, (h3.2.2.2 (by decide)).2.2.1⟩,
    by decide, by decide⟩

/-- C30: for every buffer size `b ≥ 1` and every payload size `n`, with the
`n` bytes at hand (in the archive for `extractFile`, in the source file for
`storeFile`) and no I/O error latched, both store copy loops return after
exactly `ceil(n / b)` passes: the loop given `ceil(n / b) + 1` evaluations of
its condition `while (fileSize)` returns, given `ceil(n / b)` it is still
running.  `extractFile` reads exactly the `n` bytes that follow the position
and `storeFile` writes exactly the first `n` bytes of the source, so the
requests add up to `n`; each request `min(fileSize, b)` is at least 1 and at
most `b`, it never exceeds the counter, so the counter strictly decreases and
the unsigned subtraction never wraps. -/
theorem store_loops_run_ceil_times (Z : ZLib) (b n : Nat) (hb : 0 < b)
    (s : ZipFileStream) (hfail : s.fail = false) (havail : s.pos + n ≤ s.size)
    (fs : HostFS) (name : Bytes) (f : HostFile) (hf : fs name = some f)
    (hsrc : n ≤ f.content.length) (t : ZipFileStream) (htfail : t.fail = false) :
    ((∃ crc, (extractFile Z b s n).1 = .ok crc) ∧
      (extractFile Z b s n).2.1.pos = s.pos + n ∧
      (extractFile Z b s n).2.2 = readBytes s.data s.pos n) ∧
    (∀ (dest : Bytes) (crc : Nat),
      (∃ crc1, (extractLoop Z b ((n + b - 1) / b + 1) n s dest crc).1 = .ok crc1) ∧
      (extractLoop Z b ((n + b - 1) / b) n s dest crc).1 = .error .hang) ∧
    (storeFile fs b t name n = (.ok (), writeZIPFile t (f.content.take n)) ∧
      (storeFile fs b t name n).2.pos = t.pos + n) ∧
    (storeLoop b ((n + b - 1) / b + 1) f.content n t =
        (.ok (), writeZIPFile t (f.content.take n)) ∧
      (storeLoop b ((n + b - 1) / b) f.content n t).1 = .error .hang) ∧
    (∀ fileSize : Nat, 0 < fileSize → fileSize < 2 ^ 64 →
      1 ≤ min fileSize b ∧ min fileSize b ≤ b ∧ min fileSize b ≤ fileSize ∧
      fileSize - min fileSize b < fileSize ∧
      sub64 fileSize (min fileSize b) = fileSize - min fileSize b) := by
  have hceil := ceil_le b n hb
  refine ⟨?_, ?_, ?_, ?_, ?_⟩
  · obtain ⟨h1, h2, -, h4⟩ := extractLoop_returns Z b hb (n + 1) n s [] (Z.crc32 0 [])
      (by omega) hfail havail
    exact ⟨h1, h2, by rw [extractFile, h4, List.nil_append]⟩
  · intro dest crc
    exact ⟨(extractLoop_returns Z b hb _ n s dest crc (Nat.lt_succ_self _) hfail havail).1,
      extractLoop_hangs Z b hb _ n s dest crc (Nat.le_refl _) hfail havail⟩
  · have h1 : storeFile fs b t name n = (.ok (), writeZIPFile t (f.content.take n)) := by
      unfold storeFile
      simp only [hf]
      exact storeLoop_returns b hb _ _ _ _ (by omega) htfail hsrc
    refine ⟨h1, ?_⟩
    rw [h1, writeZIPFile_pos, List.length_take, Nat.min_eq_left hsrc]
  · exact ⟨storeLoop_returns b hb _ _ _ _ (Nat.lt_succ_self _) htfail hsrc,
      storeLoop_hangs b hb _ _ _ _ (Nat.le_refl _) htfail hsrc⟩
  · intro fileSize h0 h64
    have hmin : min fileSize b ≤ fileSize := Nat.min_le_left _ _
    have hminb : min fileSize b ≤ b := Nat.min_le_right _ _
    have hpos : 1 ≤ min fileSize b := Nat.le_min.mpr ⟨h0, hb⟩
    refine ⟨hpos, hminb, hmin, by omega, ?_⟩
    unfold sub64
    have h1 : fileSize % 2 ^ 64 = fileSize := Nat.mod_eq_of_lt h64
    have h2 : min fileSize b % 2 ^ 64 = min fileSize b := Nat.mod_eq_of_lt (by omega)
    rw [h1, h2]
    have h3 : fileSize + 2 ^ 64 - min fileSize b = (fileSize - min fileSize b) + 2 ^ 64 := by
      omega
    rw [h3, Nat.add_mod_right]
    exact Nat.mod_eq_of_lt (by omega)

/-- Witness for C30: ten bytes through a buffer of four bytes take three
passes (4 + 4 + 2), out of the archive `ninesStream` and out of `z.bin` into
the archive of `emptyArchive`. -/
theorem store_loops_run_ceil_times_witness :
    (extractFile toyZLib 4 ninesStream 10).2.2 = List.replicate 10 9 ∧
    (extractLoop toyZLib 4 3 10 ninesStream [] 0).1 = .error .hang ∧
    (∃ crc1, (extractLoop toyZLib 4 4 10 ninesStream [] 0).1 = .ok crc1) ∧
    (storeLoop 4 3 zeroBytes 10 emptyArchive.zipFileStream).1 = .error .hang ∧
    (storeFile toyFS 4 emptyArchive.zipFileStream (ascii "z.bin") 10).2.pos =
      emptyArchive.zipFileStream.pos + 10 :=
  have h := store_loops_run_ceil_times toyZLib 4 10 (by decide) ninesStream rfl (by decide)
    toyFS (ascii "z.bin") _ rfl (by decide) emptyArchive.zipFileStream rfl
  ⟨by rw [h.1.2.2]; decide, (h.2.1 [] 0).2, (h.2.1 [] 0).1, h.2.2.2.1.2, h.2.2.1.2⟩

/-! ## Claims on extract, add, create, contents and the results of the codec -/

/-! ## The CRC-32 a copy pass returns -/

theorem inflateInner_of_ok (Z : ZLib) (b : Nat) (fuel : Nat) :
    ∀ (out : Bytes) (rc : Int) (dest : Bytes) (crc crc1 : Nat) (dest1 : Bytes),
      inflateInner Z b fuel out rc dest crc = (.ok crc1, dest1) →
      ∃ pieces : List Bytes, pieces.flatten = out ∧ dest1 = dest ++ out ∧
        crc1 = pieces.foldl Z.crc32 crc := by
  induction fuel with
  | zero => intro out rc dest crc crc1 dest1 h; simp [inflateInner] at h
  | succ k ih =>
    intro out rc dest crc crc1 dest1 h
    unfold inflateInner at h
    split at h
    · obtain ⟨pieces, h1, h2, h3⟩ := ih _ _ _ _ _ _ h
      refine ⟨out.take b :: pieces, ?_, ?_, ?_⟩
      · rw [List.flatten_cons, h1, List.take_append_drop]
      · rw [h2, List.append_assoc, List.take_append_drop]
      · rw [List.foldl_cons, h3]
    · split at h
      · simp at h
      · simp only [Prod.mk.injEq, Except.ok.injEq] at h
        exact ⟨[out], by simp, h.2.symm, by rw [← h.1]; rfl⟩

theorem inflateLoop_of_ok (Z : ZLib) (b : Nat) (fuel : Nat) :
    ∀ (st : Z.IState) (fileSize : Nat) (s : ZipFileStream) (dest : Bytes) (crc crc1 : Nat)
      (s1 : ZipFileStream) (dest1 : Bytes),
      inflateLoop Z b fuel st fileSize s dest crc = (.ok crc1, s1, dest1) →
      ∃ pieces : List Bytes, dest1 = dest ++ pieces.flatten ∧
        crc1 = pieces.foldl Z.crc32 crc := by
  induction fuel with
  | zero => intro st fileSize s dest crc crc1 s1 dest1 h; simp [inflateLoop] at h
  | succ k ih =>
    intro st fileSize s dest crc crc1 s1 dest1 h
    unfold inflateLoop at h
    simp only [] at h
    split at h
    · simp at h
    · split at h
      · simp only [Prod.mk.injEq, Except.ok.injEq] at h
        exact ⟨[], by simp [h.2.2], by simp [h.1]⟩
      · split at h
        · simp at h
        · rename_i crc2 dest2 hin
          split at h
          · simp only [Prod.mk.injEq, Except.ok.injEq] at h
            obtain ⟨p1, h1, h2, h3⟩ := inflateInner_of_ok Z b _ _ _ _ _ _ _ hin
            exact ⟨p1, by rw [← h.2.2, h2, h1], by rw [← h.1, h3]⟩
          · obtain ⟨p1, h1, h2, h3⟩ := inflateInner_of_ok Z b _ _ _ _ _ _ _ hin
            obtain ⟨p2, g1, g2⟩ := ih _ _ _ _ _ _ _ _ h
            refine ⟨p1 ++ p2, ?_, ?_⟩
            · rw [g1, h2, List.flatten_append, h1, List.append_assoc]
            · rw [g2, h3, List.foldl_append]

theorem inflateFile_of_ok (Z : ZLib) (b : Nat) (s : ZipFileStream) (fileSize crc : Nat)
    (s1 : ZipFileStream) (dest : Bytes)
    (h : inflateFile Z b s fileSize = (.ok crc, s1, dest)) :
    ∃ pieces : List Bytes, pieces.flatten = dest ∧
      crc = pieces.foldl Z.crc32 (Z.crc32 0 []) := by
  unfold inflateFile at h
  simp only [] at h
  split at h
  · simp only [Prod.mk.injEq, Except.ok.injEq] at h
    exact ⟨[], by simp [h.2.2], by simp [h.1]⟩
  · split at h
    · simp at h
    · obtain ⟨pieces, h1, h2⟩ := inflateLoop_of_ok Z b _ _ _ _ _ _ _ _ _ h
      exact ⟨pieces, by rw [h1, List.nil_append], h2⟩

theorem readZIPFile_of_ok (s : ZipFileStream) (k : Nat)
    (h : errorInZIPFile (readZIPFile s k).1 = false) :
    (readZIPFile s k).2 = readBytes s.data s.pos k ∧ (readZIPFile s k).1.pos = s.pos + k ∧
    (readZIPFile s k).1.data = s.data := by
  simp only [errorInZIPFile, readZIPFile, Bool.or_eq_false_iff, decide_eq_false_iff_not,
    not_lt] at h
  have hk : min k (s.size - s.pos) = k := Nat.min_eq_left (by
    have := h.2
    exact Nat.le_trans this (Nat.min_le_right _ _))
  simp [readZIPFile, hk]

theorem extractLoop_of_ok (Z : ZLib) (b : Nat) (fuel : Nat) :
    ∀ (n : Nat) (s : ZipFileStream) (dest : Bytes) (crc crc1 : Nat) (s1 : ZipFileStream)
      (dest1 : Bytes),
      extractLoop Z b fuel n s dest crc = (.ok crc1, s1, dest1) →
      ∃ pieces : List Bytes, pieces.flatten = readBytes s.data s.pos n ∧
        dest1 = dest ++ pieces.flatten ∧ crc1 = pieces.foldl Z.crc32 crc := by
  induction fuel with
  | zero => intro n s dest crc crc1 s1 dest1 h; simp [extractLoop] at h
  | succ k ih =>
    intro n s dest crc crc1 s1 dest1 h
    unfold extractLoop at h
    split at h
    · rename_i h0
      subst h0
      simp only [Prod.mk.injEq, Except.ok.injEq] at h
      exact ⟨[], by simp [readBytes], by simp [h.2.2], by simp [h.1]⟩
    · simp only [] at h
      split at h
      · simp at h
      · rename_i h0 herr
        have herr1 : errorInZIPFile (readZIPFile s (min n b)).1 = false := by
          simpa using herr
        obtain ⟨r1, r2, r3⟩ := readZIPFile_of_ok s (min n b) herr1
        obtain ⟨pieces, g1, g2, g3⟩ := ih _ _ _ _ _ _ _ h
        have hmin : min n b ≤ n := Nat.min_le_left _ _
        refine ⟨(readZIPFile s (min n b)).2 :: pieces, ?_, ?_, ?_⟩
        · rw [List.flatten_cons, g1, r1, r2, r3, readBytes_add]
          congr 1
          omega
        · rw [g2, List.flatten_cons, List.append_assoc]
        · rw [g3, List.foldl_cons]

theorem extractFile_of_ok (Z : ZLib) (b : Nat) (s : ZipFileStream) (n crc : Nat)
    (s1 : ZipFileStream) (dest : Bytes)
    (h : extractFile Z b s n = (.ok crc, s1, dest)) :
    ∃ pieces : List Bytes, pieces.flatten = dest ∧
      crc = pieces.foldl Z.crc32 (Z.crc32 0 []) ∧ dest = readBytes s.data s.pos n := by
  unfold extractFile at h
  obtain ⟨pieces, h1, h2, h3⟩ := extractLoop_of_ok Z b _ _ _ _ _ _ _ _ h
  rw [List.nil_append] at h2
  exact ⟨pieces, h2.symm, h3, by rw [h2, h1]⟩

theorem foldl_crc32_of_law (Z : ZLib)
    (hcrc : ∀ (c : Nat) (x y : Bytes), Z.crc32 (Z.crc32 c x) y = Z.crc32 c (x ++ y))
    (pieces : List Bytes) :
    pieces.foldl Z.crc32 (Z.crc32 0 []) = Z.crc32 0 pieces.flatten := by
  rw [foldl_crc32_flatten Z hcrc pieces [] 0, List.nil_append]

theorem readZIPFile_gcount_of_ok (s : ZipFileStream) (k : Nat)
    (h : errorInZIPFile (readZIPFile s k).1 = false) : (readZIPFile s k).1.gcount = k := by
  simp only [errorInZIPFile, readZIPFile, Bool.or_eq_false_iff, decide_eq_false_iff_not,
    not_lt] at h
  have hk : min k (s.size - s.pos) = k := Nat.min_eq_left (by
    have := h.2
    exact Nat.le_trans this (Nat.min_le_right _ _))
  simp [readZIPFile, hk]

theorem inflateLoop_output (Z : ZLib) (b : Nat) (fuel : Nat) :
    ∀ (st : Z.IState) (fileSize : Nat) (s : ZipFileStream) (dest : Bytes) (crc crc1 : Nat)
      (s1 : ZipFileStream) (dest1 : Bytes),
      inflateLoop Z b fuel st fileSize s dest crc = (.ok crc1, s1, dest1) →
      ∃ chunks : List Bytes,
        chunks.flatten = readBytes s.data s.pos chunks.flatten.length ∧
        s1.pos = s.pos + chunks.flatten.length ∧ s1.data = s.data ∧
        (∀ chunk ∈ chunks, chunk.length ≤ b) ∧
        dest1 = dest ++ inflateOutput Z st chunks := by
  induction fuel with
  | zero => intro st fileSize s dest crc crc1 s1 dest1 h; simp [inflateLoop] at h
  | succ k ih =>
    intro st fileSize s dest crc crc1 s1 dest1 h
    unfold inflateLoop at h
    simp only [] at h
    split at h
    · simp at h
    · rename_i herr
      have herr1 : errorInZIPFile (readZIPFile s (min fileSize b)).1 = false := by
        simpa using herr
      obtain ⟨r1, r2, r3⟩ := readZIPFile_of_ok s (min fileSize b) herr1
      have r4 := readZIPFile_gcount_of_ok s (min fileSize b) herr1
      split at h
      · rename_i h0
        simp only [readCountZIPFile, r4] at h0
        simp only [Prod.mk.injEq, Except.ok.injEq] at h
        refine ⟨[], by simp [readBytes], ?_, ?_, by simp, by simp [inflateOutput, h.2.2]⟩
        · rw [← h.2.1, r2, h0]; simp
        · rw [← h.2.1, r3]
      · split at h
        · simp at h
        · rename_i crc2 dest2 hin
          obtain ⟨p1, h1, h2, h3⟩ := inflateInner_of_ok Z b _ _ _ _ _ _ _ hin
          have hlen : (readZIPFile s (min fileSize b)).2.length = min fileSize b := by
            rw [r1]; simp [readBytes]
          split at h
          · simp only [Prod.mk.injEq, Except.ok.injEq] at h
            refine ⟨[(readZIPFile s (min fileSize b)).2], ?_, ?_, ?_, ?_, ?_⟩
            · simp only [List.flatten_cons, List.flatten_nil, List.append_nil, hlen]
              exact r1
            · simp only [List.flatten_cons, List.flatten_nil, List.append_nil, hlen]
              rw [← h.2.1, r2]
            · rw [← h.2.1, r3]
            · intro chunk hc
              simp only [List.mem_singleton] at hc
              rw [hc, hlen]
              exact Nat.min_le_right _ _
            · rw [← h.2.2, h2]
              simp [inflateOutput]
          · obtain ⟨chunks, g1, g2, g3, g4, g5⟩ := ih _ _ _ _ _ _ _ _ h
            refine ⟨(readZIPFile s (min fileSize b)).2 :: chunks, ?_, ?_, ?_, ?_, ?_⟩
            · rw [List.flatten_cons, List.length_append, hlen, ← readBytes_add]
              rw [r3, r2] at g1
              rw [← g1, r1]
            · rw [g2, r2, List.flatten_cons, List.length_append, hlen, Nat.add_assoc]
            · rw [g3, r3]
            · intro chunk hc
              rcases List.mem_cons.mp hc with hc | hc
              · rw [hc, hlen]
                exact Nat.min_le_right _ _
              · exact g4 chunk hc
            · rw [g5, h2, inflateOutput, List.append_assoc]

theorem inflateFile_output (Z : ZLib) (b : Nat) (s : ZipFileStream) (fileSize crc : Nat)
    (s1 : ZipFileStream) (dest : Bytes)
    (h : inflateFile Z b s fileSize = (.ok crc, s1, dest)) :
    ∃ chunks : List Bytes,
      chunks.flatten = readBytes s.data s.pos chunks.flatten.length ∧
      s1.pos = s.pos + chunks.flatten.length ∧
      (∀ chunk ∈ chunks, chunk.length ≤ b) ∧
      dest = inflateOutput Z Z.inflateInit2.2 chunks := by
  unfold inflateFile at h
  simp only [] at h
  split at h
  · simp only [Prod.mk.injEq, Except.ok.injEq] at h
    exact ⟨[], by simp [readBytes], by simp [h.2.1], by simp, by simp [inflateOutput, h.2.2]⟩
  · split at h
    · simp at h
    · obtain ⟨chunks, g1, g2, -, g4, g5⟩ := inflateLoop_output Z b _ _ _ _ _ _ _ _ _ h
      exact ⟨chunks, g1, g2, g4, by rw [g5, List.nil_append]⟩

/-- The dispatch of `extract` behind a readable local file header: for the
directory entry `e` that `extract` finds by name (the first one whose name
matches) and whose local header can be re-read, `extract`
fails with UnsupportedCompression exactly when `e.compression` is neither
store (0) nor deflate (8).  Otherwise the copy pass runs (`inflateFile` over
the compressed size for deflate, `extractFile` over the original size for
store); `extract` fails with ChecksumMismatch exactly when that pass returns
a CRC-32 different from the one stored in `e`, and returns `true` exactly
when the pass returns a CRC-32 equal to it (a pass that itself fails is
neither). -/
theorem extract_of_readable_header (Z : ZLib) (z : CZIP) (name : Bytes) (e : CentralDirectoryFileHeader)
    (h : LocalFileHeader) (hopen : z.bOpen = true)
    (hfind : z.zipCentralDirectory.find? (fun d => d.fileNameStr == name) = some e)
    (hhdr : (getZIPRecordLocal
      (positionInZIPFile z.zipFileStream (CZIP.extendedInfoFor e).fileHeaderOffset)).1 = .ok h) :
    ((∃ err, (CZIP.extract Z z name).1 = .error err ∧
          err.kind = some .UnsupportedCompression) ↔
        (e.compression ≠ kZIPCompressionStore ∧ e.compression ≠ kZIPCompressionDeflate)) ∧
    kZIPCompressionStore = 0 ∧ kZIPCompressionDeflate = 8 ∧
    ((e.compression = kZIPCompressionStore ∨ e.compression = kZIPCompressionDeflate) →
      ((∃ err, (CZIP.extract Z z name).1 = .error err ∧ err.kind = some .ChecksumMismatch) ↔
        ∃ crc s2 dest,
          (if e.compression = kZIPCompressionDeflate then
            inflateFile Z z.zipIOBufferSize
              (getZIPRecordLocal (positionInZIPFile z.zipFileStream
                (CZIP.extendedInfoFor e).fileHeaderOffset)).2 (CZIP.extendedInfoFor e).compressedSize
           else
            extractFile Z z.zipIOBufferSize
              (getZIPRecordLocal (positionInZIPFile z.zipFileStream
                (CZIP.extendedInfoFor e).fileHeaderOffset)).2 (CZIP.extendedInfoFor e).originalSize)
            = (.ok crc, s2, dest) ∧ crc ≠ e.crc32) ∧
      ((CZIP.extract Z z name).1 = .ok true ↔
        ∃ crc s2 dest,
          (if e.compression = kZIPCompressionDeflate then
            inflateFile Z z.zipIOBufferSize
              (getZIPRecordLocal (positionInZIPFile z.zipFileStream
                (CZIP.extendedInfoFor e).fileHeaderOffset)).2 (CZIP.extendedInfoFor e).compressedSize
           else
            extractFile Z z.zipIOBufferSize
              (getZIPRecordLocal (positionInZIPFile z.zipFileStream
                (CZIP.extendedInfoFor e).fileHeaderOffset)).2 (CZIP.extendedInfoFor e).originalSize)
            = (.ok crc, s2, dest) ∧ crc = e.crc32)) := by
  generalize hg : getZIPRecordLocal
      (positionInZIPFile z.zipFileStream (CZIP.extendedInfoFor e).fileHeaderOffset) = g at hhdr
  obtain ⟨g1, s1⟩ := g
  simp only at hhdr
  subst hhdr
  have hx : CZIP.extract Z z name =
      if e.compression = kZIPCompressionDeflate then
        match inflateFile Z z.zipIOBufferSize s1 (CZIP.extendedInfoFor e).compressedSize with
        | (.error er, s2, dest) => (.error er, { z with zipFileStream := s2 }, some dest)
        | (.ok crc32, s2, dest) =>
          if crc32 ≠ e.crc32 then
            (.error .invalidCRC, { z with zipFileStream := s2 }, some dest)
          else (.ok true, { z with zipFileStream := s2 }, some dest)
      else if e.compression = kZIPCompressionStore then
        match extractFile Z z.zipIOBufferSize s1 (CZIP.extendedInfoFor e).originalSize with
        | (.error er, s2, dest) => (.error er, { z with zipFileStream := s2 }, some dest)
        | (.ok crc32, s2, dest) =>
          if crc32 ≠ e.crc32 then
            (.error .invalidCRC, { z with zipFileStream := s2 }, some dest)
          else (.ok true, { z with zipFileStream := s2 }, some dest)
      else
        (.error (.unsupportedCompression e.compression), { z with zipFileStream := s1 }, none) := by
    simp only [CZIP.extract, hopen, hfind, hg]
    rfl
  rw [hx]
  refine ⟨?_, rfl, rfl, ?_⟩
  · by_cases hd : e.compression = kZIPCompressionDeflate
    · simp only [hd, if_true]
      have hne : kZIPCompressionDeflate ≠ kZIPCompressionStore := by decide
      constructor
      · rintro ⟨err, he, hk⟩
        exfalso
        generalize hp : inflateFile Z z.zipIOBufferSize s1 (CZIP.extendedInfoFor e).compressedSize = p
            at he
        obtain ⟨r, s2, dest⟩ := p
        cases r with
        | error er =>
          simp only [Except.error.injEq] at he
          subst he
          exact (inflateFile_error Z _ _ _ er (by rw [hp])).1 hk
        | ok crc =>
          simp only at he
          split at he
          · simp only [Except.error.injEq] at he; subst he; simp [ZipError.kind] at hk
          · simp at he
      · intro ⟨_, h2⟩; exact absurd rfl h2
    · by_cases hs : e.compression = kZIPCompressionStore
      · simp only [hd, hs, if_true, if_false]
        constructor
        · rintro ⟨err, he, hk⟩
          exfalso
          simp only [show ¬ (kZIPCompressionStore = kZIPCompressionDeflate) by decide, if_false] at he
          generalize hp : extractFile Z z.zipIOBufferSize s1 (CZIP.extendedInfoFor e).originalSize = p
              at he
          obtain ⟨r, s2, dest⟩ := p
          cases r with
          | error er =>
            simp only [Except.error.injEq] at he
            subst he
            have := extractLoop_error Z z.zipIOBufferSize _ _ _ _ _ er
              (by unfold extractFile at hp; rw [hp])
            exact this.1 hk
          | ok crc =>
            simp only at he
            split at he
            · simp only [Except.error.injEq] at he; subst he; simp [ZipError.kind] at hk
            · simp at he
        · intro ⟨h1, _⟩; exact absurd rfl h1
      · simp only [hd, hs, if_false]
        constructor
        · intro _; exact ⟨hs, hd⟩
        · intro _; exact ⟨_, rfl, rfl⟩
  · intro hm
    by_cases hd : e.compression = kZIPCompressionDeflate
    · simp only [hd, if_true]
      generalize hp : inflateFile Z z.zipIOBufferSize s1 (CZIP.extendedInfoFor e).compressedSize = p
      obtain ⟨r, s2, dest⟩ := p
      cases r with
      | error er =>
        have hk := (inflateFile_error Z _ _ _ er (by rw [hp])).2
        constructor
        · constructor
          · rintro ⟨err, he, hk2⟩
            simp only [Except.error.injEq] at he
            subst he
            exact absurd hk2 hk
          · rintro ⟨crc, s3, d3, he, -⟩
            simp at he
        · constructor
          · intro he; simp at he
          · rintro ⟨crc, s3, d3, he, -⟩
            simp at he
      | ok crc =>
        by_cases hc : crc = e.crc32
        · simp [hc, ZipError.kind]
        · simp [hc, ZipError.kind]
    · have hs : e.compression = kZIPCompressionStore := by
        rcases hm with h1 | h1
        · exact h1
        · exact absurd h1 hd
      simp only [hs, show ¬ (kZIPCompressionStore = kZIPCompressionDeflate) by decide, if_true,
        if_false]
      generalize hp : extractFile Z z.zipIOBufferSize s1 (CZIP.extendedInfoFor e).originalSize = p
      obtain ⟨r, s2, dest⟩ := p
      cases r with
      | error er =>
        have hk := (extractLoop_error Z z.zipIOBufferSize _ _ _ _ _ er
              (by unfold extractFile at hp; rw [hp])).2
        constructor
        · constructor
          · rintro ⟨err, he, hk2⟩
            simp only [Except.error.injEq] at he
            subst he
            exact absurd hk2 hk
          · rintro ⟨crc, s3, d3, he, -⟩
            simp at he
        · constructor
          · intro he; simp at he
          · rintro ⟨crc, s3, d3, he, -⟩
            simp at he
      | ok crc =>
        by_cases hc : crc = e.crc32
        · simp [hc, ZipError.kind]
        · simp [hc, ZipError.kind]

theorem getZIPRecordLocal_error (s : ZipFileStream) (err : ZipError)
    (h : (getZIPRecordLocal s).1 = .error err) : err = .recordTruncated := by
  unfold getZIPRecordLocal at h
  simp only [] at h
  split at h
  · simp only [Except.error.injEq] at h
    exact h.symm
  · simp at h

theorem extract_of_unreadable_header (Z : ZLib) (z : CZIP) (name : Bytes)
    (e : CentralDirectoryFileHeader) (err : ZipError) (hopen : z.bOpen = true)
    (hfind : z.zipCentralDirectory.find? (fun d => d.fileNameStr == name) = some e)
    (hhdr : (getZIPRecordLocal
      (positionInZIPFile z.zipFileStream (CZIP.extendedInfoFor e).fileHeaderOffset)).1 =
        .error err) :
    CZIP.extract Z z name =
      (.error err, { z with zipFileStream := (getZIPRecordLocal
        (positionInZIPFile z.zipFileStream (CZIP.extendedInfoFor e).fileHeaderOffset)).2 },
        none) := by
  generalize hg : getZIPRecordLocal
      (positionInZIPFile z.zipFileStream (CZIP.extendedInfoFor e).fileHeaderOffset) = g at hhdr
  obtain ⟨g1, s1⟩ := g
  simp only at hhdr
  subst hhdr
  simp only [CZIP.extract, hopen, hfind, hg]
  rfl

theorem extract_destination (Z : ZLib) (z : CZIP) (name : Bytes)
    (e : CentralDirectoryFileHeader) (h : LocalFileHeader) (hopen : z.bOpen = true)
    (hfind : z.zipCentralDirectory.find? (fun d => d.fileNameStr == name) = some e)
    (hhdr : (getZIPRecordLocal
      (positionInZIPFile z.zipFileStream (CZIP.extendedInfoFor e).fileHeaderOffset)).1 = .ok h)
    (hm : e.compression = kZIPCompressionStore ∨ e.compression = kZIPCompressionDeflate)
    (r : Except ZipError Nat) (s2 : ZipFileStream) (dest : Bytes)
    (hp : (if e.compression = kZIPCompressionDeflate then
        inflateFile Z z.zipIOBufferSize
          (getZIPRecordLocal (positionInZIPFile z.zipFileStream
            (CZIP.extendedInfoFor e).fileHeaderOffset)).2 (CZIP.extendedInfoFor e).compressedSize
       else
        extractFile Z z.zipIOBufferSize
          (getZIPRecordLocal (positionInZIPFile z.zipFileStream
            (CZIP.extendedInfoFor e).fileHeaderOffset)).2 (CZIP.extendedInfoFor e).originalSize)
        = (r, s2, dest)) :
    (CZIP.extract Z z name).2.2 = some dest := by
  generalize hg : getZIPRecordLocal
      (positionInZIPFile z.zipFileStream (CZIP.extendedInfoFor e).fileHeaderOffset) = g
      at hhdr hp
  obtain ⟨g1, s1⟩ := g
  simp only at hhdr hp
  subst hhdr
  have hne : ¬ (kZIPCompressionStore = kZIPCompressionDeflate) := by decide
  by_cases hd : e.compression = kZIPCompressionDeflate
  · simp only [hd, if_true] at hp
    simp only [CZIP.extract, hopen, hfind, hg, hd, if_true, hp, Bool.not_true,
      Bool.false_eq_true, if_false]
    cases r with
    | error er => rfl
    | ok crc => simp only []; split <;> rfl
  · have hs : e.compression = kZIPCompressionStore := by
      rcases hm with h1 | h1
      · exact h1
      · exact absurd h1 hd
    simp only [hs, hne, if_false] at hp
    simp only [CZIP.extract, hopen, hfind, hg, hs, hne, if_false, if_true, hp, Bool.not_true,
      Bool.false_eq_true]
    cases r with
    | error er => rfl
    | ok crc => simp only []; split <;> rfl

/-- C3, as stated, fails: the archive file `foreignStream` is opened; its
one entry "f" names the compression method 99 and a local file header at
offset 1000, behind the end of the 69-byte file.  `extract("f")` fails on
re-reading the header, with a FormatError, not with UnsupportedCompression. -/
theorem extract_dispatch_counterexample :
    (CZIP.open { freshArchive with zipFileStream := foreignStream }).1 = .ok () ∧
    foreignArchive.bOpen = true ∧
    foreignArchive.zipCentralDirectory.map
      (fun e => (e.fileNameStr, e.compression, e.fileHeaderOffset)) = [(ascii "f", 99, 1000)] ∧
    foreignArchive.zipFileStream.size = 69 ∧
    (CZIP.extract toyZLib foreignArchive (ascii "f")).1 = .error .recordTruncated ∧
    ZipError.recordTruncated.kind = some .FormatError ∧
    ZipError.recordTruncated.kind ≠ some .UnsupportedCompression := by
  decide

/-- C3, amended: let `e` be the directory entry that `extract` finds by name
(the first one whose name matches).  If the local file header of `e` cannot
be re-read, `extract` fails with a FormatError whatever the compression
method is, and the destination is not touched.  If it can, `extract` fails
with UnsupportedCompression exactly when `e.compression` is neither store (0)
nor deflate (8); otherwise the copy pass runs (`inflateFile` over the
compressed size for deflate, `extractFile` over the original size for store),
and `extract` fails with ChecksumMismatch exactly when the pass returns a
CRC-32 different from the one stored in `e` and returns `true` exactly when
the pass returns a CRC-32 equal to it (a pass that itself fails is neither).
The CRC-32 the pass returns is computed over the bytes it has written to the
destination file: it is the running CRC-32 folded, from `crc32(0, NULL, 0)`,
over the pieces written, in order, hence the CRC-32 of the destination's
bytes when CRC-32 composes over concatenation, as zlib's does; for store
these bytes are the `originalSize` bytes that follow the local file header in
the archive, for deflate they are what the codec hands over on the bytes
read behind the local file header, fed to it in chunks of at most the buffer
size.  (The copy pass is that of the code for I/O buffers below 2^32
bytes: the lengths zlib is handed are 32 bits wide.) -/
theorem extract_dispatch (Z : ZLib) (z : CZIP) (name : Bytes) (e : CentralDirectoryFileHeader)
    (hopen : z.bOpen = true)
    (hfind : z.zipCentralDirectory.find? (fun d => d.fileNameStr == name) = some e) :
    (∀ err : ZipError,
      (getZIPRecordLocal
        (positionInZIPFile z.zipFileStream (CZIP.extendedInfoFor e).fileHeaderOffset)).1 =
          .error err →
      (CZIP.extract Z z name).1 = .error err ∧ (CZIP.extract Z z name).2.2 = none ∧
      err.kind = some .FormatError) ∧
    (∀ h : LocalFileHeader,
      (getZIPRecordLocal
        (positionInZIPFile z.zipFileStream (CZIP.extendedInfoFor e).fileHeaderOffset)).1 =
          .ok h →
      ((∃ err, (CZIP.extract Z z name).1 = .error err ∧
            err.kind = some .UnsupportedCompression) ↔
          (e.compression ≠ kZIPCompressionStore ∧ e.compression ≠ kZIPCompressionDeflate)) ∧
      kZIPCompressionStore = 0 ∧ kZIPCompressionDeflate = 8 ∧
      ((e.compression = kZIPCompressionStore ∨ e.compression = kZIPCompressionDeflate) →
        z.zipIOBufferSize < 2 ^ 32 →
        ((∃ err, (CZIP.extract Z z name).1 = .error err ∧ err.kind = some .ChecksumMismatch) ↔
          ∃ crc s2 dest,
            (if e.compression = kZIPCompressionDeflate then
              inflateFile Z z.zipIOBufferSize
                (getZIPRecordLocal (positionInZIPFile z.zipFileStream
                  (CZIP.extendedInfoFor e).fileHeaderOffset)).2
                (CZIP.extendedInfoFor e).compressedSize
             else
              extractFile Z z.zipIOBufferSize
                (getZIPRecordLocal (positionInZIPFile z.zipFileStream
                  (CZIP.extendedInfoFor e).fileHeaderOffset)).2
                (CZIP.extendedInfoFor e).originalSize)
              = (.ok crc, s2, dest) ∧ crc ≠ e.crc32) ∧
        ((CZIP.extract Z z name).1 = .ok true ↔
          ∃ crc s2 dest,
            (if e.compression = kZIPCompressionDeflate then
              inflateFile Z z.zipIOBufferSize
                (getZIPRecordLocal (positionInZIPFile z.zipFileStream
                  (CZIP.extendedInfoFor e).fileHeaderOffset)).2
                (CZIP.extendedInfoFor e).compressedSize
             else
              extractFile Z z.zipIOBufferSize
                (getZIPRecordLocal (positionInZIPFile z.zipFileStream
                  (CZIP.extendedInfoFor e).fileHeaderOffset)).2
                (CZIP.extendedInfoFor e).originalSize)
              = (.ok crc, s2, dest) ∧ crc = e.crc32) ∧
        (∀ (crc : Nat) (s2 : ZipFileStream) (dest : Bytes),
          (if e.compression = kZIPCompressionDeflate then
            inflateFile Z z.zipIOBufferSize
              (getZIPRecordLocal (positionInZIPFile z.zipFileStream
                (CZIP.extendedInfoFor e).fileHeaderOffset)).2
              (CZIP.extendedInfoFor e).compressedSize
           else
            extractFile Z z.zipIOBufferSize
              (getZIPRecordLocal (positionInZIPFile z.zipFileStream
                (CZIP.extendedInfoFor e).fileHeaderOffset)).2
              (CZIP.extendedInfoFor e).originalSize)
            = (.ok crc, s2, dest) →
          (CZIP.extract Z z name).2.2 = some dest ∧
          (∃ pieces : List Bytes, pieces.flatten = dest ∧
            crc = pieces.foldl Z.crc32 (Z.crc32 0 [])) ∧
          ((∀ (c : Nat) (x y : Bytes), Z.crc32 (Z.crc32 c x) y = Z.crc32 c (x ++ y)) →
            crc = Z.crc32 0 dest) ∧
          (e.compression = kZIPCompressionStore →
            dest = readBytes
              (getZIPRecordLocal (positionInZIPFile z.zipFileStream
                (CZIP.extendedInfoFor e).fileHeaderOffset)).2.data
              (getZIPRecordLocal (positionInZIPFile z.zipFileStream
                (CZIP.extendedInfoFor e).fileHeaderOffset)).2.pos
              (CZIP.extendedInfoFor e).originalSize) ∧
          (e.compression = kZIPCompressionDeflate →
            ∃ chunks : List Bytes,
              chunks.flatten = readBytes
                (getZIPRecordLocal (positionInZIPFile z.zipFileStream
                  (CZIP.extendedInfoFor e).fileHeaderOffset)).2.data
                (getZIPRecordLocal (positionInZIPFile z.zipFileStream
                  (CZIP.extendedInfoFor e).fileHeaderOffset)).2.pos
                chunks.flatten.length ∧
              (∀ chunk ∈ chunks, chunk.length ≤ z.zipIOBufferSize) ∧
              dest = inflateOutput Z Z.inflateInit2.2 chunks)))) := by
  constructor
  · intro err herr
    have hk := getZIPRecordLocal_error _ err herr
    rw [extract_of_unreadable_header Z z name e err hopen hfind herr]
    exact ⟨rfl, rfl, by rw [hk]; rfl⟩
  · intro h hhdr
    obtain ⟨a1, a2, a3, a4⟩ := extract_of_readable_header Z z name e h hopen hfind hhdr
    refine ⟨a1, a2, a3, fun hm _ => ⟨(a4 hm).1, (a4 hm).2, ?_⟩⟩
    intro crc s2 dest hp
    have hdest := extract_destination Z z name e h hopen hfind hhdr hm (.ok crc) s2 dest hp
    have hne : ¬ (kZIPCompressionStore = kZIPCompressionDeflate) := by decide
    by_cases hd : e.compression = kZIPCompressionDeflate
    · simp only [hd, if_true] at hp
      obtain ⟨pieces, p1, p2⟩ := inflateFile_of_ok Z _ _ _ _ _ _ hp
      obtain ⟨chunks, q1, -, q3, q4⟩ := inflateFile_output Z _ _ _ _ _ _ hp
      refine ⟨hdest, ⟨pieces, p1, p2⟩, ?_, ?_, fun _ => ⟨chunks, q1, q3, q4⟩⟩
      · intro hcrc
        rw [p2, foldl_crc32_of_law Z hcrc, p1]
      · intro hs
        rw [hd] at hs
        exact absurd hs.symm hne
    · simp only [hd, if_false] at hp
      obtain ⟨pieces, p1, p2, p3⟩ := extractFile_of_ok Z _ _ _ _ _ _ hp
      refine ⟨hdest, ⟨pieces, p1, p2⟩, ?_, fun _ => p3, fun h8 => absurd h8 hd⟩
      intro hcrc
      rw [p2, foldl_crc32_of_law Z hcrc, p1]

/-- Witness for C3 (amended), on the archive that holds `a.txt` (deflated)
and `b.txt` (stored): both are extracted with `true`, the destination of
`b.txt` holding the three bytes behind its local file header, whose CRC-32 is
the one returned; with a wrong CRC-32 in the directory both extractions fail
with ChecksumMismatch, and with method 99 in the directory `extract` fails
with UnsupportedCompression. -/
theorem extract_dispatch_witness :
    twoFileArchive.bOpen = true ∧
    twoFileArchive.zipCentralDirectory.map
      (fun e => (e.fileNameStr, e.compression, e.crc32)) =
      [(ascii "a.txt", 8, toyZLib.crc32 0 [0, 0, 0, 0, 0, 0]),
       (ascii "b.txt", 0, toyZLib.crc32 0 [1, 2, 3])] ∧
    (CZIP.extract toyZLib twoFileArchive (ascii "a.txt")).1 = .ok true ∧
    (CZIP.extract toyZLib twoFileArchive (ascii "a.txt")).2.2 = some [0, 0, 0, 0, 0, 0] ∧
    (CZIP.extract toyZLib twoFileArchive (ascii "b.txt")).1 = .ok true ∧
    (CZIP.extract toyZLib twoFileArchive (ascii "b.txt")).2.2 = some [1, 2, 3] ∧
    (CZIP.extract toyZLib (withWrongCRC twoFileArchive) (ascii "a.txt")).1 =
      .error .invalidCRC ∧
    (CZIP.extract toyZLib (withWrongCRC twoFileArchive) (ascii "b.txt")).1 =
      .error .invalidCRC ∧
    (CZIP.extract toyZLib (withMethod99 twoFileArchive) (ascii "a.txt")).1 =
      .error (.unsupportedCompression 99) :=
  ⟨by decide, by decide,
    ((((extract_dispatch toyZLib twoFileArchive (ascii "a.txt") _ (by decide) rfl).2 _
      rfl).2.2.2 (Or.inr (by decide)) (by decide)).2.1).mpr ⟨_, _, _, rfl, by decide⟩,
    by decide,
    ((((extract_dispatch toyZLib twoFileArchive (ascii "b.txt") _ (by decide) rfl).2 _
      rfl).2.2.2 (Or.inl (by decide)) (by decide)).2.1).mpr ⟨_, _, _, rfl, by decide⟩,
    by decide, by decide, by decide, by decide⟩

/-! ## A deflate pass with an empty buffer -/

theorem deflateInner_empty_buffer (fuel : Nat) :
    ∀ (out : Bytes) (s : ZipFileStream) (c : Nat), s.fail = false →
      (deflateInner 0 fuel out s c).1 = .error .hang := by
  induction fuel with
  | zero => intro out s c _; rfl
  | succ n ih =>
    intro out s c hs
    unfold deflateInner
    simp only [List.take_zero, List.drop_zero, writeZIPFile, if_true, errorInZIPFile, hs,
      Bool.false_eq_true, if_false, List.length_nil]
    exact ih out s _ hs

theorem deflateLoop_empty_buffer (Z : ZLib) (fuel : Nat) (st : Z.DState) (src : Bytes)
    (fileSize crc c : Nat) (s : ZipFileStream) (hs : s.fail = false) :
    (deflateLoop Z 0 fuel st src fileSize crc c s).1 = .error .hang := by
  cases fuel with
  | zero => rfl
  | succ n =>
    unfold deflateLoop
    simp only []
    have h := deflateInner_empty_buffer
      ((Z.deflate st (List.take (min fileSize 0) src)
        (decide (src.length < min fileSize 0) ||
          decide (fileSize - (List.take (min fileSize 0) src).length = 0))).2.1.length + 1)
      (Z.deflate st (List.take (min fileSize 0) src)
        (decide (src.length < min fileSize 0) ||
          decide (fileSize - (List.take (min fileSize 0) src).length = 0))).2.1 s c hs
    split
    · rename_i heq
      rw [heq] at h
      simp only [Except.error.injEq] at h
      rw [h]
    · rename_i heq
      rw [heq] at h
      simp at h

/-- C6, as stated, fails: on the empty Open archive, whose directory has no
entry, `add("x.txt", "a.txt")` of the existing six-byte file `x.txt` does not
return `true` when zlib's `deflateInit2` reports an error (the exception
"deflateInit2() Error" is thrown), nor when the I/O buffer size has been set
to 0 (the inner loop of the deflate pass never ends, whatever the codec: no
call of it can leave `avail_out` different from 0); the directory stays
empty. -/
theorem add_appends_one_entry_counterexample :
    emptyArchive.bOpen = true ∧ emptyArchive.zipCentralDirectory = [] ∧
    (fileExists toyFS (ascii "x.txt")) = .ok true ∧
    CZIP.add noMemoryZLib toyFS emptyArchive (ascii "x.txt") (ascii "a.txt") =
      (.error (.deflateInit2Error Z_MEM_ERROR),
        { emptyArchive with
          zipFileStream := putZIPRecordLocal (positionInZIPFile emptyArchive.zipFileStream 0)
            (initialFileHeader (entryFor 0
              { st_mode := 0o100644, st_size := 6, mtime := toyTm,
                content := [0, 0, 0, 0, 0, 0] } (ascii "a.txt"))) }) ∧
    (CZIP.add noMemoryZLib toyFS emptyArchive (ascii "x.txt")
      (ascii "a.txt")).2.zipCentralDirectory = [] ∧
    (CZIP.setZIPBufferSize emptyArchive 0).bOpen = true ∧
    (CZIP.add toyZLib toyFS (CZIP.setZIPBufferSize emptyArchive 0) (ascii "x.txt")
      (ascii "a.txt")).1 = .error .hang ∧
    (CZIP.add toyZLib toyFS (CZIP.setZIPBufferSize emptyArchive 0) (ascii "x.txt")
      (ascii "a.txt")).2.zipCentralDirectory = [] := by
  refine ⟨by decide, by decide, by decide, ?_, by decide, by decide, by decide, by decide⟩
  rfl

theorem add_not_true (Z : ZLib) (fs : HostFS) (z : CZIP) (src name : Bytes)
    (h : (CZIP.add Z fs z src name).1 ≠ .ok true) :
    (CZIP.add Z fs z src name).2.zipCentralDirectory = z.zipCentralDirectory ∧
    (CZIP.add Z fs z src name).2.bOpen = z.bOpen := by
  unfold CZIP.add at h ⊢
  split
  · exact ⟨rfl, rfl⟩
  · split
    · exact ⟨rfl, rfl⟩
    · cases hfs : fs src with
      | none => simp [fileExists, hfs]
      | some f =>
        simp only [fileExists, hfs] at h ⊢
        cases hr : addFileHeaderAndContents Z fs z src name with
        | mk r1 z1 =>
          cases r1 with
          | error e => exact addFileHeaderAndContents_error Z fs z z1 src name e hr
          | ok u =>
            rw [if_neg (by assumption), if_neg (by assumption), hr] at h
            exact absurd rfl h

theorem add_empty_buffer (Z : ZLib) (fs : HostFS) (z : CZIP) (src name : Bytes) (f : HostFile)
    (hopen : z.bOpen = true) (hnew : ∀ e ∈ z.zipCentralDirectory, e.fileNameStr ≠ name)
    (hf : fs src = some f) (hbuf : z.zipIOBufferSize = 0) (hsize : statFileSize f ≠ 0)
    (hfail : z.zipFileStream.fail = false) (hinit : Z.deflateInit2.1 = Z_OK) :
    (CZIP.add Z fs z src name).1 = .error .hang := by
  rw [add_of_new_name Z fs z src name f hopen hnew hf]
  unfold addFileHeaderAndContents
  simp only [getFileSize, getFileModificationDateTime, getFileAttributes, hf, ne_eq, hsize,
    not_false_eq_true, if_true, hbuf]
  have h := deflateLoop_empty_buffer Z (statFileSize f + 1) Z.deflateInit2.2 f.content
    (statFileSize f) (Z.crc32 0 []) 0
    (putZIPRecordLocal (positionInZIPFile z.zipFileStream z.offsetToEndOfLocalFileHeaders)
      (initialFileHeader (initialDirectoryEntry z.offsetToEndOfLocalFileHeaders
        (statFileSize f) (dosDateTime f.mtime) (unixAttributes f.st_mode) name)))
    (by rw [putZIPRecordLocal_fail]; exact hfail)
  simp only [deflateFile, hf, hinit, ne_eq, not_true_eq_false, if_false]
  split
  · rename_i heq
    split at heq
    · rename_i hd
      rw [hd] at h
      simp only [Prod.mk.injEq, Except.error.injEq] at heq
      simp only [Except.error.injEq] at h
      rw [← heq.1, h]
    · rename_i hd
      rw [hd] at h
      simp at h
  · rename_i heq
    split at heq
    · simp at heq
    · rename_i hd
      rw [hd] at h
      simp at h

theorem add_init_fails (Z : ZLib) (fs : HostFS) (z : CZIP) (src name : Bytes) (f : HostFile)
    (hopen : z.bOpen = true) (hnew : ∀ e ∈ z.zipCentralDirectory, e.fileNameStr ≠ name)
    (hf : fs src = some f) (hsize : statFileSize f ≠ 0) (hinit : Z.deflateInit2.1 ≠ Z_OK) :
    (CZIP.add Z fs z src name).1 = .error (.deflateInit2Error Z.deflateInit2.1) := by
  rw [add_of_new_name Z fs z src name f hopen hnew hf]
  unfold addFileHeaderAndContents
  simp only [getFileSize, getFileModificationDateTime, getFileAttributes, hf, ne_eq, hsize,
    not_false_eq_true, if_true, deflateFile, hinit]

/-- C6, amended: on an Open archive, an `add` whose `archiveName` matches no
entry and whose source exists returns `true` when the archive stream is not
in its error state, the I/O buffer size is at least 1 and below 2^32 (the
width of zlib's `avail_out`), zlib's `deflateInit2` reports `Z_OK`, and the
source delivers the number of bytes `lstat64` reports (a source that
`lstat64` sees delivers its bytes when opened).  It throws when
`deflateInit2` reports an error on a non-empty source, and it never returns
when the buffer size is 0 and the source is not empty.  Whenever `add`
returns `true`, the archive was Open, the name was new, the source exists,
exactly one entry has been appended at the end of the directory (every
earlier entry keeps its place), the modified flag is set, and the new entry
carries the archive name (with '/' appended for a directory).  Whenever
`add` does not return `true`, the directory is unchanged.  Whatever `add`
calls follow one another, the directory only grows at its end, so it is
always in the order of the `add()` calls that returned `true`. -/
theorem add_appends_one_entry (Z : ZLib) (fs : HostFS) (z : CZIP) (src name : Bytes) :
    (∀ f : HostFile, z.bOpen = true →
      (∀ e ∈ z.zipCentralDirectory, e.fileNameStr ≠ name) → fs src = some f →
      0 < z.zipIOBufferSize → z.zipIOBufferSize < 2 ^ 32 → z.zipFileStream.fail = false →
      Z.deflateInit2.1 = Z_OK → statFileSize f ≤ f.content.length →
      (CZIP.add Z fs z src name).1 = .ok true) ∧
    (∀ f : HostFile, z.bOpen = true →
      (∀ e ∈ z.zipCentralDirectory, e.fileNameStr ≠ name) → fs src = some f →
      statFileSize f ≠ 0 → Z.deflateInit2.1 ≠ Z_OK →
      (CZIP.add Z fs z src name).1 = .error (.deflateInit2Error Z.deflateInit2.1)) ∧
    (∀ f : HostFile, z.bOpen = true →
      (∀ e ∈ z.zipCentralDirectory, e.fileNameStr ≠ name) → fs src = some f →
      statFileSize f ≠ 0 → z.zipIOBufferSize = 0 → z.zipFileStream.fail = false →
      Z.deflateInit2.1 = Z_OK →
      (CZIP.add Z fs z src name).1 = .error .hang) ∧
    (∀ z1 : CZIP, CZIP.add Z fs z src name = (.ok true, z1) →
      z.bOpen = true ∧ (∀ e ∈ z.zipCentralDirectory, e.fileNameStr ≠ name) ∧
      ∃ (f : HostFile) (de : CentralDirectoryFileHeader), fs src = some f ∧
        z1.zipCentralDirectory = z.zipCentralDirectory ++ [de] ∧
        z1.bModified = true ∧ z1.bOpen = true ∧
        de.fileNameStr =
          (if S_ISDIR f.st_mode && decide (name.getLast? ≠ some 47) then name ++ [47]
           else name)) ∧
    ((CZIP.add Z fs z src name).1 ≠ .ok true →
      (CZIP.add Z fs z src name).2.zipCentralDirectory = z.zipCentralDirectory ∧
      (CZIP.add Z fs z src name).2.bOpen = z.bOpen) ∧
    (∀ calls : List (Bytes × Bytes), ∃ t,
      (CZIP.addAll Z fs z calls).zipCentralDirectory = z.zipCentralDirectory ++ t) := by
  refine ⟨?_, ?_, ?_, ?_, add_not_true Z fs z src name, fun calls => addAll_directory Z fs calls z⟩
  · intro f hopen hnew hf hbuf _ hfail hinit hread
    obtain ⟨z1, h1⟩ := addFileHeaderAndContents_returns Z fs z src name f hf hbuf hfail hinit hread
    rw [add_of_new_name Z fs z src name f hopen hnew hf, h1]
  · intro f hopen hnew hf hsize hinit
    exact add_init_fails Z fs z src name f hopen hnew hf hsize hinit
  · intro f hopen hnew hf hsize hbuf hfail hinit
    exact add_empty_buffer Z fs z src name f hopen hnew hf hbuf hsize hfail hinit
  · intro z1 h
    obtain ⟨hopen, hnew, f, hf, h1⟩ := add_ok_inv Z fs z z1 src name h
    obtain ⟨ho, hm, -, -, de, hd, hn, -⟩ := addFileHeaderAndContents_ok Z fs z z1 src name f hf h1
    exact ⟨hopen, hnew, f, de, hf, hd, hm, ho.trans hopen, by rw [hn, entryFor_fileNameStr]⟩

/-- Witness for C6 (amended): `x.txt` is added to the empty archive and
`add` returns `true`; with a codec that cannot initialise the same call
throws and leaves the directory empty; `x.txt` (deflated), `y.txt` (stored)
and the directory `dir` are added to the empty archive in this order. -/
theorem add_appends_one_entry_witness :
    (CZIP.add toyZLib toyFS emptyArchive (ascii "x.txt") (ascii "a.txt")).1 = .ok true ∧
    (CZIP.add toyZLib toyFS emptyArchive (ascii "x.txt")
      (ascii "a.txt")).2.zipCentralDirectory.map (fun e => e.fileNameStr) = [ascii "a.txt"] ∧
    (CZIP.add noMemoryZLib toyFS emptyArchive (ascii "x.txt")
      (ascii "a.txt")).2.zipCentralDirectory = emptyArchive.zipCentralDirectory ∧
    (CZIP.addAll toyZLib toyFS emptyArchive
      [(ascii "x.txt", ascii "a.txt"), (ascii "y.txt", ascii "b.txt"),
        (ascii "dir", ascii "c")]).zipCentralDirectory.map (fun e => e.fileNameStr) =
      [ascii "a.txt", ascii "b.txt", ascii "c/"] :=
  ⟨(add_appends_one_entry toyZLib toyFS emptyArchive (ascii "x.txt") (ascii "a.txt")).1
      { st_mode := 0o100644, st_size := 6, mtime := toyTm, content := [0, 0, 0, 0, 0, 0] }
      rfl (by decide) (by decide) (by decide) (by decide) rfl rfl (by decide),
    by decide,
    ((add_appends_one_entry noMemoryZLib toyFS emptyArchive (ascii "x.txt")
      (ascii "a.txt")).2.2.2.2.1 (by decide)).1,
    by decide⟩

/-- C7, as stated, fails: `create()` on the fresh (Closed) object succeeds
and leaves it Closed, so that the `add` that follows fails with InvalidState
and the `open` that follows does not. -/
theorem create_leaves_open_counterexample :
    (CZIP.create freshArchive).1 = .ok () ∧
    (CZIP.create freshArchive).2.bOpen = false ∧
    (CZIP.add toyZLib toyFS (CZIP.create freshArchive).2 (ascii "x.txt") (ascii "a.txt")).1
      = .error .notOpened ∧
    (CZIP.contents (CZIP.create freshArchive).2).1 = .error .notOpened ∧
    (CZIP.close (CZIP.create freshArchive).2).1 = .error .notOpened ∧
    (CZIP.open (CZIP.create freshArchive).2).1 = .ok () := by
  decide

/-- C7, amended: `create()` on a Closed archive succeeds, writes the 22 bytes
of an empty End-Of-Central-Directory record to a truncated backing file,
releases the file and leaves the object Closed with its in-memory directory,
flags and offset untouched.  An `add`, `extract`, `contents` or `close` that
follows fails with InvalidState; a `create` that follows succeeds again; an
`open` that follows succeeds and leaves the archive Open, at offset 0, with
the in-memory directory the object already held: `open` reads no entry from
the new file and clears nothing.  That directory is empty on an object that
was last closed by `close()`, and need not be empty otherwise (an `open()`
that failed half-way leaves the entries it had read). -/
theorem create_keeps_archive_closed (z : CZIP) (hclosed : z.bOpen = false) :
    CZIP.create z = (.ok (), { z with zipFileStream := createdStream }) ∧
    createdStream.size = 22 ∧
    readBytes createdStream.data 0 22 = EOCentralDirectoryRecord.default.encode ∧
    (∀ (Z : ZLib) (fs : HostFS) (a b : Bytes),
      CZIP.add Z fs (CZIP.create z).2 a b = (.error .notOpened, (CZIP.create z).2) ∧
      CZIP.extract Z (CZIP.create z).2 a = (.error .notOpened, (CZIP.create z).2, none)) ∧
    CZIP.contents (CZIP.create z).2 = (.error .notOpened, (CZIP.create z).2) ∧
    CZIP.close (CZIP.create z).2 = (.error .notOpened, (CZIP.create z).2) ∧
    ZipError.notOpened.kind = some .InvalidState ∧
    CZIP.create (CZIP.create z).2 = (.ok (), { z with zipFileStream := createdStream }) ∧
    CZIP.open (CZIP.create z).2 =
      (.ok (), { z with zipFileStream := { createdStream with gcount := 22 },
                        offsetToEndOfLocalFileHeaders := 0, bOpen := true }) ∧
    (CZIP.open (CZIP.create z).2).2.bOpen = true ∧
    (CZIP.open (CZIP.create z).2).2.zipCentralDirectory = z.zipCentralDirectory ∧
    ((CZIP.open (CZIP.create z).2).2.zipCentralDirectory = [] ↔ z.zipCentralDirectory = []) ∧
    (∃ l, (CZIP.contents (CZIP.open (CZIP.create z).2).2).1 = .ok l ∧
      l.length = z.zipCentralDirectory.length) ∧
    (∀ z0 : CZIP, z0.bOpen = true →
      (CZIP.close z0).1 = .ok () ∧ (CZIP.close z0).2.bOpen = false ∧
      (CZIP.close z0).2.zipCentralDirectory = []) := by
  have hc := create_of_closed z hclosed
  have hc2 : (CZIP.create z).2.bOpen = false := by rw [hc]; exact hclosed
  have ho : CZIP.open (CZIP.create z).2 =
      (.ok (), { z with zipFileStream := { createdStream with gcount := 22 },
                        offsetToEndOfLocalFileHeaders := 0, bOpen := true }) := by
    rw [hc]
    exact open_of_created z hclosed
  refine ⟨hc, rfl, rfl, fun Z fs a b => ⟨?_, ?_⟩, ?_, ?_, rfl, ?_, ho, ?_, ?_, ?_, ?_, ?_⟩
  · simp [CZIP.add, hc2]
  · simp [CZIP.extract, hc2]
  · simp [CZIP.contents, hc2]
  · simp [CZIP.close, hc2]
  · rw [hc]
    exact create_of_closed _ hclosed
  · rw [ho]
  · rw [ho]
  · rw [ho]
  · rw [ho]
    exact ⟨z.zipCentralDirectory.map CZIP.fileDetail,
      by simp only [CZIP.contents, Bool.not_true, Bool.false_eq_true, if_false],
      List.length_map _ _⟩
  · intro z0 h0
    simp [CZIP.close, h0]

/-- Witness for C7 (amended): the fresh object, whose directory is empty, and
the object left by an `open()` that failed after reading one entry: after
`create()` and `open()` this object is Open on an empty archive file and
still lists the entry `f`. -/
theorem create_keeps_archive_closed_witness :
    freshArchive.bOpen = false ∧
    CZIP.create freshArchive = (.ok (), { freshArchive with zipFileStream := createdStream }) ∧
    (CZIP.open (CZIP.create freshArchive).2).2.bOpen = true ∧
    (CZIP.open (CZIP.create freshArchive).2).2.zipCentralDirectory = [] ∧
    (CZIP.open { freshArchive with zipFileStream := forgedStream }).1 =
      .error .recordTruncated ∧
    staleArchive.bOpen = false ∧
    (CZIP.create staleArchive).1 = .ok () ∧
    (CZIP.open (CZIP.create staleArchive).2).1 = .ok () ∧
    (CZIP.open (CZIP.create staleArchive).2).2.bOpen = true ∧
    (CZIP.open (CZIP.create staleArchive).2).2.zipFileStream.size = 22 ∧
    (CZIP.open (CZIP.create staleArchive).2).2.zipCentralDirectory.map
      (fun e => e.fileNameStr) = [ascii "f"] :=
  ⟨rfl, (create_keeps_archive_closed freshArchive rfl).1, rfl, rfl, by decide, by decide,
    by rw [(create_keeps_archive_closed staleArchive (by decide)).1],
    by rw [(create_keeps_archive_closed staleArchive (by decide)).2.2.2.2.2.2.2.2.1],
    (create_keeps_archive_closed staleArchive (by decide)).2.2.2.2.2.2.2.2.2.1,
    by rw [(create_keeps_archive_closed staleArchive (by decide)).2.2.2.2.2.2.2.2.1]; rfl,
    by rw [(create_keeps_archive_closed staleArchive (by decide)).2.2.2.2.2.2.2.2.2.2.1];
       decide⟩

/-! ## An entry whose size is exactly the sentinel -/

theorem contentsAt_plain (z : CZIP) : CZIP.contentsAt plainCalendar z = CZIP.contents z := by
  unfold CZIP.contentsAt CZIP.contents
  split
  · rfl
  · have h : CZIP.fileDetailAt plainCalendar = CZIP.fileDetail := by
      funext e
      unfold CZIP.fileDetailAt CZIP.fileDetail
      split <;> rfl
    rw [h]

/-- C16, as stated, fails: `contents()` is not a pure projection.  The
archive holds `a.txt` and `b.txt`, both last modified on 2017-06-04 at 03:20;
a call made while the clock is on standard time (`tm_isdst` 0) reports the
hour 4 for both, a call made on the same object, in the same time zone, while
the clock is on daylight saving time reports the hour 3: the two lists
differ. -/
theorem contents_is_projection_counterexample :
    twoFileArchive.bOpen = true ∧
    winterCalendar.mktime = summerCalendar.mktime ∧
    (CZIP.contentsAt winterCalendar twoFileArchive).2 = twoFileArchive ∧
    (CZIP.contentsAt winterCalendar twoFileArchive).1 =
      .ok (twoFileArchive.zipCentralDirectory.map (CZIP.fileDetailAt winterCalendar)) ∧
    (CZIP.contentsAt summerCalendar twoFileArchive).1 =
      .ok (twoFileArchive.zipCentralDirectory.map (CZIP.fileDetailAt summerCalendar)) ∧
    (twoFileArchive.zipCentralDirectory.map (CZIP.fileDetailAt winterCalendar)).map
      (fun d => (d.fileNameStr, d.modificationDateTime.tm_hour)) =
      [(ascii "a.txt", 4), (ascii "b.txt", 4)] ∧
    (twoFileArchive.zipCentralDirectory.map (CZIP.fileDetailAt summerCalendar)).map
      (fun d => (d.fileNameStr, d.modificationDateTime.tm_hour)) =
      [(ascii "a.txt", 3), (ascii "b.txt", 3)] ∧
    (CZIP.contentsAt winterCalendar twoFileArchive).1 ≠
      (CZIP.contentsAt summerCalendar (CZIP.contentsAt winterCalendar twoFileArchive).2).1 := by
  refine ⟨by decide, rfl, rfl, rfl, rfl, by decide, by decide, ?_⟩
  intro h
  have h2 : (twoFileArchive.zipCentralDirectory.map (CZIP.fileDetailAt winterCalendar)).map
      (fun d => d.modificationDateTime.tm_hour) =
      (twoFileArchive.zipCentralDirectory.map (CZIP.fileDetailAt summerCalendar)).map
      (fun d => d.modificationDateTime.tm_hour) := by
    have h3 : (CZIP.contentsAt winterCalendar twoFileArchive).1 =
        .ok (twoFileArchive.zipCentralDirectory.map (CZIP.fileDetailAt winterCalendar)) := rfl
    have h4 : (CZIP.contentsAt summerCalendar
        (CZIP.contentsAt winterCalendar twoFileArchive).2).1 =
        .ok (twoFileArchive.zipCentralDirectory.map (CZIP.fileDetailAt summerCalendar)) := rfl
    rw [h3, h4] at h
    injection h with h
    rw [h]
  revert h2
  decide

/-- C16, amended: on an Open archive `contents()`, called in any environment
`c` (time zone and clock), returns one `FileDetail` for each directory entry,
in directory order; name, comment, compression method, external attributes,
creator version and extra field are the entry's.  The object is left exactly
as it was (directory, flags, end-of-local-headers offset, buffer size and
archive stream).  It is not a pure projection: the modification time of each
`FileDetail` is the entry's DOS date and time as `mktime` normalises them
under the daylight-saving flag that `localtime` reports for the current
time.  A second call in the same environment returns the same list; a call
in another environment returns a list of the same length that differs from
it at most in the modification times. -/
theorem contents_is_projection (c : Calendar) (z : CZIP) (hopen : z.bOpen = true) :
    ∃ l : List FileDetail,
      CZIP.contentsAt c z = (.ok l, z) ∧ l.length = z.zipCentralDirectory.length ∧
      (∀ (i : Nat) (h1 : i < l.length) (h2 : i < z.zipCentralDirectory.length),
        l[i].fileNameStr = z.zipCentralDirectory[i].fileNameStr ∧
        l[i].fileCommentStr = z.zipCentralDirectory[i].fileCommentStr ∧
        l[i].compression = z.zipCentralDirectory[i].compression ∧
        l[i].externalFileAttrib = z.zipCentralDirectory[i].externalFileAttrib ∧
        l[i].creatorVersion = z.zipCentralDirectory[i].creatorVersion ∧
        l[i].extraField = z.zipCentralDirectory[i].extraField ∧
        l[i].modificationDateTime =
          c.mktime c.tm_isdst
            (convertModificationDateTime z.zipCentralDirectory[i].modificationDate
              z.zipCentralDirectory[i].modificationTime)) ∧
      CZIP.contentsAt c (CZIP.contentsAt c z).2 = CZIP.contentsAt c z ∧
      (∀ c2 : Calendar, ∃ l2 : List FileDetail,
        CZIP.contentsAt c2 (CZIP.contentsAt c z).2 = (.ok l2, z) ∧ l2.length = l.length ∧
        (∀ (i : Nat) (h1 : i < l.length) (h2 : i < l2.length),
          { l2[i] with modificationDateTime := l[i].modificationDateTime } = l[i]) ∧
        (c2.tm_isdst = c.tm_isdst → c2.mktime = c.mktime → l2 = l)) := by
  have hc : ∀ c2 : Calendar, CZIP.contentsAt c2 z =
      (.ok (z.zipCentralDirectory.map (CZIP.fileDetailAt c2)), z) := by
    intro c2
    simp [CZIP.contentsAt, hopen]
  refine ⟨z.zipCentralDirectory.map (CZIP.fileDetailAt c), hc c, by simp, ?_, ?_, ?_⟩
  · intro i h1 h2
    simp only [List.getElem_map]
    unfold CZIP.fileDetailAt CZIP.fileDetail convertModificationDateTimeAt
    split <;> exact ⟨rfl, rfl, rfl, rfl, rfl, rfl, rfl⟩
  · rw [hc c]
    exact hc c
  · intro c2
    refine ⟨z.zipCentralDirectory.map (CZIP.fileDetailAt c2), by rw [hc c]; exact hc c2,
      by simp, ?_, ?_⟩
    · intro i h1 h2
      simp only [List.getElem_map]
      rfl
    · intro h1 h2
      have : c2 = c := by
        cases c2; cases c
        simp only at h1 h2
        subst h1; subst h2
        rfl
      rw [this]

/-- Witness for C16 (amended): the archive that holds `big` and `a.txt`,
listed while the clock is on standard time. -/
theorem contents_is_projection_witness :
    bigSmallArchive.bOpen = true ∧
    ∃ l : List FileDetail,
      CZIP.contentsAt winterCalendar bigSmallArchive = (.ok l, bigSmallArchive) ∧
      l.length = 2 ∧
      l.map (fun d => (d.fileNameStr, d.modificationDateTime.tm_hour)) =
        [(ascii "big", 4), (ascii "a.txt", 4)] := by
  obtain ⟨l, h1, h2, -, -⟩ := contents_is_projection winterCalendar bigSmallArchive (by decide)
  refine ⟨by decide, l, h1, h2.trans (by decide), ?_⟩
  have h3 : (CZIP.contentsAt winterCalendar bigSmallArchive).1 = .ok l := by rw [h1]
  have h4 : (CZIP.contentsAt winterCalendar bigSmallArchive).1 =
      .ok (bigSmallArchive.zipCentralDirectory.map (CZIP.fileDetailAt winterCalendar)) := rfl
  rw [h4] at h3
  injection h3 with h3
  rw [← h3]
  decide

/-! ## A codec error on any pass of the inflate loop -/

end Antik.ZIP

/-! # Base64: lemmas and claims -/

namespace Antik.SMTP

/-! ## Base64: bit fields of a byte and of a 6-bit value -/

theorem byte_bits : ∀ x : Nat, x < 256 →
    (x &&& 0xfc) >>> 2 = x / 4 ∧ (x &&& 0x03) <<< 4 = x % 4 * 16 ∧
    (x &&& 0xf0) >>> 4 = x / 16 ∧ (x &&& 0x0f) <<< 2 = x % 16 * 4 ∧
    (x &&& 0xc0) >>> 6 = x / 64 ∧ x &&& 0x3f = x % 64 := by
  decide

theorem sextet_bits : ∀ y : Nat, y < 64 →
    y <<< 2 = y * 4 ∧ (y &&& 0x30) >>> 4 = y / 16 ∧ (y &&& 0xf) <<< 4 = y % 16 * 16 ∧
    (y &&& 0x3c) >>> 2 = y / 4 ∧ (y &&& 0x3) <<< 6 = y % 4 * 64 := by
  decide

theorem kCB64At_eq : ∀ v : Nat, v < 64 →
    kCB64At v = base64Char v ∧ base64Char v ≠ 61 ∧ base64Char v < 256 ∧
    decodeChar (base64Char v) = v := by
  decide


/-! ## Base64: one group -/

theorem encode_group (a b c : Nat) (ha : a < 256) (hb : b < 256) (hc : c < 256) :
    [kCB64At ((a &&& 0xfc) >>> 2), kCB64At (((a &&& 0x03) <<< 4) + ((b &&& 0xf0) >>> 4)),
      kCB64At (((b &&& 0x0f) <<< 2) + ((c &&& 0xc0) >>> 6)), kCB64At (c &&& 0x3f)] =
    [base64Char ((a * 65536 + b * 256 + c) / 262144 % 64),
      base64Char ((a * 65536 + b * 256 + c) / 4096 % 64),
      base64Char ((a * 65536 + b * 256 + c) / 64 % 64),
      base64Char ((a * 65536 + b * 256 + c) % 64)] := by
  obtain ⟨a1, a2, -, -, -, -⟩ := byte_bits a ha
  obtain ⟨-, -, b3, b4, -, -⟩ := byte_bits b hb
  obtain ⟨-, -, -, -, c5, c6⟩ := byte_bits c hc
  rw [a1, a2, b3, b4, c5, c6]
  have e1 : a / 4 = (a * 65536 + b * 256 + c) / 262144 % 64 := by omega
  have e2 : a % 4 * 16 + b / 16 = (a * 65536 + b * 256 + c) / 4096 % 64 := by omega
  have e3 : b % 16 * 4 + c / 64 = (a * 65536 + b * 256 + c) / 64 % 64 := by omega
  have e4 : c % 64 = (a * 65536 + b * 256 + c) % 64 := by omega
  rw [e1, e2, e3, e4]
  rw [(kCB64At_eq _ (Nat.mod_lt _ (by norm_num))).1, (kCB64At_eq _ (Nat.mod_lt _ (by norm_num))).1,
    (kCB64At_eq _ (Nat.mod_lt _ (by norm_num))).1, (kCB64At_eq _ (Nat.mod_lt _ (by norm_num))).1]

theorem encode_tail_one (a : Nat) (ha : a < 256) :
    [kCB64At ((a &&& 0xfc) >>> 2), kCB64At ((a &&& 0x03) <<< 4), 61, 61] =
      standardBase64 [a] := by
  obtain ⟨a1, a2, -, -, -, -⟩ := byte_bits a ha
  rw [a1, a2]
  have e1 : a / 4 = a * 65536 / 262144 % 64 := by omega
  have e2 : a % 4 * 16 = a * 65536 / 4096 % 64 := by omega
  rw [e1, e2, (kCB64At_eq _ (Nat.mod_lt _ (by norm_num))).1,
    (kCB64At_eq _ (Nat.mod_lt _ (by norm_num))).1]
  rfl

theorem encode_tail_two (a b : Nat) (ha : a < 256) (hb : b < 256) :
    [kCB64At ((a &&& 0xfc) >>> 2), kCB64At (((a &&& 0x03) <<< 4) + ((b &&& 0xf0) >>> 4)),
      kCB64At ((b &&& 0x0f) <<< 2), 61] = standardBase64 [a, b] := by
  obtain ⟨a1, a2, -, -, -, -⟩ := byte_bits a ha
  obtain ⟨-, -, b3, b4, -, -⟩ := byte_bits b hb
  rw [a1, a2, b3, b4]
  have e1 : a / 4 = (a * 65536 + b * 256) / 262144 % 64 := by omega
  have e2 : a % 4 * 16 + b / 16 = (a * 65536 + b * 256) / 4096 % 64 := by omega
  have e3 : b % 16 * 4 = (a * 65536 + b * 256) / 64 % 64 := by omega
  rw [e1, e2, e3, (kCB64At_eq _ (Nat.mod_lt _ (by norm_num))).1,
    (kCB64At_eq _ (Nat.mod_lt _ (by norm_num))).1, (kCB64At_eq _ (Nat.mod_lt _ (by norm_num))).1]
  rfl

theorem getD_append_at (pre t : ZIP.Bytes) (k : Nat) :
    (pre ++ t).getD (pre.length + k) 0 = t.getD k 0 := by
  rw [List.getD_append_right _ _ _ _ (by omega), Nat.add_sub_cancel_left]

/-! ## Base64: the encoder is the standard encoding -/

theorem encodeLoop_eq : ∀ (n : Nat) (pre t enc : ZIP.Bytes), 3 * n ≤ t.length →
    (∀ x ∈ t, x < 256) →
    encodeLoop (pre ++ t) n pre.length enc =
      (pre.length + 3 * n, enc ++ standardBase64 (t.take (3 * n))) := by
  intro n
  induction n with
  | zero => intro pre t enc _ _; simp [encodeLoop, standardBase64]
  | succ n ih =>
    intro pre t enc hlen hb
    match t, hlen, hb with
    | a :: b :: c :: t1, hlen, hb =>
      have ha : a < 256 := hb a (by simp)
      have hb1 : b < 256 := hb b (by simp)
      have hc : c < 256 := hb c (by simp)
      have h0 := getD_append_at pre (a :: b :: c :: t1) 0
      have h1 := getD_append_at pre (a :: b :: c :: t1) 1
      have h2 := getD_append_at pre (a :: b :: c :: t1) 2
      simp only [Nat.add_zero, List.getD_cons_zero, List.getD_cons_succ] at h0 h1 h2
      unfold encodeLoop
      simp only [h0, h1, h2, Nat.mod_eq_of_lt ha, Nat.mod_eq_of_lt hb1, Nat.mod_eq_of_lt hc,
        encode_group a b c ha hb1 hc]
      have hpre : pre ++ a :: b :: c :: t1 = (pre ++ [a, b, c]) ++ t1 := by simp
      have hl : pre.length + 3 = (pre ++ [a, b, c]).length := by simp
      rw [hpre, hl, ih (pre ++ [a, b, c]) t1 _ (by simp at hlen; omega)
        (fun x hx => hb x (by simp [hx]))]
      have ht : List.take (3 * (n + 1)) (a :: b :: c :: t1) =
          a :: b :: c :: List.take (3 * n) t1 := by
        have : 3 * (n + 1) = 3 * n + 1 + 1 + 1 := by omega
        rw [this]
        simp [List.take_succ_cons]
      rw [ht]
      simp only [standardBase64, List.length_append, List.length_cons, List.length_nil,
        List.append_assoc, Prod.mk.injEq]
      constructor
      · omega
      · trivial
    | [], hlen, _ => simp at hlen
    | [_], hlen, _ => simp at hlen; omega
    | [_, _], hlen, _ => simp at hlen; omega

theorem standardBase64_append : ∀ (g u : ZIP.Bytes), g.length % 3 = 0 →
    standardBase64 (g ++ u) = standardBase64 g ++ standardBase64 u
  | [], u, _ => by simp [standardBase64]
  | [_], _, h => by simp at h
  | [_, _], _, h => by simp at h
  | a :: b :: c :: g, u, h => by
    have h1 : g.length % 3 = 0 := by simp at h; omega
    have ih := standardBase64_append g u h1
    show standardBase64 (a :: b :: c :: (g ++ u)) = standardBase64 (a :: b :: c :: g) ++ _
    simp only [standardBase64, ih, List.append_assoc]

theorem standardBase64_length : ∀ s : ZIP.Bytes,
    (standardBase64 s).length = 4 * ((s.length + 2) / 3)
  | [] => by simp [standardBase64]
  | [_] => by simp [standardBase64]
  | [_, _] => by simp [standardBase64]
  | a :: b :: c :: g => by
    simp only [standardBase64, List.length_append, List.length_cons, List.length_nil,
      standardBase64_length g]
    omega

theorem encodeToBase64_eq (s prev : ZIP.Bytes) (n : Nat) (hn : n = s.length) (hne : s ≠ [])
    (hb : ∀ x ∈ s, x < 256) : encodeToBase64 s prev n = standardBase64 s := by
  subst hn
  have hlen : s.length ≠ 0 := by
    intro h; exact hne (List.length_eq_zero.mp h)
  have hloop := encodeLoop_eq (s.length / 3) [] s [] (by omega) hb
  simp only [List.nil_append, List.length_nil, Nat.zero_add] at hloop
  have hsplit : s = s.take (3 * (s.length / 3)) ++ s.drop (3 * (s.length / 3)) :=
    (List.take_append_drop _ _).symm
  have htl : (s.take (3 * (s.length / 3))).length % 3 = 0 := by
    rw [List.length_take]; omega
  have hdl : (s.drop (3 * (s.length / 3))).length = s.length % 3 := by
    rw [List.length_drop]; omega
  have hg : ∀ k : Nat, s.getD (3 * (s.length / 3) + k) 0 =
      (s.drop (3 * (s.length / 3))).getD k 0 := by
    intro k
    simp [List.getD_eq_getElem?_getD, List.getElem?_drop]
  unfold encodeToBase64
  simp only [hlen, if_false, hloop]
  have h3 := Nat.mod_lt s.length (show 0 < 3 by norm_num)
  generalize hd : s.drop (3 * (s.length / 3)) = d at hdl hg hsplit
  have hbd : ∀ x ∈ d, x < 256 := by
    intro x hx
    apply hb x
    rw [hsplit]
    simp [hx]
  by_cases t1 : s.length % 3 = 1
  · simp only [t1, if_true]
    match d, hdl, hbd with
    | [a], _, hbd =>
      have ha : a < 256 := hbd a (by simp)
      have := hg 0
      simp only [Nat.add_zero, List.getD_cons_zero] at this
      rw [this, Nat.mod_eq_of_lt ha, encode_tail_one a ha]
      conv_rhs => rw [hsplit]
      rw [standardBase64_append _ _ htl]
    | [], hdl, _ => simp at hdl; omega
    | _ :: _ :: _, hdl, _ => simp at hdl; omega
  · by_cases t2 : s.length % 3 = 2
    · simp only [t2, if_true]
      simp only [show ¬ (2 = 1) by decide, if_false]
      match d, hdl, hbd with
      | [a, b], _, hbd =>
        have ha : a < 256 := hbd a (by simp)
        have hb2 : b < 256 := hbd b (by simp)
        have g0 := hg 0
        have g1 := hg 1
        simp only [Nat.add_zero, List.getD_cons_zero, List.getD_cons_succ] at g0 g1
        rw [g0, g1, Nat.mod_eq_of_lt ha, Nat.mod_eq_of_lt hb2, encode_tail_two a b ha hb2]
        conv_rhs => rw [hsplit]
        rw [standardBase64_append _ _ htl]
      | [], hdl, _ => simp at hdl; omega
      | [_], hdl, _ => simp at hdl; omega
      | _ :: _ :: _ :: _, hdl, _ => simp at hdl; omega
    · have t0 : s.length % 3 = 0 := by omega
      simp only [t0, show ¬ (0 = 1) by decide, show ¬ (0 = 2) by decide, if_false]
      have hd0 : d = [] := List.length_eq_zero.mp (by omega)
      rw [hd0, List.append_nil] at hsplit
      rw [← hsplit]

/-! ## Base64: what the decoder makes of the standard encoding -/

theorem decodeLoop_step (pre post dec : ZIP.Bytes) (n c1 c2 c3 c4 : Nat)
    (h1 : c1 < 256) (h2 : c2 < 256) (h3 : c3 < 256) (h4 : c4 < 256) :
    decodeLoop (pre ++ c1 :: c2 :: c3 :: c4 :: post) (n + 1) pre.length dec =
      decodeLoop ((pre ++ [c1, c2, c3, c4]) ++ post) n (pre ++ [c1, c2, c3, c4]).length
        (dec ++
          [(((decodeChar c1 % 256) <<< 2) + ((decodeChar c2 % 256 &&& 0x30) >>> 4)) % 256,
           (((decodeChar c2 % 256 &&& 0xf) <<< 4) +
              (((if c3 = 61 then 0 else decodeChar c3 % 256) &&& 0x3c) >>> 2)) % 256,
           ((((if c3 = 61 then 0 else decodeChar c3 % 256) &&& 0x3) <<< 6) +
              (if c3 = 61 then 0 else if c4 = 61 then 0 else decodeChar c4 % 256)) % 256]) := by
  have g0 := getD_append_at pre (c1 :: c2 :: c3 :: c4 :: post) 0
  have g1 := getD_append_at pre (c1 :: c2 :: c3 :: c4 :: post) 1
  have g2 := getD_append_at pre (c1 :: c2 :: c3 :: c4 :: post) 2
  have g3 := getD_append_at pre (c1 :: c2 :: c3 :: c4 :: post) 3
  simp only [Nat.add_zero, List.getD_cons_zero, List.getD_cons_succ] at g0 g1 g2 g3
  have hpre : pre ++ c1 :: c2 :: c3 :: c4 :: post = (pre ++ [c1, c2, c3, c4]) ++ post := by simp
  have hl : pre.length + 4 = (pre ++ [c1, c2, c3, c4]).length := by simp
  conv_lhs => unfold decodeLoop
  simp only [g0, g1, g2, g3, Nat.mod_eq_of_lt h1, Nat.mod_eq_of_lt h2, Nat.mod_eq_of_lt h3,
    Nat.mod_eq_of_lt h4]
  rw [hpre, hl]

theorem decode_full (i1 i2 i3 i4 : Nat) (h1 : i1 < 64) (h2 : i2 < 64) (h3 : i3 < 64)
    (h4 : i4 < 64) :
    [(((decodeChar (base64Char i1) % 256) <<< 2) +
        ((decodeChar (base64Char i2) % 256 &&& 0x30) >>> 4)) % 256,
     (((decodeChar (base64Char i2) % 256 &&& 0xf) <<< 4) +
        (((if base64Char i3 = 61 then 0 else decodeChar (base64Char i3) % 256) &&& 0x3c)
          >>> 2)) % 256,
     ((((if base64Char i3 = 61 then 0 else decodeChar (base64Char i3) % 256) &&& 0x3) <<< 6) +
        (if base64Char i3 = 61 then 0 else if base64Char i4 = 61 then 0
          else decodeChar (base64Char i4) % 256)) % 256] =
    [(i1 * 4 + i2 / 16) % 256, (i2 % 16 * 16 + i3 / 4) % 256, (i3 % 4 * 64 + i4) % 256] := by
  obtain ⟨-, n1, -, d1⟩ := kCB64At_eq i1 h1
  obtain ⟨-, n2, -, d2⟩ := kCB64At_eq i2 h2
  obtain ⟨-, n3, -, d3⟩ := kCB64At_eq i3 h3
  obtain ⟨-, n4, -, d4⟩ := kCB64At_eq i4 h4
  obtain ⟨s1, -, -, -, -⟩ := sextet_bits i1 h1
  obtain ⟨-, s2, s3, -, -⟩ := sextet_bits i2 h2
  obtain ⟨-, -, -, s4, s5⟩ := sextet_bits i3 h3
  simp only [d1, d2, d3, d4, n3, n4, if_false, Nat.mod_eq_of_lt (show i1 < 256 by omega),
    Nat.mod_eq_of_lt (show i2 < 256 by omega), Nat.mod_eq_of_lt (show i3 < 256 by omega),
    Nat.mod_eq_of_lt (show i4 < 256 by omega), s1, s2, s3, s4, s5]

theorem decode_pad_two (i1 i2 : Nat) (h1 : i1 < 64) (h2 : i2 < 64) (c4 : Nat) :
    [(((decodeChar (base64Char i1) % 256) <<< 2) +
        ((decodeChar (base64Char i2) % 256 &&& 0x30) >>> 4)) % 256,
     (((decodeChar (base64Char i2) % 256 &&& 0xf) <<< 4) +
        (((if (61 : Nat) = 61 then 0 else decodeChar 61 % 256) &&& 0x3c) >>> 2)) % 256,
     ((((if (61 : Nat) = 61 then 0 else decodeChar 61 % 256) &&& 0x3) <<< 6) +
        (if (61 : Nat) = 61 then 0 else if c4 = 61 then 0 else decodeChar c4 % 256)) % 256] =
    [(i1 * 4 + i2 / 16) % 256, (i2 % 16 * 16) % 256, 0] := by
  obtain ⟨-, -, -, d1⟩ := kCB64At_eq i1 h1
  obtain ⟨-, -, -, d2⟩ := kCB64At_eq i2 h2
  obtain ⟨s1, -, -, -, -⟩ := sextet_bits i1 h1
  obtain ⟨-, s2, s3, -, -⟩ := sextet_bits i2 h2
  simp only [d1, d2, if_true, Nat.mod_eq_of_lt (show i1 < 256 by omega),
    Nat.mod_eq_of_lt (show i2 < 256 by omega), s1, s2, s3]
  simp

theorem decode_pad_one (i1 i2 i3 : Nat) (h1 : i1 < 64) (h2 : i2 < 64) (h3 : i3 < 64) :
    [(((decodeChar (base64Char i1) % 256) <<< 2) +
        ((decodeChar (base64Char i2) % 256 &&& 0x30) >>> 4)) % 256,
     (((decodeChar (base64Char i2) % 256 &&& 0xf) <<< 4) +
        (((if base64Char i3 = 61 then 0 else decodeChar (base64Char i3) % 256) &&& 0x3c)
          >>> 2)) % 256,
     ((((if base64Char i3 = 61 then 0 else decodeChar (base64Char i3) % 256) &&& 0x3) <<< 6) +
        (if base64Char i3 = 61 then 0 else if (61 : Nat) = 61 then 0
          else decodeChar 61 % 256)) % 256] =
    [(i1 * 4 + i2 / 16) % 256, (i2 % 16 * 16 + i3 / 4) % 256, (i3 % 4 * 64) % 256] := by
  obtain ⟨-, -, -, d1⟩ := kCB64At_eq i1 h1
  obtain ⟨-, -, -, d2⟩ := kCB64At_eq i2 h2
  obtain ⟨-, n3, -, d3⟩ := kCB64At_eq i3 h3
  obtain ⟨s1, -, -, -, -⟩ := sextet_bits i1 h1
  obtain ⟨-, s2, s3, -, -⟩ := sextet_bits i2 h2
  obtain ⟨-, -, -, s4, s5⟩ := sextet_bits i3 h3
  simp only [d1, d2, d3, n3, if_false, if_true, Nat.mod_eq_of_lt (show i1 < 256 by omega),
    Nat.mod_eq_of_lt (show i2 < 256 by omega), Nat.mod_eq_of_lt (show i3 < 256 by omega),
    s1, s2, s3, s4, s5, Nat.add_zero]

theorem decodeLoop_zero (e : ZIP.Bytes) (i : Nat) (dec : ZIP.Bytes) :
    decodeLoop e 0 i dec = dec := by
  simp [decodeLoop]

theorem decodeLoop_standard : ∀ (t pre dec : ZIP.Bytes), (∀ x ∈ t, x < 256) →
    decodeLoop (pre ++ standardBase64 t) ((t.length + 2) / 3) pre.length dec =
      dec ++ (t ++ List.replicate ((3 - t.length % 3) % 3) 0)
  | [], pre, dec, _ => by simp [decodeLoop]
  | [a], pre, dec, hb => by
    have ha : a < 256 := hb a (by simp)
    have h1 : a * 65536 / 262144 % 64 < 64 := Nat.mod_lt _ (by norm_num)
    have h2 : a * 65536 / 4096 % 64 < 64 := Nat.mod_lt _ (by norm_num)
    have hcount : ([a].length + 2) / 3 = 0 + 1 := by simp
    have hs : standardBase64 [a] = [base64Char (a * 65536 / 262144 % 64),
      base64Char (a * 65536 / 4096 % 64), 61, 61] := by simp [standardBase64]
    rw [hcount, hs]
    rw [decodeLoop_step pre [] dec 0 _ _ 61 61 (kCB64At_eq _ h1).2.2.1 (kCB64At_eq _ h2).2.2.1
      (by norm_num) (by norm_num), decodeLoop_zero, decode_pad_two _ _ h1 h2 61]
    have e1 : (a * 65536 / 262144 % 64 * 4 + a * 65536 / 4096 % 64 / 16) % 256 = a := by omega
    have e2 : a * 65536 / 4096 % 64 % 16 * 16 % 256 = 0 := by omega
    rw [e1, e2]
    rfl
  | [a, b], pre, dec, hb => by
    have ha : a < 256 := hb a (by simp)
    have hb1 : b < 256 := hb b (by simp)
    have h1 : (a * 65536 + b * 256) / 262144 % 64 < 64 := Nat.mod_lt _ (by norm_num)
    have h2 : (a * 65536 + b * 256) / 4096 % 64 < 64 := Nat.mod_lt _ (by norm_num)
    have h3 : (a * 65536 + b * 256) / 64 % 64 < 64 := Nat.mod_lt _ (by norm_num)
    have hcount : ([a, b].length + 2) / 3 = 0 + 1 := by simp
    have hs : standardBase64 [a, b] = [base64Char ((a * 65536 + b * 256) / 262144 % 64),
      base64Char ((a * 65536 + b * 256) / 4096 % 64),
      base64Char ((a * 65536 + b * 256) / 64 % 64), 61] := by simp [standardBase64]
    rw [hcount, hs]
    rw [decodeLoop_step pre [] dec 0 _ _ _ 61 (kCB64At_eq _ h1).2.2.1 (kCB64At_eq _ h2).2.2.1
      (kCB64At_eq _ h3).2.2.1 (by norm_num), decodeLoop_zero, decode_pad_one _ _ _ h1 h2 h3]
    have e1 : ((a * 65536 + b * 256) / 262144 % 64 * 4 +
        (a * 65536 + b * 256) / 4096 % 64 / 16) % 256 = a := by omega
    have e2 : ((a * 65536 + b * 256) / 4096 % 64 % 16 * 16 +
        (a * 65536 + b * 256) / 64 % 64 / 4) % 256 = b := by omega
    have e3 : (a * 65536 + b * 256) / 64 % 64 % 4 * 64 % 256 = 0 := by omega
    rw [e1, e2, e3]
    rfl
  | a :: b :: c :: t, pre, dec, hb => by
    have ha : a < 256 := hb a (by simp)
    have hb1 : b < 256 := hb b (by simp)
    have hc : c < 256 := hb c (by simp)
    have h1 : (a * 65536 + b * 256 + c) / 262144 % 64 < 64 := Nat.mod_lt _ (by norm_num)
    have h2 : (a * 65536 + b * 256 + c) / 4096 % 64 < 64 := Nat.mod_lt _ (by norm_num)
    have h3 : (a * 65536 + b * 256 + c) / 64 % 64 < 64 := Nat.mod_lt _ (by norm_num)
    have h4 : (a * 65536 + b * 256 + c) % 64 < 64 := Nat.mod_lt _ (by norm_num)
    have hcount : ((a :: b :: c :: t).length + 2) / 3 = (t.length + 2) / 3 + 1 := by
      simp only [List.length_cons]; omega
    have hpad : (3 - (a :: b :: c :: t).length % 3) % 3 = (3 - t.length % 3) % 3 := by
      simp only [List.length_cons]; omega
    rw [hcount, hpad]
    have hs : standardBase64 (a :: b :: c :: t) =
        base64Char ((a * 65536 + b * 256 + c) / 262144 % 64) ::
        base64Char ((a * 65536 + b * 256 + c) / 4096 % 64) ::
        base64Char ((a * 65536 + b * 256 + c) / 64 % 64) ::
        base64Char ((a * 65536 + b * 256 + c) % 64) :: standardBase64 t := by
      simp [standardBase64]
    rw [hs]
    rw [decodeLoop_step pre _ dec _ _ _ _ _ (kCB64At_eq _ h1).2.2.1 (kCB64At_eq _ h2).2.2.1
      (kCB64At_eq _ h3).2.2.1 (kCB64At_eq _ h4).2.2.1, decode_full _ _ _ _ h1 h2 h3 h4,
      decodeLoop_standard t _ _ (fun x hx => hb x (by simp [hx]))]
    have e1 : ((a * 65536 + b * 256 + c) / 262144 % 64 * 4 +
        (a * 65536 + b * 256 + c) / 4096 % 64 / 16) % 256 = a := by omega
    have e2 : ((a * 65536 + b * 256 + c) / 4096 % 64 % 16 * 16 +
        (a * 65536 + b * 256 + c) / 64 % 64 / 4) % 256 = b := by omega
    have e3 : ((a * 65536 + b * 256 + c) / 64 % 64 % 4 * 64 +
        (a * 65536 + b * 256 + c) % 64) % 256 = c := by omega
    rw [e1, e2, e3]
    simp

theorem base64Char_mem : ∀ v : Nat, v < 64 → base64Char v ∈ base64Alphabet := by
  decide

theorem standardBase64_shape : ∀ s : ZIP.Bytes,
    ∃ body : ZIP.Bytes,
      standardBase64 s = body ++ List.replicate ((3 - s.length % 3) % 3) 61 ∧
      ∀ ch ∈ body, ch ∈ base64Alphabet
  | [] => ⟨[], by simp [standardBase64], by simp⟩
  | [a] =>
    ⟨[base64Char (a * 65536 / 262144 % 64), base64Char (a * 65536 / 4096 % 64)],
      by simp [standardBase64, List.replicate], by
        intro ch hch
        simp only [List.mem_cons, List.mem_singleton, List.not_mem_nil, or_false] at hch
        rcases hch with h | h <;> rw [h] <;> exact base64Char_mem _ (Nat.mod_lt _ (by norm_num))⟩
  | [a, b] =>
    ⟨[base64Char ((a * 65536 + b * 256) / 262144 % 64),
      base64Char ((a * 65536 + b * 256) / 4096 % 64),
      base64Char ((a * 65536 + b * 256) / 64 % 64)],
      by simp [standardBase64, List.replicate], by
        intro ch hch
        simp only [List.mem_cons, List.mem_singleton, List.not_mem_nil, or_false] at hch
        rcases hch with h | h | h <;> rw [h] <;>
          exact base64Char_mem _ (Nat.mod_lt _ (by norm_num))⟩
  | a :: b :: c :: t => by
    obtain ⟨body, h1, h2⟩ := standardBase64_shape t
    have hpad : (3 - (a :: b :: c :: t).length % 3) % 3 = (3 - t.length % 3) % 3 := by
      simp only [List.length_cons]; omega
    refine ⟨[base64Char ((a * 65536 + b * 256 + c) / 262144 % 64),
      base64Char ((a * 65536 + b * 256 + c) / 4096 % 64),
      base64Char ((a * 65536 + b * 256 + c) / 64 % 64),
      base64Char ((a * 65536 + b * 256 + c) % 64)] ++ body, ?_, ?_⟩
    · rw [hpad]
      simp only [standardBase64, h1, List.append_assoc]
    · intro ch hch
      simp only [List.mem_append, List.mem_cons, List.mem_singleton, List.not_mem_nil,
        or_false] at hch
      rcases hch with (h | h | h | h) | h
      · rw [h]; exact base64Char_mem _ (Nat.mod_lt _ (by norm_num))
      · rw [h]; exact base64Char_mem _ (Nat.mod_lt _ (by norm_num))
      · rw [h]; exact base64Char_mem _ (Nat.mod_lt _ (by norm_num))
      · rw [h]; exact base64Char_mem _ (Nat.mod_lt _ (by norm_num))
      · exact h2 ch h

/-! ## Claims -/

/-- C21 (the code departs from the claim): for a non-empty byte string `s`
(bytes below 256, fewer than 2^30 of them, so that the `uint32_t` arguments
are the lengths and the `int` indices stay in range), `decodeFromBase64`
applied to the whole output of `encodeToBase64(s, length of s)` yields `s`
followed by one NUL byte for each `=` of the encoding: the decoder appends
three bytes for every group of four characters, padded or not.  The result is
`s` exactly when the length of `s` is a multiple of 3; otherwise it is longer
than `s` by one byte (length mod 3 = 2) or two bytes (length mod 3 = 1). -/
theorem decode_of_encode_pads (s prev prev2 : ZIP.Bytes) (hne : s ≠ [])
    (hb : ∀ x ∈ s, x < 256) (hlen : s.length < 2 ^ 30) :
    decodeFromBase64 (encodeToBase64 s prev (s.length % 2 ^ 32)) prev2
        ((encodeToBase64 s prev (s.length % 2 ^ 32)).length % 2 ^ 32) =
      s ++ List.replicate ((3 - s.length % 3) % 3) 0 ∧
    (s.length % 3 = 0 →
      decodeFromBase64 (encodeToBase64 s prev (s.length % 2 ^ 32)) prev2
        ((encodeToBase64 s prev (s.length % 2 ^ 32)).length % 2 ^ 32) = s) ∧
    (s.length % 3 ≠ 0 →
      decodeFromBase64 (encodeToBase64 s prev (s.length % 2 ^ 32)) prev2
        ((encodeToBase64 s prev (s.length % 2 ^ 32)).length % 2 ^ 32) ≠ s ∧
      (decodeFromBase64 (encodeToBase64 s prev (s.length % 2 ^ 32)) prev2
        ((encodeToBase64 s prev (s.length % 2 ^ 32)).length % 2 ^ 32)).length =
        s.length + (3 - s.length % 3)) := by
  have hpos : 0 < s.length := List.length_pos.mpr hne
  have hmod : s.length % 2 ^ 32 = s.length := Nat.mod_eq_of_lt (by omega)
  have henc := encodeToBase64_eq s prev (s.length % 2 ^ 32) hmod hne hb
  have hl := standardBase64_length s
  have hmod2 : (standardBase64 s).length % 2 ^ 32 = (standardBase64 s).length :=
    Nat.mod_eq_of_lt (by omega)
  have hmain : decodeFromBase64 (encodeToBase64 s prev (s.length % 2 ^ 32)) prev2
      ((encodeToBase64 s prev (s.length % 2 ^ 32)).length % 2 ^ 32) =
      s ++ List.replicate ((3 - s.length % 3) % 3) 0 := by
    rw [henc, hmod2, hl]
    unfold decodeFromBase64
    have h1 : ¬ (4 * ((s.length + 2) / 3) = 0 ∨ 4 * ((s.length + 2) / 3) % 4 ≠ 0) := by omega
    rw [if_neg h1]
    have h2 : 4 * ((s.length + 2) / 3) / 4 = (s.length + 2) / 3 := by omega
    have h3 := decodeLoop_standard s [] [] hb
    simp only [List.nil_append, List.length_nil] at h3
    rw [h2, h3]
  refine ⟨hmain, ?_, ?_⟩
  · intro h0
    rw [hmain, h0]
    simp
  · intro h0
    rw [hmain]
    constructor
    · intro heq
      have := congrArg List.length heq
      simp only [List.length_append, List.length_replicate] at this
      omega
    · simp only [List.length_append, List.length_replicate]
      omega

/-- The failing input of C21: "a" is encoded to "YQ==", and "YQ==" is decoded
to the three bytes 'a', NUL, NUL. -/
theorem decode_of_encode_pads_witness :
    encodeToBase64 (ZIP.ascii "a") [] 1 = ZIP.ascii "YQ==" ∧
    decodeFromBase64 (ZIP.ascii "YQ==") [] 4 = [97, 0, 0] ∧
    decodeFromBase64 (encodeToBase64 (ZIP.ascii "a") [] ((ZIP.ascii "a").length % 2 ^ 32)) []
      ((encodeToBase64 (ZIP.ascii "a") [] ((ZIP.ascii "a").length % 2 ^ 32)).length % 2 ^ 32) ≠
      ZIP.ascii "a" :=
  ⟨by decide, by decide,
    ((decode_of_encode_pads (ZIP.ascii "a") [] [] (by decide) (by decide) (by decide)).2.2
      (by decide)).1⟩

/-- C22: for a non-empty byte string `s` (bytes below 256, fewer than 2^31
of them, so that the `uint32_t` argument is the length and the `int` index
stays in range), `encodeToBase64(s, length of s)` is the standard padded
Base64 encoding of `s`, whatever the output string held before.  It has
4 × ceil(length / 3) characters: characters of the alphabet
`A–Z a–z 0–9 + /` (which does not contain `=`), followed by `==` when
length mod 3 = 1, by one `=` when length mod 3 = 2, and by nothing when
length mod 3 = 0.  In particular "a" → "YQ==", "ab" → "YWI=", "abc" → "YWJj",
"abcd" → "YWJjZA==". -/
theorem encode_is_standard_base64 (s prev : ZIP.Bytes) (hne : s ≠ [])
    (hb : ∀ x ∈ s, x < 256) (hlen : s.length < 2 ^ 31) :
    encodeToBase64 s prev (s.length % 2 ^ 32) = standardBase64 s ∧
    (encodeToBase64 s prev (s.length % 2 ^ 32)).length = 4 * ((s.length + 2) / 3) ∧
    (∃ body : ZIP.Bytes,
      encodeToBase64 s prev (s.length % 2 ^ 32) =
        body ++ (if s.length % 3 = 1 then [61, 61] else if s.length % 3 = 2 then [61] else []) ∧
      ∀ ch ∈ body, ch ∈ base64Alphabet) ∧
    61 ∉ base64Alphabet ∧
    base64Alphabet =
      ZIP.ascii "ABCDEFGHIJKLMNOPQRSTUVWXYZabcdefghijklmnopqrstuvwxyz0123456789+/" ∧
    encodeToBase64 (ZIP.ascii "a") prev 1 = ZIP.ascii "YQ==" ∧
    encodeToBase64 (ZIP.ascii "ab") prev 2 = ZIP.ascii "YWI=" ∧
    encodeToBase64 (ZIP.ascii "abc") prev 3 = ZIP.ascii "YWJj" ∧
    encodeToBase64 (ZIP.ascii "abcd") prev 4 = ZIP.ascii "YWJjZA==" := by
  have hmod : s.length % 2 ^ 32 = s.length := Nat.mod_eq_of_lt (by omega)
  have henc := encodeToBase64_eq s prev (s.length % 2 ^ 32) hmod hne hb
  refine ⟨henc, ?_, ?_, by decide, by decide, ?_, ?_, ?_, ?_⟩
  · rw [henc, standardBase64_length]
  · obtain ⟨body, h1, h2⟩ := standardBase64_shape s
    refine ⟨body, ?_, h2⟩
    rw [henc, h1]
    have h3 := Nat.mod_lt s.length (show 0 < 3 by norm_num)
    by_cases t1 : s.length % 3 = 1
    · simp [t1, List.replicate]
    · by_cases t2 : s.length % 3 = 2
      · simp [t2, List.replicate]
      · have t0 : s.length % 3 = 0 := by omega
        simp [t0]
  · rw [encodeToBase64_eq (ZIP.ascii "a") prev 1 (by decide) (by decide) (by decide)]
    decide
  · rw [encodeToBase64_eq (ZIP.ascii "ab") prev 2 (by decide) (by decide) (by decide)]
    decide
  · rw [encodeToBase64_eq (ZIP.ascii "abc") prev 3 (by decide) (by decide) (by decide)]
    decide
  · rw [encodeToBase64_eq (ZIP.ascii "abcd") prev 4 (by decide) (by decide) (by decide)]
    decide

/-- Witness for C22: "abcd" is encoded over an output string that held
"old". -/
theorem encode_is_standard_base64_witness :
    ZIP.ascii "abcd" ≠ [] ∧ (∀ x ∈ ZIP.ascii "abcd", x < 256) ∧
    encodeToBase64 (ZIP.ascii "abcd") (ZIP.ascii "old") ((ZIP.ascii "abcd").length % 2 ^ 32) =
      standardBase64 (ZIP.ascii "abcd") ∧
    encodeToBase64 (ZIP.ascii "abcd") (ZIP.ascii "old") 4 = ZIP.ascii "YWJjZA==" :=
  ⟨by decide, by decide,
    (encode_is_standard_base64 (ZIP.ascii "abcd") (ZIP.ascii "old") (by decide) (by decide)
      (by decide)).1,
    by decide⟩

end Antik.SMTP
